import Mathlib

/-!
# Site-log equipment history resolution (tools/sitelogs/main.go)

A shallow embedding of the per-station resolution loop of `main`: the lookup
tables built from the loaded record lists, the met-sensor, antenna and receiver
loops, the final sort, and the minimum-data filter.

Conventions of the embedding.

* `time.Time` values are instants on a line, modelled by `Int`; `Before` and
  `After` are the strict comparisons.
* In the station loop `float64` values are only carried from the input to a
  formatting call, never computed with; they are modelled by their 64-bit
  pattern, a `Nat`.
* Library calls whose result is a string (`Time.Format(DateTimeFormat)` and
  `strconv.FormatFloat`) are the fields of an environment `Env`.
* `time.Now()` is one instant `now`, fixed for a run.
* A Go `map[string]T` is an association list with unique keys, `GoMap T`.
* `sort.Sort` is the routine of the library of Go 1.19 and later, `pdqsort`,
  embedded function by function on a list with explicit indices; it runs
  insertion sort alone on a slice of at most twelve elements. Its loops take a
  bound on their number of rounds, computed from the indices and never reached
  before the loop ends.
* `country` is embedded over a float arithmetic `FloatOps` and a transform
  `WGS842ITRF` that are taken as given.
-/

namespace Sitelogs

/-! ## Basic types -/

/-- An instant (`time.Time`). -/
abbrev Time := Int

/-- A `float64`, by its bit pattern. -/
abbrev Float64 := Nat

/-- The comparison `t.Before(u)`. -/
def Before (t u : Time) : Bool := decide (t < u)

/-- The comparison `t.After(u)`. -/
def After (t u : Time) : Bool := decide (u < t)

/-- The library functions the loop calls to produce strings. -/
structure Env where
  /-- The call `t.Format(DateTimeFormat)`. -/
  Format : Time → String
  /-- The call `strconv.FormatFloat(f, fmt, prec, 64)`. -/
  FormatFloat : Float64 → Char → Int → String

/-- The record `meta.Session`, with the fields the loop reads. -/
structure Session where
  MarkCode : String
  SatelliteSystem : String
  ElevationMask : Float64
  Start : Time
  End : Time
  deriving DecidableEq, Repr

/-- The record `meta.InstalledAntenna`. -/
structure InstalledAntenna where
  MarkCode : String
  Model : String
  Serial : String
  Height : Float64
  North : Float64
  East : Float64
  Start : Time
  End : Time
  deriving DecidableEq, Repr

/-- The record `meta.InstalledRadome`. -/
structure InstalledRadome where
  MarkCode : String
  Model : String
  Serial : String
  Start : Time
  End : Time
  deriving DecidableEq, Repr

/-- The record `meta.DeployedReceiver`; its station key is the field `Mark`. -/
structure DeployedReceiver where
  Mark : String
  Model : String
  Serial : String
  Start : Time
  End : Time
  deriving DecidableEq, Repr

/-- The record `meta.FirmwareHistory`. -/
structure FirmwareHistory where
  Model : String
  Serial : String
  Version : String
  Start : Time
  End : Time
  deriving DecidableEq, Repr

/-- The record `meta.InstalledMetSensor`. -/
structure InstalledMetSensor where
  MarkCode : String
  Make : String
  Model : String
  Serial : String
  Start : Time
  End : Time
  deriving DecidableEq, Repr

/-- The record `meta.Mark`; `ReferenceCode` is `m.Reference.Code`. -/
structure Mark where
  Code : String
  ReferenceCode : String
  Name : String
  Network : String
  Latitude : Float64
  Longitude : Float64
  Elevation : Float64
  Start : Time
  deriving DecidableEq, Repr

/-- The record `meta.Monument`. -/
structure Monument where
  MarkCode : String
  DomesNumber : String
  MonumentType : String
  MarkType : String
  FoundationType : String
  GroundRelationship : Float64
  FoundationDepth : Float64
  deriving DecidableEq, Repr

/-- The output record `GnssReceiver`, as the loop fills it. -/
structure GnssReceiver where
  ReceiverType : String
  SatelliteSystem : String
  SerialNumber : String
  FirmwareVersion : String
  ElevationCutoffSetting : String
  DateInstalled : String
  DateRemoved : String
  TemperatureStabilization : String
  Notes : String
  deriving DecidableEq, Repr

/-- The output record `GnssAntenna`, as the loop fills it. -/
structure GnssAntenna where
  AntennaType : String
  SerialNumber : String
  AntennaReferencePoint : String
  MarkerArpUpEcc : String
  MarkerArpNorthEcc : String
  MarkerArpEastEcc : String
  AlignmentFromTrueNorth : String
  AntennaRadomeType : String
  RadomeSerialNumber : String
  AntennaCableType : String
  AntennaCableLength : String
  DateInstalled : String
  DateRemoved : String
  Notes : String
  deriving DecidableEq, Repr

/-- The output record `GnssMetSensor`, as the loop fills it. -/
structure GnssMetSensor where
  Manufacturer : String
  MetSensorModel : String
  SerialNumber : String
  DataSamplingInterval : String
  EffectiveDates : String
  Notes : String
  deriving DecidableEq, Repr

/-- The per-station value `x` of type `SiteLog`. Its three equipment lists are
kept as such; every other field of the Go value is a constant or a function of
the mark `m`, of `monuments[m.Code]`, of the antenna list and of the clock, so
the two records stand for them. -/
structure SiteLog where
  mark : Mark
  monument : Monument
  GnssReceivers : List GnssReceiver
  GnssAntennas : List GnssAntenna
  GnssMetSensors : List GnssMetSensor
  deriving DecidableEq, Repr

/-! ## Go maps -/

/-- A `map[string]T`: an association list in which a key occurs once. -/
abbrev GoMap (β : Type) := List (String × β)

/-- The lookup `v, ok := m[k]`: `none` when `ok` is false. -/
def mapGet {β : Type} : GoMap β → String → Option β
  | [], _ => none
  | (k1, v) :: rest, k => if k1 = k then some v else mapGet rest k

/-- The assignment `m[k] = v`. -/
def mapSet {β : Type} : GoMap β → String → β → GoMap β
  | [], k, v => [(k, v)]
  | (k1, v1) :: rest, k, v =>
    if k1 = k then (k, v) :: rest else (k1, v1) :: mapSet rest k v

/-- The statement `m[k] = append(m[k], x)`; a missing key reads as the nil
slice. -/
def mapAppend {β : Type} (m : GoMap (List β)) (k : String) (x : β) : GoMap (List β) :=
  mapSet m k ((mapGet m k).getD [] ++ [x])

/-- A loop `for k := range m` that replaces every value `m[k]` by `f m[k]`. -/
def mapValues {β : Type} (f : β → β) (m : GoMap β) : GoMap β :=
  m.map (fun kv => (kv.1, f kv.2))

/-- The read `m[k]` of a slice-valued map: the nil slice when the key is
missing. -/
def mapSlice {β : Type} (m : GoMap (List β)) (k : String) : List β :=
  (mapGet m k).getD []

/-! ## Sorting -/

/-- One pass of the inner loop of the library `insertionSort`, on the sorted
prefix held last element first: `x` moves left while `less x` holds of its left
neighbour. -/
def sink {α : Type} (less : α → α → Bool) (x : α) : List α → List α
  | [] => [x]
  | h :: t => if less x h then h :: sink less x t else x :: h :: t

/-- The library `insertionSort(data, 0, n)`. -/
def insertionSort {α : Type} (less : α → α → Bool) (l : List α) : List α :=
  (l.foldl (fun acc x => sink less x acc) []).reverse

/-- The call `data.Less(i, j)` on the slice `l`. -/
def lessAt {α : Type} (less : α → α → Bool) (l : List α) (i j : Nat) : Bool :=
  match l[i]?, l[j]? with
  | some x, some y => less x y
  | _, _ => false

/-- The call `data.Swap(i, j)` on the slice `l`. -/
def swapAt {α : Type} (l : List α) (i j : Nat) : List α :=
  match l[i]?, l[j]? with
  | some x, some y => (l.set i y).set j x
  | _, _ => l

/-- The library `insertionSort(data, a, b)`: `insertionSort` on the elements
from index `a` up to index `b`, the others left in place. -/
def insertionSortRange {α : Type} (less : α → α → Bool) (l : List α) (a b : Nat) : List α :=
  l.take a ++ insertionSort less ((l.drop a).take (b - a)) ++ (l.drop a).drop (b - a)

/-- The loop of the library `siftDown(data, lo, hi, first)`, from `root`. -/
def siftDown {α : Type} (less : α → α → Bool) (hi first : Nat) : Nat → List α → Nat → List α
  | 0, l, _ => l
  | fuel + 1, l, root =>
    let child := 2 * root + 1
    if hi ≤ child then l
    else
      let child :=
        if child + 1 < hi && lessAt less l (first + child) (first + child + 1) then child + 1
        else child
      if !lessAt less l (first + root) (first + child) then l
      else siftDown less hi first fuel (swapAt l (first + root) (first + child)) child

/-- The library `heapSort(data, a, b)`. -/
def heapSort {α : Type} (less : α → α → Bool) (l : List α) (a b : Nat) : List α :=
  let hi := b - a
  let l1 := (List.range ((hi - 1) / 2 + 1)).reverse.foldl
    (fun acc i => siftDown less hi a hi acc i) l
  (List.range hi).reverse.foldl
    (fun acc i => siftDown less i a i (swapAt acc a (a + i)) 0) l1

/-- The loop `for i <= j && data.Less(i, a) { i++ }`; the result is `i`. -/
def scanUp {α : Type} (less : α → α → Bool) (l : List α) (a j : Nat) : Nat → Nat → Nat
  | 0, i => i
  | fuel + 1, i =>
    if i ≤ j && lessAt less l i a then scanUp less l a j fuel (i + 1) else i

/-- The loop `for i <= j && !data.Less(j, a) { j-- }`; the result is `j`. -/
def scanDown {α : Type} (less : α → α → Bool) (l : List α) (a i : Nat) : Nat → Nat → Nat
  | 0, j => j
  | fuel + 1, j =>
    if i ≤ j && !lessAt less l j a then scanDown less l a i fuel (j - 1) else j

/-- The unconditional loop of the library `partition`; the result is the slice
and `j`. -/
def partitionLoop {α : Type} (less : α → α → Bool) (a : Nat) :
    Nat → List α → Nat → Nat → List α × Nat
  | 0, l, _, j => (l, j)
  | fuel + 1, l, i, j =>
    let i1 := scanUp less l a j (j + 1 - i) i
    let j1 := scanDown less l a i1 (j + 1 - i1) j
    if j1 < i1 then (l, j1)
    else partitionLoop less a fuel (swapAt l i1 j1) (i1 + 1) (j1 - 1)

/-- The library `partition(data, a, b, pivot)`; the result is the slice, the
new index of the pivot, and whether the slice was already partitioned. -/
def partition {α : Type} (less : α → α → Bool) (l : List α) (a b pivot : Nat) :
    List α × Nat × Bool :=
  let l1 := swapAt l a pivot
  let i := scanUp less l1 a (b - 1) (b - 1 - a) (a + 1)
  let j := scanDown less l1 a i (b - i) (b - 1)
  if j < i then (swapAt l1 j a, j, true)
  else
    let r := partitionLoop less a (j + 1 - i) (swapAt l1 i j) (i + 1) (j - 1)
    (swapAt r.1 r.2 a, r.2, false)

/-- The loop `for i <= j && !data.Less(a, i) { i++ }`; the result is `i`. -/
def scanUpEqual {α : Type} (less : α → α → Bool) (l : List α) (a j : Nat) : Nat → Nat → Nat
  | 0, i => i
  | fuel + 1, i =>
    if i ≤ j && !lessAt less l a i then scanUpEqual less l a j fuel (i + 1) else i

/-- The loop `for i <= j && data.Less(a, j) { j-- }`; the result is `j`. -/
def scanDownEqual {α : Type} (less : α → α → Bool) (l : List α) (a i : Nat) : Nat → Nat → Nat
  | 0, j => j
  | fuel + 1, j =>
    if i ≤ j && lessAt less l a j then scanDownEqual less l a i fuel (j - 1) else j

/-- The loop of the library `partitionEqual`; the result is the slice and
`i`. -/
def partitionEqualLoop {α : Type} (less : α → α → Bool) (a : Nat) :
    Nat → List α → Nat → Nat → List α × Nat
  | 0, l, i, _ => (l, i)
  | fuel + 1, l, i, j =>
    let i1 := scanUpEqual less l a j (j + 1 - i) i
    let j1 := scanDownEqual less l a i1 (j + 1 - i1) j
    if j1 < i1 then (l, i1)
    else partitionEqualLoop less a fuel (swapAt l i1 j1) (i1 + 1) (j1 - 1)

/-- The library `partitionEqual(data, a, b, pivot)`; the result is the slice
and the index after the elements equal to the pivot. -/
def partitionEqual {α : Type} (less : α → α → Bool) (l : List α) (a b pivot : Nat) :
    List α × Nat :=
  partitionEqualLoop less a (b - a) (swapAt l a pivot) (a + 1) (b - 1)

/-- The loop `for i < b && !data.Less(i, i-1) { i++ }`; the result is `i`. -/
def scanOrdered {α : Type} (less : α → α → Bool) (l : List α) (b : Nat) : Nat → Nat → Nat
  | 0, i => i
  | fuel + 1, i =>
    if i < b && !lessAt less l i (i - 1) then scanOrdered less l b fuel (i + 1) else i

/-- The loop `for j := i - 1; j >= 1; j--` of `partialInsertionSort`, from
`j`. -/
def shiftSmaller {α : Type} (less : α → α → Bool) : Nat → List α → Nat → List α
  | 0, l, _ => l
  | fuel + 1, l, j =>
    if 1 ≤ j then
      if !lessAt less l j (j - 1) then l
      else shiftSmaller less fuel (swapAt l j (j - 1)) (j - 1)
    else l

/-- The loop `for j := i + 1; j < b; j++` of `partialInsertionSort`, from
`j`. -/
def shiftGreater {α : Type} (less : α → α → Bool) (b : Nat) : Nat → List α → Nat → List α
  | 0, l, _ => l
  | fuel + 1, l, j =>
    if j < b then
      if !lessAt less l j (j - 1) then l
      else shiftGreater less b fuel (swapAt l j (j - 1)) (j + 1)
    else l

/-- The loop `for j := 0; j < maxSteps; j++` of `partialInsertionSort`, with
`steps` rounds left. -/
def partialInsertionLoop {α : Type} (less : α → α → Bool) (a b : Nat) :
    Nat → List α → Nat → List α × Bool
  | 0, l, _ => (l, false)
  | steps + 1, l, i =>
    let i1 := scanOrdered less l b (b - i) i
    if i1 = b then (l, true)
    else if b - a < 50 then (l, false)
    else
      let l1 := swapAt l i1 (i1 - 1)
      let l2 := if 2 ≤ i1 - a then shiftSmaller less i1 l1 (i1 - 1) else l1
      let l3 := if 2 ≤ b - i1 then shiftGreater less b (b - i1) l2 (i1 + 1) else l2
      partialInsertionLoop less a b steps l3 i1

/-- The library `partialInsertionSort(data, a, b)`, with `maxSteps = 5` and
`shortestShifting = 50`. -/
def partialInsertionSort {α : Type} (less : α → α → Bool) (l : List α) (a b : Nat) :
    List α × Bool :=
  partialInsertionLoop less a b 5 l (a + 1)

/-- The library `bits.Len` of an unsigned 64-bit number. -/
def bitsLen : Nat → Nat → Nat
  | 0, _ => 0
  | fuel + 1, n => if n = 0 then 0 else bitsLen fuel (n / 2) + 1

/-- The method `Next` of the library `xorshift`, on 64 bits. -/
def xorshiftNext (r : Nat) : Nat :=
  let r1 := r ^^^ ((r <<< 13) % 2 ^ 64)
  let r2 := r1 ^^^ (r1 >>> 17)
  r2 ^^^ ((r2 <<< 5) % 2 ^ 64)

/-- The library `breakPatterns(data, a, b)`. -/
def breakPatterns {α : Type} (l : List α) (a b : Nat) : List α :=
  let length := b - a
  if 8 ≤ length then
    let modulus := 2 ^ bitsLen 64 length
    let idx := a + (length / 4) * 2 - 1
    let step := fun (s : List α × Nat) (i : Nat) =>
      let random := xorshiftNext s.2
      let other := random &&& (modulus - 1)
      let other := if length ≤ other then other - length else other
      (swapAt s.1 (idx - 1 + i) (a + other), random)
    ((List.range 3).foldl step (l, length)).1
  else l

/-- The library `reverseRange(data, a, b)`, from `i` and `j`. -/
def reverseLoop {α : Type} : Nat → List α → Nat → Nat → List α
  | 0, l, _, _ => l
  | fuel + 1, l, i, j =>
    if i < j then reverseLoop fuel (swapAt l i j) (i + 1) (j - 1) else l

/-- The library `reverseRange(data, a, b)`. -/
def reverseRange {α : Type} (l : List α) (a b : Nat) : List α :=
  reverseLoop (b - a) l a (b - 1)

/-- The library type `sortedHint`. -/
inductive SortedHint where
  | unknownHint
  | increasingHint
  | decreasingHint
  deriving DecidableEq, Repr

/-- The library `order2(data, a, b, swaps)`; the count of swaps is the third
component. -/
def order2 {α : Type} (less : α → α → Bool) (l : List α) (a b swaps : Nat) : Nat × Nat × Nat :=
  if lessAt less l b a then (b, a, swaps + 1) else (a, b, swaps)

/-- The library `median(data, a, b, c, swaps)`; the result is the index of the
median and the count of swaps. -/
def median {α : Type} (less : α → α → Bool) (l : List α) (a b c swaps : Nat) : Nat × Nat :=
  let r1 := order2 less l a b swaps
  let r2 := order2 less l r1.2.1 c r1.2.2
  let r3 := order2 less l r1.1 r2.1 r2.2.2
  (r3.2.1, r3.2.2)

/-- The library `medianAdjacent(data, a, swaps)`. -/
def medianAdjacent {α : Type} (less : α → α → Bool) (l : List α) (a swaps : Nat) : Nat × Nat :=
  median less l (a - 1) a (a + 1) swaps

/-- The library `choosePivot(data, a, b)`, with `shortestNinther = 50` and
`maxSwaps = 12`. -/
def choosePivot {α : Type} (less : α → α → Bool) (l : List α) (a b : Nat) : Nat × SortedHint :=
  let len := b - a
  let i := a + len / 4 * 1
  let j := a + len / 4 * 2
  let k := a + len / 4 * 3
  let m :=
    if 8 ≤ len then
      let r :=
        if 50 ≤ len then
          let ri := medianAdjacent less l i 0
          let rj := medianAdjacent less l j ri.2
          let rk := medianAdjacent less l k rj.2
          (ri.1, rj.1, rk.1, rk.2)
        else (i, j, k, 0)
      median less l r.1 r.2.1 r.2.2.1 r.2.2.2
    else (j, 0)
  if m.2 = 0 then (m.1, SortedHint.increasingHint)
  else if m.2 = 12 then (m.1, SortedHint.decreasingHint)
  else (m.1, SortedHint.unknownHint)

/-- The library `pdqsort(data, a, b, limit)`; the booleans are its local
variables `wasBalanced` and `wasPartitioned`, and `fuel` bounds the nesting of
the loop and the recursive calls. -/
def pdqsort {α : Type} (less : α → α → Bool) :
    Nat → List α → Nat → Nat → Nat → Bool → Bool → List α
  | 0, l, _, _, _, _, _ => l
  | fuel + 1, l, a, b, limit, wasBalanced, wasPartitioned =>
    let length := b - a
    if length ≤ 12 then insertionSortRange less l a b
    else if limit = 0 then heapSort less l a b
    else
      let l1 := if wasBalanced then l else breakPatterns l a b
      let limit1 := if wasBalanced then limit else limit - 1
      let ph := choosePivot less l1 a b
      let l2 := if ph.2 = SortedHint.decreasingHint then reverseRange l1 a b else l1
      let pivot := if ph.2 = SortedHint.decreasingHint then (b - 1) - (ph.1 - a) else ph.1
      let hint :=
        if ph.2 = SortedHint.decreasingHint then SortedHint.increasingHint else ph.2
      let tried :=
        if wasBalanced && wasPartitioned && decide (hint = SortedHint.increasingHint) then
          partialInsertionSort less l2 a b
        else (l2, false)
      if tried.2 then tried.1
      else
        let l3 := tried.1
        if decide (0 < a) && !lessAt less l3 (a - 1) pivot then
          let pe := partitionEqual less l3 a b pivot
          pdqsort less fuel pe.1 pe.2 b limit1 wasBalanced wasPartitioned
        else
          let p := partition less l3 a b pivot
          let mid := p.2.1
          let leftLen := mid - a
          let rightLen := b - mid
          let balanceThreshold := length / 8
          if leftLen < rightLen then
            pdqsort less fuel (pdqsort less fuel p.1 a mid limit1 true true) (mid + 1) b limit1
              (decide (balanceThreshold ≤ leftLen)) p.2.2
          else
            pdqsort less fuel (pdqsort less fuel p.1 (mid + 1) b limit1 true true) a mid limit1
              (decide (balanceThreshold ≤ rightLen)) p.2.2

/-- The call `sort.Sort(data)` for the ordering `less` of `data`, as the
library of Go 1.19 and later runs it: nothing on at most one element, else
`pdqsort(data, 0, n, bits.Len(n))`, which sorts a slice of at most twelve
elements by `insertionSort` alone. The library promises an ascending
rearrangement and no stability. -/
def sortSort {α : Type} (less : α → α → Bool) (l : List α) : List α :=
  if l.length ≤ 1 then l
  else pdqsort less (l.length + 1) l 0 l.length (bitsLen 64 l.length) true true

/-! ## Predicates on slices, for the lemmas on the sort -/

/-- The slice `r` is a rearrangement of `l` that differs from it only at the
indices from `a` up to `b`. -/
def Rearr {α : Type} (a b : Nat) (l r : List α) : Prop :=
  r.Perm l ∧ r.take a = l.take a ∧ r.drop b = l.drop b

/-- The elements of `l` at the indices from `a` up to `b`. -/
def seg {α : Type} (l : List α) (a b : Nat) : List α := (l.drop a).take (b - a)

/-- Ascending in the key at the indices from `a` up to `b`. -/
def SortedOn {α κ : Type} [LinearOrder κ] (key : α → κ) (d : α) (l : List α) (a b : Nat) :
    Prop :=
  ∀ i j, a ≤ i → i ≤ j → j < b → key (l.getD i d) ≤ key (l.getD j d)

/-- Each element at an index after `a` and before `b` is not less than the
element before it. -/
def AdjOn {α κ : Type} [LinearOrder κ] (key : α → κ) (d : α) (l : List α) (a b : Nat) :
    Prop :=
  ∀ k, a < k → k < b → key (l.getD (k - 1) d) ≤ key (l.getD k d)

/-- When the range does not start the slice, no element of the range is less
than the element before the range. -/
def LowerBound {α κ : Type} [LinearOrder κ] (key : α → κ) (d : α) (l : List α)
    (a b : Nat) : Prop :=
  a = 0 ∨ ∀ k, a ≤ k → k < b → key (l.getD (a - 1) d) ≤ key (l.getD k d)

/-- In the heap of `n` elements stored from index `a`, every node from `lo` on
is not less than its children. -/
def HeapFrom {α κ : Type} [LinearOrder κ] (key : α → κ) (d : α) (m : List α)
    (a lo n : Nat) : Prop :=
  ∀ p c, lo ≤ p → c < n → (c = 2 * p + 1 ∨ c = 2 * p + 2) →
    key (m.getD (a + c) d) ≤ key (m.getD (a + p) d)

/-- The heap property from `lo` on, except at the node `r`, whose children are
not greater than its parent. -/
def HeapExcept {α κ : Type} [LinearOrder κ] (key : α → κ) (d : α) (m : List α)
    (a lo n r : Nat) : Prop :=
  (∀ p c, lo ≤ p → p ≠ r → c < n → (c = 2 * p + 1 ∨ c = 2 * p + 2) →
    key (m.getD (a + c) d) ≤ key (m.getD (a + p) d)) ∧
  (∀ q c, lo ≤ q → (r = 2 * q + 1 ∨ r = 2 * q + 2) → c < n →
    (c = 2 * r + 1 ∨ c = 2 * r + 2) →
    key (m.getD (a + c) d) ≤ key (m.getD (a + q) d))

/-- The `Less` methods of the list types of package `meta`, by which `main`
sorts each group of its equipment tables. Package `meta` is imported, not part
of main.go, so the five orderings are taken as given. -/
structure MetaLess where
  FirmwareHistoryList : FirmwareHistory → FirmwareHistory → Bool
  InstalledAntennaList : InstalledAntenna → InstalledAntenna → Bool
  DeployedReceiverList : DeployedReceiver → DeployedReceiver → Bool
  InstalledRadomeList : InstalledRadome → InstalledRadome → Bool
  InstalledMetSensorList : InstalledMetSensor → InstalledMetSensor → Bool

/-- The comparison `a < b` of two Go strings: lexicographic, character by
character. -/
def stringLess (a b : String) : Bool := decide (a.data < b.data)

/-- Modelled from the spec: the method `Less` of `GnssReceivers` is declared
outside main.go; the spec sorts the resolved receiver records ascending by
installed date, which in the record is the string field `DateInstalled`. -/
def GnssReceivers.Less (a b : GnssReceiver) : Bool :=
  stringLess a.DateInstalled b.DateInstalled

/-- Modelled from the spec: the method `Less` of `GnssAntennas` is declared
outside main.go; the spec sorts the resolved antenna records ascending by
installed date, which in the record is the string field `DateInstalled`. -/
def GnssAntennas.Less (a b : GnssAntenna) : Bool :=
  stringLess a.DateInstalled b.DateInstalled

/-! ## The tables built by `main` before the station loop -/

/-- The record lists loaded from the CSV files. -/
structure Input where
  firmwareHistoryList : List FirmwareHistory
  installedAntennaList : List InstalledAntenna
  deployedReceiverList : List DeployedReceiver
  installedRadomeList : List InstalledRadome
  installedMetSensorList : List InstalledMetSensor
  markList : List Mark
  sessionList : List Session
  monumentList : List Monument

/-- The map `firmwareHistory`: model, then serial, then the sorted entries. -/
def firmwareHistory (L : MetaLess) (firmwareHistoryList : List FirmwareHistory) :
    GoMap (GoMap (List FirmwareHistory)) :=
  mapValues (mapValues (sortSort L.FirmwareHistoryList))
    (firmwareHistoryList.foldl
      (fun fh i =>
        let fh1 := match mapGet fh i.Model with
          | some _ => fh
          | none => mapSet fh i.Model []
        mapSet fh1 i.Model (mapAppend ((mapGet fh1 i.Model).getD []) i.Serial i))
      [])

/-- The map `installedAntenna`. -/
def installedAntenna (L : MetaLess) (installedAntennaList : List InstalledAntenna) :
    GoMap (List InstalledAntenna) :=
  mapValues (sortSort L.InstalledAntennaList)
    (installedAntennaList.foldl (fun m i => mapAppend m i.MarkCode i) [])

/-- The map `deployedReceivers`. -/
def deployedReceivers (L : MetaLess) (deployedReceiverList : List DeployedReceiver) :
    GoMap (List DeployedReceiver) :=
  mapValues (sortSort L.DeployedReceiverList)
    (deployedReceiverList.foldl (fun m i => mapAppend m i.Mark i) [])

/-- The map `installedRadomes`. -/
def installedRadomes (L : MetaLess) (installedRadomeList : List InstalledRadome) :
    GoMap (List InstalledRadome) :=
  mapValues (sortSort L.InstalledRadomeList)
    (installedRadomeList.foldl (fun m i => mapAppend m i.MarkCode i) [])

/-- The map `installedMetSensors`. -/
def installedMetSensors (L : MetaLess) (installedMetSensorList : List InstalledMetSensor) :
    GoMap (List InstalledMetSensor) :=
  mapValues (sortSort L.InstalledMetSensorList)
    (installedMetSensorList.foldl (fun m i => mapAppend m i.MarkCode i) [])

/-- The map `sessions`: grouped by mark code, not sorted. -/
def sessions (sessionList : List Session) : GoMap (List Session) :=
  sessionList.foldl (fun m s => mapAppend m s.MarkCode s) []

/-- The map `monuments`: a later monument of a code replaces an earlier one. -/
def monuments (monumentList : List Monument) : GoMap Monument :=
  monumentList.foldl (fun mm m => mapSet mm m.MarkCode m) []

/-- The seven maps the station loop reads. -/
structure Tables where
  firmwareHistory : GoMap (GoMap (List FirmwareHistory))
  installedAntenna : GoMap (List InstalledAntenna)
  deployedReceivers : GoMap (List DeployedReceiver)
  installedRadomes : GoMap (List InstalledRadome)
  installedMetSensors : GoMap (List InstalledMetSensor)
  sessions : GoMap (List Session)
  monuments : GoMap Monument

/-- The tables `main` builds from the loaded lists. -/
def tables (L : MetaLess) (inp : Input) : Tables where
  firmwareHistory := firmwareHistory L inp.firmwareHistoryList
  installedAntenna := installedAntenna L inp.installedAntennaList
  deployedReceivers := deployedReceivers L inp.deployedReceiverList
  installedRadomes := installedRadomes L inp.installedRadomeList
  installedMetSensors := installedMetSensors L inp.installedMetSensorList
  sessions := sessions inp.sessionList
  monuments := monuments inp.monumentList

/-! ## The met-sensor loop -/

/-- The session search of the met-sensor loop: the first session, in slice
order, that the skip test lets through. -/
def metsensorSession (m : InstalledMetSensor) : List Session → Option Session
  | [] => none
  | s :: rest =>
    if After m.Start s.End || Before m.End s.Start then metsensorSession m rest
    else some s

/-- The record appended for a met sensor that has a session. -/
def metsensorRecord (m : InstalledMetSensor) : GnssMetSensor where
  Manufacturer := m.Make
  MetSensorModel := m.Model
  SerialNumber := m.Serial
  DataSamplingInterval := "360 sec"
  EffectiveDates := "2000-02-05/CCYY-MM-DD"
  Notes := ""

/-- The slice `metsensors` after the loop over
`installedMetSensors[m.Reference.Code]`. -/
def metsensors (T : Tables) (m : Mark) : List GnssMetSensor :=
  (mapSlice T.installedMetSensors m.ReferenceCode).foldl
    (fun acc ms =>
      match metsensorSession ms (mapSlice T.sessions ms.MarkCode) with
      | none => acc
      | some _ => acc ++ [metsensorRecord ms])
    []

/-! ## The antenna loop -/

/-- The session search of the antenna loop. -/
def antennaSession (a : InstalledAntenna) : List Session → Option Session
  | [] => none
  | s :: rest =>
    if After a.Start s.End || Before a.End s.Start then antennaSession a rest
    else some s

/-- The pair `(radome, serial)` after the scan of `installedRadomes[m.Code]`:
every radome the skip test lets through overwrites the pair. -/
def radomeScan (a : InstalledAntenna) (radomes : List InstalledRadome) : String × String :=
  radomes.foldl
    (fun acc v =>
      if After v.Start a.End || Before v.End a.Start then acc
      else (v.Model, v.Serial))
    ("NONE", "")

/-- The pair `(radome, serial)` for antenna `a` at mark code `code`. -/
def radomeOf (T : Tables) (code : String) (a : InstalledAntenna) : String × String :=
  match mapGet T.installedRadomes code with
  | none => ("NONE", "")
  | some radomes => radomeScan a radomes

/-- The record appended for an antenna that has a session. -/
def antennaRecord (env : Env) (now : Time) (a : InstalledAntenna)
    (radome serial : String) : GnssAntenna where
  AntennaType := a.Model
  SerialNumber := a.Serial
  AntennaReferencePoint := "BAM"
  MarkerArpUpEcc := env.FormatFloat a.Height 'f' 4
  MarkerArpNorthEcc := env.FormatFloat a.North 'f' 4
  MarkerArpEastEcc := env.FormatFloat a.East 'f' 4
  AlignmentFromTrueNorth := "0"
  AntennaRadomeType := radome
  RadomeSerialNumber := serial
  AntennaCableType := ""
  AntennaCableLength := ""
  DateInstalled := env.Format a.Start
  DateRemoved := if After now a.End then env.Format a.End else ""
  Notes := ""

/-- One pass of the loop over `installedAntenna[m.Code]`, for install `a`: the
slice `antennas` after the pass, given the slice `acc` before it. -/
def antennasPass (env : Env) (now : Time) (T : Tables) (m : Mark)
    (acc : List GnssAntenna) (a : InstalledAntenna) : List GnssAntenna :=
  match antennaSession a (mapSlice T.sessions m.Code) with
  | none => acc
  | some _ =>
    acc ++ [antennaRecord env now a (radomeOf T m.Code a).1 (radomeOf T m.Code a).2]

/-- The slice `antennas` after the loop over `installedAntenna[m.Code]`, before
it is sorted. -/
def antennas (env : Env) (now : Time) (T : Tables) (m : Mark) : List GnssAntenna :=
  (mapSlice T.installedAntenna m.Code).foldl (antennasPass env now T m) []

/-! ## The receiver loop -/

/-- The session search of the receiver loop: a session is skipped when it
misses the deployment `r` or misses the firmware entry `v`. -/
def receiverSession (r : DeployedReceiver) (v : FirmwareHistory) :
    List Session → Option Session
  | [] => none
  | s :: rest =>
    if After r.Start s.End || Before r.End s.Start then receiverSession r v rest
    else if After v.Start s.End || Before v.End s.Start then receiverSession r v rest
    else some s

/-- The local `start`: `r.Start`, replaced by `v.Start` when it is before it. -/
def clipStart (r : DeployedReceiver) (v : FirmwareHistory) : Time :=
  if Before r.Start v.Start then v.Start else r.Start

/-- The local `end`: `r.End`, replaced by `v.End` when it is after it. -/
def clipEnd (r : DeployedReceiver) (v : FirmwareHistory) : Time :=
  if After r.End v.End then v.End else r.End

/-- The record appended for deployment `r`, firmware entry `v` and the
session found for them. -/
def receiverRecord (env : Env) (now : Time) (r : DeployedReceiver)
    (v : FirmwareHistory) (session : Session) : GnssReceiver where
  ReceiverType := r.Model
  SatelliteSystem := session.SatelliteSystem
  SerialNumber := r.Serial
  FirmwareVersion := v.Version
  ElevationCutoffSetting := env.FormatFloat session.ElevationMask 'g' (-1)
  DateInstalled := env.Format (clipStart r v)
  DateRemoved := if After now (clipEnd r v) then env.Format (clipEnd r v) else ""
  TemperatureStabilization := ""
  Notes := ""

/-- One pass of the body of the firmware loop for deployment `r` and entry `v`:
`none` when the pass ends in a `continue`, the appended record otherwise. -/
def receiverPass (env : Env) (now : Time) (ss : List Session)
    (r : DeployedReceiver) (v : FirmwareHistory) : Option GnssReceiver :=
  if Before v.End r.Start || After v.Start r.End then none
  else
    match receiverSession r v ss with
    | none => none
    | some session => some (receiverRecord env now r v session)

/-- The firmware loop for one deployment: index `i` runs upward and reads the
entry at `len - i - 1`. -/
def firmwareLoop (env : Env) (now : Time) (ss : List Session) (r : DeployedReceiver)
    (fw : List FirmwareHistory) (acc : List GnssReceiver) : List GnssReceiver :=
  (List.range fw.length).foldl
    (fun acc i =>
      match fw[fw.length - i - 1]? with
      | none => acc
      | some v =>
        match receiverPass env now ss r v with
        | none => acc
        | some x => acc ++ [x])
    acc

/-- One pass of the loop over `deployedReceivers[m.Code]`, for deployment `r`:
the slice `receivers` after the pass, given the slice `acc` before it. -/
def receiversPass (env : Env) (now : Time) (T : Tables) (m : Mark)
    (acc : List GnssReceiver) (r : DeployedReceiver) : List GnssReceiver :=
  match mapGet T.firmwareHistory r.Model with
  | none => acc
  | some bySerial =>
    match mapGet bySerial r.Serial with
    | none => acc
    | some fw => firmwareLoop env now (mapSlice T.sessions m.Code) r fw acc

/-- The slice `receivers` after the loop over `deployedReceivers[m.Code]`,
before it is sorted. -/
def receivers (env : Env) (now : Time) (T : Tables) (m : Mark) : List GnssReceiver :=
  (mapSlice T.deployedReceivers m.Code).foldl (receiversPass env now T m) []

/-! ## The station loop -/

/-- One pass of the loop over `markList`: `none` when one of the four guards
ends the pass with `continue`, the value `x` otherwise. -/
def siteLog (env : Env) (now : Time) (T : Tables) (m : Mark) : Option SiteLog :=
  match mapGet T.monuments m.Code with
  | none => none
  | some monument =>
    match mapGet T.sessions m.Code with
    | none => none
    | some _ =>
      match mapGet T.installedAntenna m.Code with
      | none => none
      | some _ =>
        match mapGet T.deployedReceivers m.Code with
        | none => none
        | some _ =>
          some
            { mark := m
              monument := monument
              GnssReceivers := sortSort GnssReceivers.Less (receivers env now T m)
              GnssAntennas := sortSort GnssAntennas.Less (antennas env now T m)
              GnssMetSensors := metsensors T m }

/-- The values `x` that `main` marshals, one per pass of the station loop that
reaches the end, in the order of `markList`. -/
def main (env : Env) (L : MetaLess) (now : Time) (inp : Input) : List SiteLog :=
  inp.markList.filterMap (siteLog env now (tables L inp))

/-! ## Auxiliary definitions for the statements -/

/-- The overlap predicate of two closed intervals `[aStart, aEnd]` and
`[bStart, bEnd]`: not (`aEnd < bStart` or `bEnd < aStart`). -/
def overlaps (aStart aEnd bStart bEnd : Time) : Bool :=
  !(decide (aEnd < bStart) || decide (bEnd < aStart))

/-- The body of the firmware loop, as a function of the entry read. -/
def firmwareBody (env : Env) (now : Time) (ss : List Session) (r : DeployedReceiver)
    (acc : List GnssReceiver) (ov : Option FirmwareHistory) : List GnssReceiver :=
  match ov with
  | none => acc
  | some v =>
    match receiverPass env now ss r v with
    | none => acc
    | some x => acc ++ [x]

/-- The firmware entries stored for the model and serial of deployment `r`:
the nil slice when either map lookup fails. -/
def firmwareOf (T : Tables) (r : DeployedReceiver) : List FirmwareHistory :=
  match mapGet T.firmwareHistory r.Model with
  | none => []
  | some bySerial => mapSlice bySerial r.Serial

/-- The records one deployment adds to `receivers`. -/
def receiverRecords (env : Env) (now : Time) (T : Tables) (m : Mark)
    (r : DeployedReceiver) : List GnssReceiver :=
  (firmwareOf T r).reverse.filterMap (receiverPass env now (mapSlice T.sessions m.Code) r)

/-- The stored antenna installs of the mark for which the antenna loop appends
a record, in the order of the loop. -/
def antennaSources (T : Tables) (m : Mark) : List InstalledAntenna :=
  (mapSlice T.installedAntenna m.Code).filter
    (fun a => (antennaSession a (mapSlice T.sessions m.Code)).isSome)

/-- The passes of the receiver loop of the mark that append a record, in the
order of the loop: the deployment, the firmware entry and the session found. -/
def receiverSources (T : Tables) (m : Mark) :
    List (DeployedReceiver × FirmwareHistory × Session) :=
  (mapSlice T.deployedReceivers m.Code).flatMap
    (fun r => (firmwareOf T r).reverse.filterMap
      (fun v =>
        if overlaps v.Start v.End r.Start r.End then
          (receiverSession r v (mapSlice T.sessions m.Code)).map (fun s => (r, v, s))
        else none))

/-! ## A sample environment -/

/-- A decimal number padded with zeros to two digits. -/
def pad2 (n : Nat) : String := if n < 10 then "0" ++ toString n else toString n

/-- A decimal number padded with zeros to four digits. -/
def pad4 (n : Nat) : String :=
  if n < 10 then "000" ++ toString n
  else if n < 100 then "00" ++ toString n
  else if n < 1000 then "0" ++ toString n
  else toString n

/-- A sample of `Time.Format(DateTimeFormat)`: the instant is a number of
seconds since 1970-01-01T00:00Z and is written in UTC with the layout
`2006-01-02T15:04Z`. -/
def utcFormat (t : Time) : String :=
  let days := t / 86400
  let secs := t % 86400
  let z := days + 719468
  let era := z / 146097
  let doe := z - era * 146097
  let yoe := (doe - doe / 1460 + doe / 36524 - doe / 146096) / 365
  let doy := doe - (365 * yoe + yoe / 4 - yoe / 100)
  let mp := (5 * doy + 2) / 153
  let d := doy - (153 * mp + 2) / 5 + 1
  let mo := if mp < 10 then mp + 3 else mp - 9
  let y := yoe + era * 400 + (if mo ≤ 2 then 1 else 0)
  pad4 y.toNat ++ "-" ++ pad2 mo.toNat ++ "-" ++ pad2 d.toNat ++ "T" ++
    pad2 (secs / 3600).toNat ++ ":" ++ pad2 (secs % 3600 / 60).toNat ++ "Z"

/-- A sample environment: UTC timestamps, and a float written as the decimal
number of its bit pattern. -/
def sampleEnv : Env where
  Format := utcFormat
  FormatFloat := fun f _ _ => toString f

/-- A sample of the orderings of package `meta`: by start instant. -/
def sampleLess : MetaLess where
  FirmwareHistoryList := fun a b => decide (a.Start < b.Start)
  InstalledAntennaList := fun a b => decide (a.Start < b.Start)
  DeployedReceiverList := fun a b => decide (a.Start < b.Start)
  InstalledRadomeList := fun a b => decide (a.Start < b.Start)
  InstalledMetSensorList := fun a b => decide (a.Start < b.Start)

/-- The instant 2009-01-01T00:00Z. -/
def t2009 : Time := 1230768000

/-- The instant 2010-01-01T00:00Z. -/
def t2010 : Time := 1262304000

/-- The instant 2012-06-01T00:00Z. -/
def t2012 : Time := 1338508800

/-- The instant 2015-01-01T00:00Z. -/
def t2015 : Time := 1420070400

/-- The instant 2020-01-01T00:00Z. -/
def t2020 : Time := 1577836800

/-- A current time after all of the above: 2026-01-01T00:00Z. -/
def t2026 : Time := 1767225600

/-- A sample mark `AAAA`, its own reference. -/
def markA : Mark :=
  { Code := "AAAA", ReferenceCode := "AAAA", Name := "Alpha", Network := "LI",
    Latitude := 0, Longitude := 0, Elevation := 0, Start := t2009 }

/-- A sample monument of mark `AAAA`. -/
def monumentA : Monument :=
  { MarkCode := "AAAA", DomesNumber := "", MonumentType := "Pillar",
    MarkType := "Forced Centering", FoundationType := "", GroundRelationship := 0,
    FoundationDepth := 0 }

/-! ## Sample records -/

/-- A session of mark `AAAA` from 2012-06-01 to 2015-01-01. -/
def c1Session : Session :=
  { MarkCode := "AAAA", SatelliteSystem := "GPS", ElevationMask := 5,
    Start := t2012, End := t2015 }

/-- A receiver deployed at `AAAA` from 2010-01-01 to 2015-01-01. -/
def c1Receiver : DeployedReceiver :=
  { Mark := "AAAA", Model := "NETR9", Serial := "1", Start := t2010, End := t2015 }

/-- A firmware entry of that receiver from 2009-01-01 to 2020-01-01. -/
def c1Firmware : FirmwareHistory :=
  { Model := "NETR9", Serial := "1", Version := "4.85", Start := t2009, End := t2020 }

/-- An antenna installed at `AAAA` from 2010-01-01 to 2015-01-01. -/
def c1Antenna : InstalledAntenna :=
  { MarkCode := "AAAA", Model := "TRM57971.00", Serial := "7", Height := 0, North := 0,
    East := 0, Start := t2010, End := t2015 }

/-- A radome installed at `AAAA` from 2012-06-01 to 2020-01-01. -/
def c1Radome : InstalledRadome :=
  { MarkCode := "AAAA", Model := "SCIS", Serial := "9", Start := t2012, End := t2020 }

/-- An input with one record of each kind for mark `AAAA`. -/
def c1Input : Input :=
  { firmwareHistoryList := [c1Firmware], installedAntennaList := [c1Antenna],
    deployedReceiverList := [c1Receiver], installedRadomeList := [c1Radome],
    installedMetSensorList := [], markList := [markA], sessionList := [c1Session],
    monumentList := [monumentA] }

/-- The station value produced for `c1Input`. -/
def c1Site : SiteLog :=
  { mark := markA, monument := monumentA,
    GnssReceivers := [receiverRecord sampleEnv t2026 c1Receiver c1Firmware c1Session],
    GnssAntennas := [antennaRecord sampleEnv t2026 c1Antenna "SCIS" "9"],
    GnssMetSensors := [] }

/-- A session of mark `AAAA` from 2009-01-01 to 2020-01-01. -/
def c2Session : Session :=
  { MarkCode := "AAAA", SatelliteSystem := "GPS+GLO", ElevationMask := 5,
    Start := t2009, End := t2020 }

/-- The firmware entry of receiver `NETR9` `1` from 2009-01-01 to 2012-06-01. -/
def c2Firmware1 : FirmwareHistory :=
  { Model := "NETR9", Serial := "1", Version := "4.17", Start := t2009, End := t2012 }

/-- The firmware entry of receiver `NETR9` `1` from 2012-06-01 to 2020-01-01. -/
def c2Firmware2 : FirmwareHistory :=
  { Model := "NETR9", Serial := "1", Version := "4.85", Start := t2012, End := t2020 }

/-- The fan-out input: one deployment, two firmware entries (listed latest
first), one session, one antenna. -/
def c2Input : Input :=
  { firmwareHistoryList := [c2Firmware2, c2Firmware1], installedAntennaList := [c1Antenna],
    deployedReceiverList := [c1Receiver], installedRadomeList := [],
    installedMetSensorList := [], markList := [markA], sessionList := [c2Session],
    monumentList := [monumentA] }

/-- The station value produced for `c2Input`. -/
def c2Site : SiteLog :=
  { mark := markA, monument := monumentA,
    GnssReceivers :=
      [receiverRecord sampleEnv t2026 c1Receiver c2Firmware1 c2Session,
       receiverRecord sampleEnv t2026 c1Receiver c2Firmware2 c2Session],
    GnssAntennas := [antennaRecord sampleEnv t2026 c1Antenna "NONE" ""],
    GnssMetSensors := [] }

/-- The minimum-data condition of the spec, read off the loaded lists: the
code of the mark has a monument, at least one session, at least one antenna
install and at least one receiver deployment. -/
def hasMinimumData (inp : Input) (m : Mark) : Bool :=
  inp.monumentList.any (fun x => decide (x.MarkCode = m.Code)) &&
  inp.sessionList.any (fun s => decide (s.MarkCode = m.Code)) &&
  inp.installedAntennaList.any (fun a => decide (a.MarkCode = m.Code)) &&
  inp.deployedReceiverList.any (fun r => decide (r.Mark = m.Code))

/-- The instant 2013-01-01T00:00Z. -/
def t2013 : Time := 1356998400

/-- The station value produced for `c2Input` when the current time is
2013-01-01: the first receiver record is closed, the second is open, and so is
the antenna record. -/
def c5Site : SiteLog :=
  { mark := markA, monument := monumentA,
    GnssReceivers :=
      [ { ReceiverType := "NETR9", SatelliteSystem := "GPS+GLO", SerialNumber := "1",
          FirmwareVersion := "4.17", ElevationCutoffSetting := "5",
          DateInstalled := "2010-01-01T00:00Z", DateRemoved := "2012-06-01T00:00Z",
          TemperatureStabilization := "", Notes := "" },
        { ReceiverType := "NETR9", SatelliteSystem := "GPS+GLO", SerialNumber := "1",
          FirmwareVersion := "4.85", ElevationCutoffSetting := "5",
          DateInstalled := "2012-06-01T00:00Z", DateRemoved := "",
          TemperatureStabilization := "", Notes := "" } ],
    GnssAntennas := [antennaRecord sampleEnv t2013 c1Antenna "NONE" ""],
    GnssMetSensors := [] }

/-- A session of mark `AAAA` from 2009-01-01 to 2010-01-01: it touches the
deployment `c1Receiver` and ends before the firmware entry `c2Firmware2`. -/
def c7Early : Session :=
  { MarkCode := "AAAA", SatelliteSystem := "GPS", ElevationMask := 15,
    Start := t2009, End := t2010 }

/-- A session of mark `AAAA` from 2012-06-01 to 2013-01-01. -/
def c7Short : Session :=
  { MarkCode := "AAAA", SatelliteSystem := "GPS+GAL", ElevationMask := 10,
    Start := t2012, End := t2013 }

/-- A radome installed at `AAAA` from 2009-01-01 to 2012-06-01. -/
def c9Radome1 : InstalledRadome :=
  { MarkCode := "AAAA", Model := "SCIT", Serial := "3", Start := t2009, End := t2012 }

/-- A radome installed at `AAAA` from 2020-01-01 to 2026-01-01, after the
antenna `c1Antenna` was removed. -/
def c9Radome3 : InstalledRadome :=
  { MarkCode := "AAAA", Model := "LEIT", Serial := "5", Start := t2020, End := t2026 }

/-- The input `c1Input` with three radomes at `AAAA`: two overlap the antenna,
the last one does not. -/
def c9Input : Input :=
  { c1Input with installedRadomeList := [c9Radome1, c1Radome, c9Radome3] }

/-- The input `c1Input` with the one radome `c9Radome3`, which does not overlap
the antenna. -/
def c10Input : Input :=
  { c1Input with installedRadomeList := [c9Radome3] }

/-- A mark `BBBB` whose reference mark is `AAAA`. -/
def markB : Mark :=
  { Code := "BBBB", ReferenceCode := "AAAA", Name := "Beta", Network := "CG",
    Latitude := 0, Longitude := 0, Elevation := 0, Start := t2009 }

/-- A monument of mark `BBBB`. -/
def monumentB : Monument := { monumentA with MarkCode := "BBBB" }

/-- A session of mark `BBBB` from 2009-01-01 to 2010-01-01. -/
def c11SessionB : Session :=
  { MarkCode := "BBBB", SatelliteSystem := "GPS", ElevationMask := 5,
    Start := t2009, End := t2010 }

/-- An antenna installed at `BBBB` from 2009-01-01 to 2010-01-01. -/
def c11AntennaB : InstalledAntenna :=
  { c1Antenna with MarkCode := "BBBB", Start := t2009, End := t2010 }

/-- A receiver deployed at `BBBB`, of a model with no firmware entry. -/
def c11ReceiverB : DeployedReceiver :=
  { Mark := "BBBB", Model := "ZZ12", Serial := "2", Start := t2009, End := t2010 }

/-- A met sensor filed under `AAAA` from 2013-01-01 to 2020-01-01: it overlaps
the session of `AAAA` and no session of `BBBB`. -/
def c11Sensor1 : InstalledMetSensor :=
  { MarkCode := "AAAA", Make := "Vaisala", Model := "WXT520", Serial := "11",
    Start := t2013, End := t2020 }

/-- A met sensor filed under `AAAA` from 2009-01-01 to 2010-01-01: it overlaps
the session of `BBBB` and no session of `AAAA`. -/
def c11Sensor2 : InstalledMetSensor :=
  { MarkCode := "AAAA", Make := "Paroscientific", Model := "MET4", Serial := "12",
    Start := t2009, End := t2010 }

/-- An input with the marks `AAAA` and `BBBB` and two met sensors filed under
`AAAA`. -/
def c11Input : Input :=
  { firmwareHistoryList := [c1Firmware],
    installedAntennaList := [c1Antenna, c11AntennaB],
    deployedReceiverList := [c1Receiver, c11ReceiverB],
    installedRadomeList := [],
    installedMetSensorList := [c11Sensor1, c11Sensor2],
    markList := [markA, markB],
    sessionList := [c1Session, c11SessionB],
    monumentList := [monumentA, monumentB] }

/-- The station value produced for mark `BBBB` of `c11Input`. -/
def c11SiteB : SiteLog :=
  { mark := markB, monument := monumentB,
    GnssReceivers := [],
    GnssAntennas := [antennaRecord sampleEnv t2026 c11AntennaB "NONE" ""],
    GnssMetSensors :=
      [ { Manufacturer := "Vaisala", MetSensorModel := "WXT520", SerialNumber := "11",
          DataSamplingInterval := "360 sec", EffectiveDates := "2000-02-05/CCYY-MM-DD",
          Notes := "" } ] }

/-- The station value produced for mark `AAAA` of `c11Input`. -/
def c12SiteA : SiteLog :=
  { mark := markA, monument := monumentA,
    GnssReceivers := [receiverRecord sampleEnv t2026 c1Receiver c1Firmware c1Session],
    GnssAntennas := [antennaRecord sampleEnv t2026 c1Antenna "NONE" ""],
    GnssMetSensors := [metsensorRecord c11Sensor1] }

/-- The input `c11Input` with every record of mark `BBBB` taken away and a
radome added at `BBBB`: the records of `AAAA` and the firmware list are
unchanged. -/
def c13Input : Input :=
  { c11Input with
    installedAntennaList := [c1Antenna]
    deployedReceiverList := [c1Receiver]
    installedRadomeList := [{ c1Radome with MarkCode := "BBBB" }]
    sessionList := [c1Session]
    monumentList := [monumentA] }

/-- A firmware entry of receiver `NETR9` `1` from 2012-06-01 to 2020-01-01
with the given version. -/
def c16Firmware (version : String) : FirmwareHistory :=
  { Model := "NETR9", Serial := "1", Version := version, Start := t2012, End := t2020 }

/-- The versions of twelve firmware entries, in the order in which `c16Input`
lists them. -/
def c16Versions : List String :=
  ["4.81", "4.82", "4.83", "4.84", "4.85", "4.86", "4.87", "4.88", "4.89", "4.90", "4.91",
    "4.92"]

/-- An input with one deployment and thirteen firmware entries of its
receiver: the entry `c2Firmware1` from 2009-01-01, then twelve entries from
2012-06-01 with the versions `c16Versions`. -/
def c16Input : Input :=
  { c2Input with firmwareHistoryList := c2Firmware1 :: c16Versions.map c16Firmware }

/-- The receiver record of `c16Input` for the firmware entry `v`. -/
def c16Record (v : FirmwareHistory) : GnssReceiver :=
  receiverRecord sampleEnv t2026 c1Receiver v c2Session

/-- The receiver slice of `c16Input` as the loop leaves it: last-listed
firmware entry first. -/
def c16Resolved : List GnssReceiver :=
  c16Versions.reverse.map (fun v => c16Record (c16Firmware v)) ++ [c16Record c2Firmware1]

/-- The receiver list emitted for `c16Input`. -/
def c16Emitted : List GnssReceiver :=
  c16Record c2Firmware1 ::
    ["4.86", "4.90", "4.89", "4.88", "4.87", "4.92", "4.85", "4.84", "4.83", "4.82", "4.81",
      "4.91"].map (fun v => c16Record (c16Firmware v))

/-- Modelled from the spec: the `Less` methods of the list types of package
`meta` are declared outside main.go; the spec keeps each group of installs
sorted by installed date ascending and each firmware group in chronological
order, which is the order of the field `Start`. -/
def specLess : MetaLess where
  FirmwareHistoryList := fun a b => decide (a.Start < b.Start)
  InstalledAntennaList := fun a b => decide (a.Start < b.Start)
  DeployedReceiverList := fun a b => decide (a.Start < b.Start)
  InstalledRadomeList := fun a b => decide (a.Start < b.Start)
  InstalledMetSensorList := fun a b => decide (a.Start < b.Start)

/-- The read `firmwareHistory[model][serial]`: the nil slice when either key
is missing. -/
def firmwareGroup (fh : GoMap (GoMap (List FirmwareHistory))) (model serial : String) :
    List FirmwareHistory :=
  match mapGet fh model with
  | none => []
  | some bySerial => mapSlice bySerial serial

/-- The two-level lookup `firmwareHistory[model][serial]` with its `ok`. -/
def firmwareEntry (fh : GoMap (GoMap (List FirmwareHistory))) (model serial : String) :
    Option (List FirmwareHistory) :=
  (mapGet fh model).bind (fun bySerial => mapGet bySerial serial)

/-- An antenna installed at `AAAA` with the given serial and start. -/
def c18Antenna (serial : String) (start : Time) : InstalledAntenna :=
  { c1Antenna with Serial := serial, Start := start, End := t2020 }

/-- Thirteen antenna installs of `AAAA` in source order: those with serials 1
to 12 start on 2012-06-01 and the last one, with serial 13, starts on
2010-01-01. -/
def c18AntennaList : List InstalledAntenna :=
  ["1", "2", "3", "4", "5", "6", "7", "8", "9", "10", "11", "12"].map
      (fun s => c18Antenna s t2012) ++
    [c18Antenna "13" t2010]

/-- The group that `installedAntenna` stores for `AAAA` from `c18AntennaList`,
with the orderings `specLess`. -/
def c18Stored : List InstalledAntenna :=
  c18Antenna "13" t2010 ::
    ["7", "3", "4", "5", "6", "1", "8", "9", "10", "11", "12", "2"].map
      (fun s => c18Antenna s t2012)

/-! ## The function `country` -/

/-- The `float64` operations that `country` uses, on a type `F` of floats:
`lit m e` is the constant written `m` times ten to the power `-e`; `lt` is the
comparison `<`, which is false whenever an operand is not a number. -/
structure FloatOps (F : Type) where
  lit : Int → Nat → F
  add : F → F → F
  sub : F → F → F
  mul : F → F → F
  sqrt : F → F
  lt : F → F → Bool

/-- An entry of the table `countries`. -/
structure Country (F : Type) where
  name : String
  lat : F
  lon : F

/-- The table `countries`. -/
def countries {F : Type} (ops : FloatOps F) : List (Country F) :=
  [ { name := "New Zealand", lat := ops.lit (-400) 1, lon := ops.lit 1740 1 },
    { name := "Tonga", lat := ops.lit (-212) 1, lon := ops.lit (-1752) 1 },
    { name := "Samoa", lat := ops.lit (-138) 1, lon := ops.lit (-1721) 1 },
    { name := "Niue", lat := ops.lit (-190) 1, lon := ops.lit (-1699) 1 } ]

/-- The value `r` of one pass of the loop of `country`: the distance in the
`x`, `y` plane from the position `(X, Y)` to the entry `v`. The transform
`WGS842ITRF` is declared outside main.go and is taken as given. -/
def distance {F : Type} (ops : FloatOps F) (WGS842ITRF : F → F → F → F × F × F)
    (X Y : F) (v : Country F) : F :=
  let xyz := WGS842ITRF v.lat v.lon (ops.lit 0 1)
  ops.sqrt (ops.add (ops.mul (ops.sub xyz.1 X) (ops.sub xyz.1 X))
    (ops.mul (ops.sub xyz.2.1 Y) (ops.sub xyz.2.1 Y)))

/-- One pass of the loop of `country` on the pair `(dist, country)`. -/
def countryPass {F : Type} (ops : FloatOps F) (WGS842ITRF : F → F → F → F × F × F)
    (X Y : F) (st : F × String) (v : Country F) : F × String :=
  if ops.lt st.1 (ops.lit 0 1) || ops.lt (distance ops WGS842ITRF X Y v) st.1 then
    (distance ops WGS842ITRF X Y v, v.name)
  else st

/-- The function `country(lat, lon)`. -/
def country {F : Type} (ops : FloatOps F) (WGS842ITRF : F → F → F → F × F × F)
    (lat lon : F) : String :=
  let XYZ := WGS842ITRF lat lon (ops.lit 0 1)
  ((countries ops).foldl (countryPass ops WGS842ITRF XYZ.1 XYZ.2.1)
    (ops.lit (-10) 1, "Unknown")).2

/-- Newton's iteration for the whole square root of `n`, `fuel` rounds from
`x`. -/
def newtonSqrt (n : Nat) : Nat → Nat → Nat
  | 0, x => x
  | fuel + 1, x =>
    if x = 0 then 0
    else if (x + n / x) / 2 < x then newtonSqrt n fuel ((x + n / x) / 2) else x

/-- A sample arithmetic for `country`: a float is a whole number of tenths. -/
def sampleOps : FloatOps Int where
  lit := fun m e => if e = 0 then m * 10 else m
  add := fun a b => a + b
  sub := fun a b => a - b
  mul := fun a b => a * b / 10
  sqrt := fun a => (newtonSqrt (a.toNat * 10) 64 (a.toNat * 10) : Nat)
  lt := fun a b => decide (a < b)

/-- A sample transform: latitude and longitude read as plane coordinates. -/
def sampleTransform (lat lon h : Int) : Int × Int × Int := (lat, lon, h)

/-! ## Lemmas on the sort -/

theorem sink_perm {α : Type} (less : α → α → Bool) (x : α) (l : List α) :
    (sink less x l).Perm (x :: l) := by
  induction l with
  | nil => simp [sink]
  | cons h t ih =>
    unfold sink
    split
    · exact (List.Perm.cons h ih).trans (List.Perm.swap x h t)
    · exact List.Perm.refl _

theorem foldl_sink_perm {α : Type} (less : α → α → Bool) (l acc : List α) :
    (l.foldl (fun acc x => sink less x acc) acc).Perm (l.reverse ++ acc) := by
  induction l generalizing acc with
  | nil => simp
  | cons h t ih =>
    simp only [List.foldl_cons, List.reverse_cons, List.append_assoc, List.singleton_append]
    exact (ih (sink less h acc)).trans (List.Perm.append_left _ (sink_perm less h acc))

theorem insertionSort_perm {α : Type} (less : α → α → Bool) (l : List α) :
    (insertionSort less l).Perm l := by
  unfold insertionSort
  have h := foldl_sink_perm less l []
  rw [List.append_nil] at h
  exact (List.reverse_perm _).trans (h.trans (List.reverse_perm l))

theorem set_perm_cons {α : Type} (l : List α) (j : Nat) (y h : α) (hj : l[j]? = some y) :
    (y :: l.set j h).Perm (h :: l) := by
  induction l generalizing j with
  | nil => simp at hj
  | cons a t ih =>
    cases j with
    | zero =>
      simp only [List.getElem?_cons_zero, Option.some.injEq] at hj
      subst hj
      simp only [List.set_cons_zero]
      exact List.Perm.swap _ _ _
    | succ j =>
      simp only [List.getElem?_cons_succ] at hj
      simp only [List.set_cons_succ]
      exact (List.Perm.swap a y _).trans
        (((ih j hj).cons a).trans (List.Perm.swap h a t))

theorem set_set_perm {α : Type} (l : List α) (i j : Nat) (x y : α)
    (hi : l[i]? = some x) (hj : l[j]? = some y) : ((l.set i y).set j x).Perm l := by
  induction l generalizing i j with
  | nil => simp at hi
  | cons a t ih =>
    cases i with
    | zero =>
      simp only [List.getElem?_cons_zero, Option.some.injEq] at hi
      subst hi
      cases j with
      | zero =>
        simp only [List.getElem?_cons_zero, Option.some.injEq] at hj
        subst hj
        simp
      | succ j =>
        simp only [List.getElem?_cons_succ] at hj
        simp only [List.set_cons_zero, List.set_cons_succ]
        exact set_perm_cons t j y a hj
    | succ i =>
      simp only [List.getElem?_cons_succ] at hi
      cases j with
      | zero =>
        simp only [List.getElem?_cons_zero, Option.some.injEq] at hj
        subst hj
        simp only [List.set_cons_zero, List.set_cons_succ]
        exact set_perm_cons t i x a hi
      | succ j =>
        simp only [List.getElem?_cons_succ] at hj
        simp only [List.set_cons_succ]
        exact (ih i j hi hj).cons a

theorem swapAt_perm {α : Type} (l : List α) (i j : Nat) : (swapAt l i j).Perm l := by
  unfold swapAt
  split
  · rename_i x y hi hj
    exact set_set_perm l i j x y hi hj
  · exact List.Perm.refl l

theorem insertionSortRange_perm {α : Type} (less : α → α → Bool) (l : List α) (a b : Nat) :
    (insertionSortRange less l a b).Perm l := by
  unfold insertionSortRange
  have h1 : (insertionSort less ((l.drop a).take (b - a)) ++ (l.drop a).drop (b - a)).Perm
      (l.drop a) := by
    have h2 := (insertionSort_perm less ((l.drop a).take (b - a))).append_right
      ((l.drop a).drop (b - a))
    rwa [List.take_append_drop] at h2
  have h3 := h1.append_left (l.take a)
  rw [List.take_append_drop] at h3
  rw [List.append_assoc]
  exact h3

theorem siftDown_perm {α : Type} (less : α → α → Bool) (hi first fuel : Nat) (l : List α)
    (root : Nat) : (siftDown less hi first fuel l root).Perm l := by
  induction fuel generalizing l root with
  | zero => exact List.Perm.refl l
  | succ f ih =>
    unfold siftDown
    lift_lets
    intro child child1
    split
    · exact List.Perm.refl l
    · split
      · exact List.Perm.refl l
      · exact (ih _ _).trans (swapAt_perm l _ _)

theorem foldl_perm {α ι : Type} (step : List α → ι → List α)
    (hstep : ∀ acc i, (step acc i).Perm acc) (is : List ι) (l : List α) :
    (is.foldl step l).Perm l := by
  induction is generalizing l with
  | nil => exact List.Perm.refl l
  | cons i t ih =>
    simp only [List.foldl_cons]
    exact (ih _).trans (hstep l i)

theorem heapSort_perm {α : Type} (less : α → α → Bool) (l : List α) (a b : Nat) :
    (heapSort less l a b).Perm l := by
  unfold heapSort
  simp only
  refine (foldl_perm _ ?_ _ _).trans (foldl_perm _ ?_ _ _)
  · intro acc i
    exact (siftDown_perm less _ _ _ _ _).trans (swapAt_perm acc _ _)
  · intro acc i
    exact siftDown_perm less _ _ _ _ _

theorem partitionLoop_perm {α : Type} (less : α → α → Bool) (a fuel : Nat) (l : List α)
    (i j : Nat) : (partitionLoop less a fuel l i j).1.Perm l := by
  induction fuel generalizing l i j with
  | zero => exact List.Perm.refl l
  | succ f ih =>
    unfold partitionLoop
    simp only
    split
    · exact List.Perm.refl l
    · exact (ih _ _ _).trans (swapAt_perm l _ _)

theorem partition_perm {α : Type} (less : α → α → Bool) (l : List α) (a b pivot : Nat) :
    (partition less l a b pivot).1.Perm l := by
  unfold partition
  simp only
  split
  · exact (swapAt_perm _ _ _).trans (swapAt_perm l _ _)
  · exact (swapAt_perm _ _ _).trans
      ((partitionLoop_perm less a _ _ _ _).trans
        ((swapAt_perm _ _ _).trans (swapAt_perm l _ _)))

theorem partitionEqualLoop_perm {α : Type} (less : α → α → Bool) (a fuel : Nat) (l : List α)
    (i j : Nat) : (partitionEqualLoop less a fuel l i j).1.Perm l := by
  induction fuel generalizing l i j with
  | zero => exact List.Perm.refl l
  | succ f ih =>
    unfold partitionEqualLoop
    simp only
    split
    · exact List.Perm.refl l
    · exact (ih _ _ _).trans (swapAt_perm l _ _)

theorem partitionEqual_perm {α : Type} (less : α → α → Bool) (l : List α) (a b pivot : Nat) :
    (partitionEqual less l a b pivot).1.Perm l :=
  (partitionEqualLoop_perm less a _ _ _ _).trans (swapAt_perm l _ _)

theorem shiftSmaller_perm {α : Type} (less : α → α → Bool) (fuel : Nat) (l : List α)
    (j : Nat) : (shiftSmaller less fuel l j).Perm l := by
  induction fuel generalizing l j with
  | zero => exact List.Perm.refl l
  | succ f ih =>
    unfold shiftSmaller
    split
    · split
      · exact List.Perm.refl l
      · exact (ih _ _).trans (swapAt_perm l _ _)
    · exact List.Perm.refl l

theorem shiftGreater_perm {α : Type} (less : α → α → Bool) (b fuel : Nat) (l : List α)
    (j : Nat) : (shiftGreater less b fuel l j).Perm l := by
  induction fuel generalizing l j with
  | zero => exact List.Perm.refl l
  | succ f ih =>
    unfold shiftGreater
    split
    · split
      · exact List.Perm.refl l
      · exact (ih _ _).trans (swapAt_perm l _ _)
    · exact List.Perm.refl l

theorem partialInsertionLoop_perm {α : Type} (less : α → α → Bool) (a b steps : Nat)
    (l : List α) (i : Nat) : (partialInsertionLoop less a b steps l i).1.Perm l := by
  induction steps generalizing l i with
  | zero => exact List.Perm.refl l
  | succ s ih =>
    unfold partialInsertionLoop
    simp only
    split
    · exact List.Perm.refl l
    · split
      · exact List.Perm.refl l
      · refine (ih _ _).trans ?_
        have h1 : (swapAt l (scanOrdered less l b (b - i) i)
            (scanOrdered less l b (b - i) i - 1)).Perm l := swapAt_perm l _ _
        have h2 : ∀ m : List α, m.Perm l →
            (if 2 ≤ scanOrdered less l b (b - i) i - a then
              shiftSmaller less (scanOrdered less l b (b - i) i) m
                (scanOrdered less l b (b - i) i - 1) else m).Perm l := by
          intro m hm
          split
          · exact (shiftSmaller_perm less _ _ _).trans hm
          · exact hm
        split
        · exact (shiftGreater_perm less _ _ _ _).trans (h2 _ h1)
        · exact h2 _ h1

theorem partialInsertionSort_perm {α : Type} (less : α → α → Bool) (l : List α) (a b : Nat) :
    (partialInsertionSort less l a b).1.Perm l :=
  partialInsertionLoop_perm less a b 5 l (a + 1)

theorem breakPatterns_perm {α : Type} (l : List α) (a b : Nat) :
    (breakPatterns l a b).Perm l := by
  unfold breakPatterns
  simp only
  split
  · simp only [List.range_succ, List.range_zero, List.nil_append, List.cons_append,
      List.foldl_cons, List.foldl_nil]
    exact (swapAt_perm _ _ _).trans ((swapAt_perm _ _ _).trans (swapAt_perm l _ _))
  · exact List.Perm.refl l

theorem reverseLoop_perm {α : Type} (fuel : Nat) (l : List α) (i j : Nat) :
    (reverseLoop fuel l i j).Perm l := by
  induction fuel generalizing l i j with
  | zero => exact List.Perm.refl l
  | succ f ih =>
    unfold reverseLoop
    split
    · exact (ih _ _ _).trans (swapAt_perm l _ _)
    · exact List.Perm.refl l

theorem reverseRange_perm {α : Type} (l : List α) (a b : Nat) :
    (reverseRange l a b).Perm l := reverseLoop_perm _ l _ _

theorem pdqsort_perm {α : Type} (less : α → α → Bool) (fuel : Nat) (l : List α)
    (a b limit : Nat) (wb wp : Bool) : (pdqsort less fuel l a b limit wb wp).Perm l := by
  induction fuel generalizing l a b limit wb wp with
  | zero => exact List.Perm.refl l
  | succ f ih =>
    unfold pdqsort
    lift_lets
    intro length l1 limit1 ph l2 pivot hint tried l3 pe p mid leftLen rightLen balanceThreshold
    have h1 : l1.Perm l := by
      show (if wb = true then l else breakPatterns l a b).Perm l
      split
      · exact List.Perm.refl l
      · exact breakPatterns_perm l a b
    have h2 : l2.Perm l := by
      show (if ph.2 = SortedHint.decreasingHint then reverseRange l1 a b else l1).Perm l
      split
      · exact (reverseRange_perm l1 a b).trans h1
      · exact h1
    have h3 : tried.1.Perm l := by
      show (if (wb && wp && decide (hint = SortedHint.increasingHint)) = true then
        partialInsertionSort less l2 a b else (l2, false)).1.Perm l
      split
      · exact (partialInsertionSort_perm less l2 a b).trans h2
      · exact h2
    split
    · exact insertionSortRange_perm less l a b
    · split
      · exact heapSort_perm less l a b
      · split
        · exact h3
        · split
          · exact (ih _ _ _ _ _ _).trans ((partitionEqual_perm less _ a b _).trans h3)
          · split
            · exact (ih _ _ _ _ _ _).trans ((ih _ _ _ _ _ _).trans
                ((partition_perm less _ a b _).trans h3))
            · exact (ih _ _ _ _ _ _).trans ((ih _ _ _ _ _ _).trans
                ((partition_perm less _ a b _).trans h3))

theorem pdqsort_short {α : Type} (less : α → α → Bool) (fuel : Nat) (l : List α)
    (limit : Nat) (wb wp : Bool) (h : l.length ≤ 12) :
    pdqsort less (fuel + 1) l 0 l.length limit wb wp = insertionSort less l := by
  unfold pdqsort
  simp [h, insertionSortRange]

theorem sortSort_short {α : Type} (less : α → α → Bool) (l : List α) (h : l.length ≤ 12) :
    sortSort less l = insertionSort less l := by
  unfold sortSort
  split
  · rename_i h1
    match l, h1 with
    | [], _ => rfl
    | [x], _ => rfl
    | _ :: _ :: _, h1 => simp at h1
  · rw [pdqsort_short less _ l _ _ _ h]

theorem sortSort_perm {α : Type} (less : α → α → Bool) (l : List α) :
    (sortSort less l).Perm l := by
  unfold sortSort
  split
  · exact List.Perm.refl l
  · exact pdqsort_perm less _ l _ _ _ _ _

theorem mem_sortSort {α : Type} (less : α → α → Bool) (l : List α) (x : α) :
    x ∈ sortSort less l ↔ x ∈ l :=
  (sortSort_perm less l).mem_iff

theorem sink_descending {α κ : Type} [LinearOrder κ] (key : α → κ) (less : α → α → Bool)
    (hless : ∀ a b, less a b = true ↔ key a < key b) (x : α) (l : List α)
    (hl : l.Pairwise (fun a b => key b ≤ key a)) :
    (sink less x l).Pairwise (fun a b => key b ≤ key a) := by
  induction l with
  | nil => simp [sink]
  | cons h t ih =>
    rw [List.pairwise_cons] at hl
    unfold sink
    split
    · rename_i hlt
      have hlt2 : key x < key h := (hless x h).mp hlt
      rw [List.pairwise_cons]
      refine ⟨?_, ih hl.2⟩
      intro y hy
      rcases List.mem_cons.mp ((sink_perm _ x t).mem_iff.mp hy) with hy1 | hy1
      · rw [hy1]; exact le_of_lt hlt2
      · exact hl.1 y hy1
    · rename_i hlt
      have hge : key h ≤ key x := not_lt.mp (fun hc => hlt ((hless x h).mpr hc))
      rw [List.pairwise_cons]
      refine ⟨?_, List.pairwise_cons.mpr hl⟩
      intro y hy
      rcases List.mem_cons.mp hy with hy1 | hy1
      · rw [hy1]; exact hge
      · exact le_trans (hl.1 y hy1) hge

theorem foldl_sink_descending {α κ : Type} [LinearOrder κ] (key : α → κ)
    (less : α → α → Bool) (hless : ∀ a b, less a b = true ↔ key a < key b)
    (l acc : List α) (hacc : acc.Pairwise (fun a b => key b ≤ key a)) :
    (l.foldl (fun acc x => sink less x acc) acc).Pairwise (fun a b => key b ≤ key a) := by
  induction l generalizing acc with
  | nil => simpa using hacc
  | cons h t ih =>
    simp only [List.foldl_cons]
    exact ih _ (sink_descending key less hless h acc hacc)

theorem insertionSort_ascending {α κ : Type} [LinearOrder κ] (key : α → κ)
    (less : α → α → Bool) (hless : ∀ a b, less a b = true ↔ key a < key b) (l : List α) :
    (insertionSort less l).Pairwise (fun a b => key a ≤ key b) := by
  unfold insertionSort
  rw [List.pairwise_reverse]
  exact foldl_sink_descending key less hless l [] List.Pairwise.nil

/-! ## Index-level lemmas on `swapAt` and `lessAt` -/

theorem length_swapAt {α : Type} (l : List α) (i j : Nat) :
    (swapAt l i j).length = l.length := by
  unfold swapAt
  split <;> simp

theorem getD_swapAt {α : Type} (l : List α) (i j k : Nat) (d : α)
    (hi : i < l.length) (hj : j < l.length) :
    (swapAt l i j).getD k d =
      if k = j then l.getD i d else if k = i then l.getD j d else l.getD k d := by
  unfold swapAt
  rw [List.getElem?_eq_getElem hi, List.getElem?_eq_getElem hj]
  simp only [List.getD_eq_getElem?_getD, List.getElem?_set, List.length_set]
  by_cases h1 : k = j
  · subst h1
    simp [hj, List.getElem?_eq_getElem hi]
  · by_cases h2 : k = i
    · subst h2
      simp [hi, h1, Ne.symm h1, List.getElem?_eq_getElem hj]
    · simp [h1, h2, Ne.symm h1, Ne.symm h2]

theorem lessAt_eq {α : Type} (less : α → α → Bool) (l : List α) (i j : Nat) (d : α)
    (hi : i < l.length) (hj : j < l.length) :
    lessAt less l i j = less (l.getD i d) (l.getD j d) := by
  unfold lessAt
  rw [List.getElem?_eq_getElem hi, List.getElem?_eq_getElem hj,
    List.getD_eq_getElem l d hi, List.getD_eq_getElem l d hj]

theorem lessAt_iff {α κ : Type} [LinearOrder κ] (key : α → κ) (less : α → α → Bool)
    (hless : ∀ a b, less a b = true ↔ key a < key b) (l : List α) (i j : Nat) (d : α)
    (hi : i < l.length) (hj : j < l.length) :
    lessAt less l i j = true ↔ key (l.getD i d) < key (l.getD j d) := by
  rw [lessAt_eq less l i j d hi hj, hless]

theorem lessAt_false_iff {α κ : Type} [LinearOrder κ] (key : α → κ) (less : α → α → Bool)
    (hless : ∀ a b, less a b = true ↔ key a < key b) (l : List α) (i j : Nat) (d : α)
    (hi : i < l.length) (hj : j < l.length) :
    lessAt less l i j = false ↔ key (l.getD j d) ≤ key (l.getD i d) := by
  rw [← not_lt, ← lessAt_iff key less hless l i j d hi hj]
  simp

/-! ## Rearrangements inside a range -/

theorem Rearr.refl {α : Type} (a b : Nat) (l : List α) : Rearr a b l l :=
  ⟨List.Perm.refl l, rfl, rfl⟩

theorem Rearr.trans {α : Type} {a b : Nat} {l r s : List α} (h1 : Rearr a b l r)
    (h2 : Rearr a b r s) : Rearr a b l s :=
  ⟨h2.1.trans h1.1, h2.2.1.trans h1.2.1, h2.2.2.trans h1.2.2⟩

theorem Rearr.length {α : Type} {a b : Nat} {l r : List α} (h : Rearr a b l r) :
    r.length = l.length := h.1.length_eq

theorem Rearr.mono {α : Type} {a b a1 b1 : Nat} {l r : List α} (h : Rearr a1 b1 l r)
    (ha : a ≤ a1) (hb : b1 ≤ b) : Rearr a b l r := by
  refine ⟨h.1, ?_, ?_⟩
  · have := congrArg (List.take a) h.2.1
    simpa [List.take_take, Nat.min_eq_left ha] using this
  · have := congrArg (List.drop (b - b1)) h.2.2
    simpa [List.drop_drop, Nat.add_sub_cancel' hb] using this

theorem Rearr.getD_lt {α : Type} {a b : Nat} {l r : List α} (h : Rearr a b l r) (d : α)
    (k : Nat) (hk : k < a) : r.getD k d = l.getD k d := by
  have h1 : (r.take a)[k]? = (l.take a)[k]? := by rw [h.2.1]
  simp only [List.getElem?_take, hk, if_true] at h1
  simp [List.getD_eq_getElem?_getD, h1]

theorem Rearr.getD_ge {α : Type} {a b : Nat} {l r : List α} (h : Rearr a b l r) (d : α)
    (k : Nat) (hk : b ≤ k) : r.getD k d = l.getD k d := by
  have h1 : (r.drop b)[k - b]? = (l.drop b)[k - b]? := by rw [h.2.2]
  simp only [List.getElem?_drop, Nat.add_sub_cancel' hk] at h1
  simp [List.getD_eq_getElem?_getD, h1]

theorem swapAt_rearr {α : Type} (l : List α) (a b i j : Nat) (hai : a ≤ i) (hib : i < b)
    (haj : a ≤ j) (hjb : j < b) : Rearr a b l (swapAt l i j) := by
  refine ⟨swapAt_perm l i j, ?_, ?_⟩
  · unfold swapAt
    split
    · rw [List.set_take, List.set_take]
      rw [List.set_eq_of_length_le, List.set_eq_of_length_le]
      · simp only [List.length_take]; omega
      · rw [List.set_eq_of_length_le]
        · simp only [List.length_take]; omega
        · simp only [List.length_take]; omega
    · rfl
  · unfold swapAt
    split
    · rw [List.drop_set_of_lt _ _ hjb, List.drop_set_of_lt _ _ hib]
    · rfl

theorem eq_take_seg_drop {α : Type} (l : List α) (a b : Nat) (hab : a ≤ b) :
    l = l.take a ++ seg l a b ++ l.drop b := by
  unfold seg
  have h1 : l.drop b = (l.drop a).drop (b - a) := by
    rw [List.drop_drop, Nat.add_sub_cancel' hab]
  rw [h1, List.append_assoc, List.take_append_drop, List.take_append_drop]

theorem Rearr.seg_perm {α : Type} {a b : Nat} {l r : List α} (h : Rearr a b l r)
    (hab : a ≤ b) : (seg r a b).Perm (seg l a b) := by
  have h1 := h.1
  rw [eq_take_seg_drop l a b hab, eq_take_seg_drop r a b hab, h.2.1, h.2.2] at h1
  exact (List.perm_append_left_iff _).mp ((List.perm_append_right_iff _).mp h1)

theorem mem_seg {α : Type} (l : List α) (a b : Nat) (d x : α) (hb : b ≤ l.length) :
    x ∈ seg l a b ↔ ∃ k, a ≤ k ∧ k < b ∧ l.getD k d = x := by
  unfold seg
  rw [List.mem_iff_getElem?]
  constructor
  · rintro ⟨n, hn⟩
    simp only [List.getElem?_take, List.getElem?_drop] at hn
    by_cases h1 : n < b - a
    · simp only [h1, if_true] at hn
      exact ⟨a + n, by omega, by omega, by simp [List.getD_eq_getElem?_getD, hn]⟩
    · simp [h1] at hn
  · rintro ⟨k, hk1, hk2, hk3⟩
    refine ⟨k - a, ?_⟩
    simp only [List.getElem?_take, List.getElem?_drop, Nat.add_sub_cancel' hk1]
    have h1 : k - a < b - a := by omega
    have h2 : k < l.length := by omega
    simp only [h1, if_true]
    rw [List.getElem?_eq_getElem h2, ← hk3, List.getD_eq_getElem l d h2]

/-- A property of every element in the range is kept by a rearrangement inside
the range. -/
theorem Rearr.forall_range {α : Type} {a b : Nat} {l r : List α} (h : Rearr a b l r)
    (d : α) (hab : a ≤ b) (hb : b ≤ l.length) (P : α → Prop)
    (hP : ∀ k, a ≤ k → k < b → P (l.getD k d)) :
    ∀ k, a ≤ k → k < b → P (r.getD k d) := by
  intro k hk1 hk2
  have hb2 : b ≤ r.length := by rw [h.length]; exact hb
  have h1 : r.getD k d ∈ seg r a b := (mem_seg r a b d _ hb2).mpr ⟨k, hk1, hk2, rfl⟩
  have h2 := (h.seg_perm hab).mem_iff.mp h1
  obtain ⟨k2, h3, h4, h5⟩ := (mem_seg l a b d _ hb).mp h2
  rw [← h5]
  exact hP k2 h3 h4

theorem SortedOn.pairwise {α κ : Type} [LinearOrder κ] (key : α → κ) (d : α) (l : List α)
    (h : SortedOn key d l 0 l.length) : l.Pairwise (fun x y => key x ≤ key y) := by
  rw [List.pairwise_iff_getElem]
  intro i j hi hj hij
  have := h i j (Nat.zero_le i) (Nat.le_of_lt hij) hj
  rwa [List.getD_eq_getElem l d hi, List.getD_eq_getElem l d hj] at this

theorem sortedOn_of_pairwise {α κ : Type} [LinearOrder κ] (key : α → κ) (d : α) (l : List α)
    (h : l.Pairwise (fun x y => key x ≤ key y)) : SortedOn key d l 0 l.length := by
  rw [List.pairwise_iff_getElem] at h
  intro i j _ hij hj
  have hi : i < l.length := by omega
  rw [List.getD_eq_getElem l d hi, List.getD_eq_getElem l d hj]
  rcases Nat.eq_or_lt_of_le hij with h1 | h1
  · subst h1; exact le_refl _
  · exact h i j hi hj h1

/-! ## The library `insertionSort` on a range -/

theorem getD_append_mid {α : Type} (pre s post : List α) (d : α) (k : Nat)
    (h1 : pre.length ≤ k) (h2 : k < pre.length + s.length) :
    (pre ++ s ++ post).getD k d = s.getD (k - pre.length) d := by
  simp only [List.getD_eq_getElem?_getD]
  rw [List.getElem?_append_left (by simp; omega), List.getElem?_append_right h1]

theorem insertionSortRange_spec {α κ : Type} [LinearOrder κ] (key : α → κ)
    (less : α → α → Bool) (hless : ∀ a b, less a b = true ↔ key a < key b) (d : α)
    (l : List α) (a b : Nat) (hab : a ≤ b) (hb : b ≤ l.length) :
    Rearr a b l (insertionSortRange less l a b) ∧
      SortedOn key d (insertionSortRange less l a b) a b := by
  have hlen : (insertionSort less ((l.drop a).take (b - a))).length = b - a := by
    rw [(insertionSort_perm less _).length_eq]
    simp only [List.length_take, List.length_drop]
    omega
  have hpre : (l.take a).length = a := by simp only [List.length_take]; omega
  refine ⟨⟨insertionSortRange_perm less l a b, ?_, ?_⟩, ?_⟩
  · unfold insertionSortRange
    rw [List.append_assoc, List.take_left' hpre]
  · unfold insertionSortRange
    rw [List.drop_drop, Nat.add_sub_cancel' hab]
    apply List.drop_left'
    simp only [List.length_append, hlen, hpre]
    omega
  · intro i j hi hij hj
    unfold insertionSortRange
    rw [getD_append_mid _ _ _ d i (by omega) (by omega),
      getD_append_mid _ _ _ d j (by omega) (by omega), hpre]
    have hs := sortedOn_of_pairwise key d _
      (insertionSort_ascending key less hless ((l.drop a).take (b - a)))
    exact hs (i - a) (j - a) (Nat.zero_le _) (by omega) (by omega)

/-! ## The library `partition` -/

theorem scanUp_spec {α : Type} (less : α → α → Bool) (l : List α) (a j : Nat) (fuel i : Nat)
    (hf : j + 1 - i ≤ fuel) (hij : i ≤ j + 1) :
    i ≤ scanUp less l a j fuel i ∧ scanUp less l a j fuel i ≤ j + 1 ∧
      (∀ k, i ≤ k → k < scanUp less l a j fuel i → lessAt less l k a = true) ∧
      (scanUp less l a j fuel i ≤ j → lessAt less l (scanUp less l a j fuel i) a = false) := by
  induction fuel generalizing i with
  | zero =>
    unfold scanUp
    refine ⟨le_refl _, hij, ?_, ?_⟩
    · intro k h1 h2; omega
    · intro h; omega
  | succ f ih =>
    unfold scanUp
    by_cases hc : (decide (i ≤ j) && lessAt less l i a) = true
    · rw [if_pos hc]
      simp only [Bool.and_eq_true, decide_eq_true_eq] at hc
      obtain ⟨h3, h4, h5, h6⟩ := ih (i + 1) (by omega) (by omega)
      refine ⟨by omega, h4, ?_, h6⟩
      intro k hk1 hk2
      rcases Nat.eq_or_lt_of_le hk1 with h7 | h7
      · rw [← h7]; exact hc.2
      · exact h5 k h7 hk2
    · rw [if_neg hc]
      refine ⟨le_refl _, hij, ?_, ?_⟩
      · intro k h3 h4; omega
      · intro h
        simp only [Bool.and_eq_true, decide_eq_true_eq, not_and, Bool.not_eq_true] at hc
        exact hc h

theorem scanDown_spec {α : Type} (less : α → α → Bool) (l : List α) (a i : Nat)
    (fuel j : Nat) (hf : j + 1 - i ≤ fuel) (hij : i ≤ j + 1) (hi : 1 ≤ i) :
    scanDown less l a i fuel j ≤ j ∧ i ≤ scanDown less l a i fuel j + 1 ∧
      (∀ k, scanDown less l a i fuel j < k → k ≤ j → lessAt less l k a = false) ∧
      (i ≤ scanDown less l a i fuel j → lessAt less l (scanDown less l a i fuel j) a = true) := by
  induction fuel generalizing j with
  | zero =>
    unfold scanDown
    refine ⟨le_refl _, hij, ?_, ?_⟩
    · intro k h1 h2; omega
    · intro h; omega
  | succ f ih =>
    unfold scanDown
    by_cases hc : (decide (i ≤ j) && !lessAt less l j a) = true
    · rw [if_pos hc]
      simp only [Bool.and_eq_true, decide_eq_true_eq, Bool.not_eq_true'] at hc
      obtain ⟨h3, h4, h5, h6⟩ := ih (j - 1) (by omega) (by omega)
      refine ⟨by omega, h4, ?_, h6⟩
      intro k hk1 hk2
      rcases Nat.eq_or_lt_of_le hk2 with h7 | h7
      · rw [h7]; exact hc.2
      · exact h5 k hk1 (by omega)
    · rw [if_neg hc]
      refine ⟨le_refl _, hij, ?_, ?_⟩
      · intro k h3 h4; omega
      · intro h
        simp only [Bool.and_eq_true, decide_eq_true_eq, Bool.not_eq_true', not_and,
          Bool.not_eq_false] at hc
        exact hc h

theorem partitionLoop_spec {α κ : Type} [LinearOrder κ] (key : α → κ)
    (less : α → α → Bool) (hless : ∀ a b, less a b = true ↔ key a < key b) (d : α)
    (a b : Nat) (pv : κ) (fuel : Nat) (l : List α) (i j : Nat)
    (hf : j + 1 - i ≤ fuel) (hai : a + 1 ≤ i) (hij : i ≤ j + 1) (hjb : j < b)
    (hb : b ≤ l.length) (hpv : key (l.getD a d) = pv)
    (hlo : ∀ k, a + 1 ≤ k → k < i → key (l.getD k d) < pv)
    (hhi : ∀ k, j < k → k < b → pv ≤ key (l.getD k d)) :
    Rearr (a + 1) b l (partitionLoop less a fuel l i j).1 ∧
      i ≤ (partitionLoop less a fuel l i j).2 + 1 ∧
      (partitionLoop less a fuel l i j).2 < b ∧
      (∀ k, a + 1 ≤ k → k ≤ (partitionLoop less a fuel l i j).2 →
        key ((partitionLoop less a fuel l i j).1.getD k d) < pv) ∧
      (∀ k, (partitionLoop less a fuel l i j).2 < k → k < b →
        pv ≤ key ((partitionLoop less a fuel l i j).1.getD k d)) := by
  induction fuel generalizing l i j with
  | zero =>
    unfold partitionLoop
    refine ⟨Rearr.refl _ _ _, hij, hjb, ?_, hhi⟩
    intro k h1 h2
    exact hlo k h1 (by omega)
  | succ f ih =>
    unfold partitionLoop
    dsimp only
    obtain ⟨u1, u2, u3, u4⟩ := scanUp_spec less l a j (j + 1 - i) i (le_refl _) hij
    generalize scanUp less l a j (j + 1 - i) i = i1 at u1 u2 u3 u4 ⊢
    obtain ⟨v1, v2, v3, v4⟩ :=
      scanDown_spec less l a i1 (j + 1 - i1) j (le_refl _) u2 (by omega)
    generalize scanDown less l a i1 (j + 1 - i1) j = j1 at v1 v2 v3 v4 ⊢
    have ha : a < l.length := by omega
    have lo1 : ∀ k, a + 1 ≤ k → k < i1 → key (l.getD k d) < pv := by
      intro k h1 h2
      by_cases h3 : k < i
      · exact hlo k h1 h3
      · have := u3 k (by omega) h2
        rw [lessAt_iff key less hless l k a d (by omega) ha, hpv] at this
        exact this
    have hi1 : ∀ k, j1 < k → k < b → pv ≤ key (l.getD k d) := by
      intro k h1 h2
      by_cases h3 : j < k
      · exact hhi k h3 h2
      · have := v3 k h1 (by omega)
        rw [lessAt_false_iff key less hless l k a d (by omega) ha, hpv] at this
        exact this
    by_cases hc : j1 < i1
    · rw [if_pos hc]
      refine ⟨Rearr.refl _ _ _, by omega, by omega, ?_, hi1⟩
      intro k h1 h2
      exact lo1 k h1 (by omega)
    · rw [if_neg hc]
      have w1 := u4 (by omega)
      have w2 := v4 (by omega)
      rw [lessAt_false_iff key less hless l i1 a d (by omega) ha, hpv] at w1
      rw [lessAt_iff key less hless l j1 a d (by omega) ha, hpv] at w2
      have hne : i1 ≠ j1 := by
        intro h
        rw [h] at w1
        exact absurd w2 (not_lt.mpr w1)
      have hi1l : i1 < l.length := by omega
      have hj1l : j1 < l.length := by omega
      obtain ⟨r1, r2, r3, r4, r5⟩ := ih (swapAt l i1 j1) (i1 + 1) (j1 - 1) (by omega)
        (by omega) (by omega) (by omega) (by rw [length_swapAt]; exact hb)
        (by
          rw [getD_swapAt l i1 j1 a d hi1l hj1l, if_neg (by omega), if_neg (by omega)]
          exact hpv)
        (by
          intro k h1 h2
          rw [getD_swapAt l i1 j1 k d hi1l hj1l]
          by_cases h3 : k = i1
          · rw [if_neg (by omega), if_pos h3]; exact w2
          · rw [if_neg (by omega), if_neg h3]; exact lo1 k h1 (by omega))
        (by
          intro k h1 h2
          rw [getD_swapAt l i1 j1 k d hi1l hj1l]
          by_cases h3 : k = j1
          · rw [if_pos h3]; exact w1
          · rw [if_neg h3, if_neg (by omega)]; exact hi1 k (by omega) h2)
      exact ⟨(swapAt_rearr l (a + 1) b i1 j1 (by omega) (by omega) (by omega)
        (by omega)).trans r1, by omega, r3, r4, r5⟩

theorem partition_finish {α κ : Type} [LinearOrder κ] (key : α → κ) (d : α)
    (a b : Nat) (pv : κ) (l : List α) (j : Nat) (haj : a ≤ j) (hjb : j < b)
    (hb : b ≤ l.length) (hpv : key (l.getD a d) = pv)
    (hlo : ∀ k, a + 1 ≤ k → k ≤ j → key (l.getD k d) < pv)
    (hhi : ∀ k, j < k → k < b → pv ≤ key (l.getD k d)) :
    Rearr a b l (swapAt l j a) ∧ key ((swapAt l j a).getD j d) = pv ∧
      (∀ k, a ≤ k → k < j → key ((swapAt l j a).getD k d) < pv) ∧
      (∀ k, j < k → k < b → pv ≤ key ((swapAt l j a).getD k d)) := by
  have hjl : j < l.length := by omega
  have hal : a < l.length := by omega
  refine ⟨swapAt_rearr l a b j a haj hjb (le_refl a) (by omega), ?_, ?_, ?_⟩
  · rw [getD_swapAt l j a j d hjl hal]
    by_cases h : j = a
    · rw [if_pos h, h]; exact hpv
    · rw [if_neg h, if_pos rfl]; exact hpv
  · intro k h1 h2
    rw [getD_swapAt l j a k d hjl hal]
    by_cases h : k = a
    · rw [if_pos h]; exact hlo j (by omega) (le_refl j)
    · rw [if_neg h, if_neg (by omega)]; exact hlo k (by omega) (by omega)
  · intro k h1 h2
    rw [getD_swapAt l j a k d hjl hal, if_neg (by omega), if_neg (by omega)]
    exact hhi k h1 h2

/-- The library `partition`: the elements before the new index of the pivot are
less than the pivot and the elements after it are not. -/
theorem partition_spec {α κ : Type} [LinearOrder κ] (key : α → κ)
    (less : α → α → Bool) (hless : ∀ a b, less a b = true ↔ key a < key b) (d : α)
    (l : List α) (a b pivot : Nat) (hb : b ≤ l.length) (hp1 : a ≤ pivot)
    (hp2 : pivot < b) :
    Rearr a b l (partition less l a b pivot).1 ∧
      a ≤ (partition less l a b pivot).2.1 ∧ (partition less l a b pivot).2.1 < b ∧
      (∀ k, a ≤ k → k < (partition less l a b pivot).2.1 →
        key ((partition less l a b pivot).1.getD k d) <
          key ((partition less l a b pivot).1.getD (partition less l a b pivot).2.1 d)) ∧
      (∀ k, (partition less l a b pivot).2.1 < k → k < b →
        key ((partition less l a b pivot).1.getD (partition less l a b pivot).2.1 d) ≤
          key ((partition less l a b pivot).1.getD k d)) := by
  unfold partition
  dsimp only
  have hr1 : Rearr a b l (swapAt l a pivot) :=
    swapAt_rearr l a b a pivot (le_refl a) (by omega) hp1 hp2
  have hlen1 : b ≤ (swapAt l a pivot).length := by rw [length_swapAt]; exact hb
  generalize swapAt l a pivot = l1 at hr1 hlen1 ⊢
  have ha : a < l1.length := by omega
  obtain ⟨u1, u2, u3, u4⟩ :=
    scanUp_spec less l1 a (b - 1) (b - 1 - a) (a + 1) (by omega) (by omega)
  generalize scanUp less l1 a (b - 1) (b - 1 - a) (a + 1) = i at u1 u2 u3 u4 ⊢
  obtain ⟨v1, v2, v3, v4⟩ :=
    scanDown_spec less l1 a i (b - i) (b - 1) (by omega) u2 (by omega)
  generalize scanDown less l1 a i (b - i) (b - 1) = j at v1 v2 v3 v4 ⊢
  have lo1 : ∀ k, a + 1 ≤ k → k < i → key (l1.getD k d) < key (l1.getD a d) := by
    intro k h1 h2
    have := u3 k h1 h2
    rwa [lessAt_iff key less hless l1 k a d (by omega) ha] at this
  have hi1 : ∀ k, j < k → k < b → key (l1.getD a d) ≤ key (l1.getD k d) := by
    intro k h1 h2
    have := v3 k h1 (by omega)
    rwa [lessAt_false_iff key less hless l1 k a d (by omega) ha] at this
  by_cases hc : j < i
  · rw [if_pos hc]
    dsimp only
    obtain ⟨f1, f2, f3, f4⟩ := partition_finish key d a b (key (l1.getD a d)) l1 j
      (by omega) (by omega) hlen1 rfl (fun k h1 h2 => lo1 k h1 (by omega)) hi1
    refine ⟨hr1.trans f1, by omega, by omega, ?_, ?_⟩
    · intro k h1 h2; rw [f2]; exact f3 k h1 h2
    · intro k h1 h2; rw [f2]; exact f4 k h1 h2
  · rw [if_neg hc]
    dsimp only
    have w1 := u4 (by omega)
    have w2 := v4 (by omega)
    rw [lessAt_false_iff key less hless l1 i a d (by omega) ha] at w1
    rw [lessAt_iff key less hless l1 j a d (by omega) ha] at w2
    have hne : i ≠ j := by
      intro h
      rw [h] at w1
      exact absurd w2 (not_lt.mpr w1)
    have hil : i < l1.length := by omega
    have hjl : j < l1.length := by omega
    obtain ⟨r1, r2, r3, r4, r5⟩ := partitionLoop_spec key less hless d a b
      (key (l1.getD a d)) (j + 1 - i) (swapAt l1 i j) (i + 1) (j - 1) (by omega)
      (by omega) (by omega) (by omega) (by rw [length_swapAt]; exact hlen1)
      (by rw [getD_swapAt l1 i j a d hil hjl, if_neg (by omega), if_neg (by omega)])
      (by
        intro k h1 h2
        rw [getD_swapAt l1 i j k d hil hjl]
        by_cases h3 : k = i
        · rw [if_neg (by omega), if_pos h3]; exact w2
        · rw [if_neg (by omega), if_neg h3]; exact lo1 k h1 (by omega))
      (by
        intro k h1 h2
        rw [getD_swapAt l1 i j k d hil hjl]
        by_cases h3 : k = j
        · rw [if_pos h3]; exact w1
        · rw [if_neg h3, if_neg (by omega)]; exact hi1 k (by omega) h2)
    have hsw : Rearr a b l1 (swapAt l1 i j) :=
      swapAt_rearr l1 a b i j (by omega) (by omega) (by omega) (by omega)
    generalize partitionLoop less a (j + 1 - i) (swapAt l1 i j) (i + 1) (j - 1) = res
      at r1 r2 r3 r4 r5 ⊢
    have hres : key (res.1.getD a d) = key (l1.getD a d) := by
      rw [r1.getD_lt d a (by omega),
        getD_swapAt l1 i j a d hil hjl, if_neg (by omega), if_neg (by omega)]
    obtain ⟨f1, f2, f3, f4⟩ := partition_finish key d a b (key (l1.getD a d)) res.1 res.2
      (by omega) r3 (by rw [r1.length, length_swapAt]; exact hlen1) hres r4 r5
    refine ⟨hr1.trans (hsw.trans ((r1.mono (by omega) (le_refl b)).trans f1)), by omega, r3,
      ?_, ?_⟩
    · intro k h1 h2; rw [f2]; exact f3 k h1 h2
    · intro k h1 h2; rw [f2]; exact f4 k h1 h2

/-! ## The library `partitionEqual` -/

theorem scanUpEqual_spec {α : Type} (less : α → α → Bool) (l : List α) (a j : Nat)
    (fuel i : Nat) (hf : j + 1 - i ≤ fuel) (hij : i ≤ j + 1) :
    i ≤ scanUpEqual less l a j fuel i ∧ scanUpEqual less l a j fuel i ≤ j + 1 ∧
      (∀ k, i ≤ k → k < scanUpEqual less l a j fuel i → lessAt less l a k = false) ∧
      (scanUpEqual less l a j fuel i ≤ j →
        lessAt less l a (scanUpEqual less l a j fuel i) = true) := by
  induction fuel generalizing i with
  | zero =>
    unfold scanUpEqual
    refine ⟨le_refl _, hij, ?_, ?_⟩
    · intro k h1 h2; omega
    · intro h; omega
  | succ f ih =>
    unfold scanUpEqual
    by_cases hc : (decide (i ≤ j) && !lessAt less l a i) = true
    · rw [if_pos hc]
      simp only [Bool.and_eq_true, decide_eq_true_eq, Bool.not_eq_true'] at hc
      obtain ⟨h3, h4, h5, h6⟩ := ih (i + 1) (by omega) (by omega)
      refine ⟨by omega, h4, ?_, h6⟩
      intro k hk1 hk2
      rcases Nat.eq_or_lt_of_le hk1 with h7 | h7
      · rw [← h7]; exact hc.2
      · exact h5 k h7 hk2
    · rw [if_neg hc]
      refine ⟨le_refl _, hij, ?_, ?_⟩
      · intro k h3 h4; omega
      · intro h
        simp only [Bool.and_eq_true, decide_eq_true_eq, Bool.not_eq_true', not_and,
          Bool.not_eq_false] at hc
        exact hc h

theorem scanDownEqual_spec {α : Type} (less : α → α → Bool) (l : List α) (a i : Nat)
    (fuel j : Nat) (hf : j + 1 - i ≤ fuel) (hij : i ≤ j + 1) (hi : 1 ≤ i) :
    scanDownEqual less l a i fuel j ≤ j ∧ i ≤ scanDownEqual less l a i fuel j + 1 ∧
      (∀ k, scanDownEqual less l a i fuel j < k → k ≤ j → lessAt less l a k = true) ∧
      (i ≤ scanDownEqual less l a i fuel j →
        lessAt less l a (scanDownEqual less l a i fuel j) = false) := by
  induction fuel generalizing j with
  | zero =>
    unfold scanDownEqual
    refine ⟨le_refl _, hij, ?_, ?_⟩
    · intro k h1 h2; omega
    · intro h; omega
  | succ f ih =>
    unfold scanDownEqual
    by_cases hc : (decide (i ≤ j) && lessAt less l a j) = true
    · rw [if_pos hc]
      simp only [Bool.and_eq_true, decide_eq_true_eq] at hc
      obtain ⟨h3, h4, h5, h6⟩ := ih (j - 1) (by omega) (by omega)
      refine ⟨by omega, h4, ?_, h6⟩
      intro k hk1 hk2
      rcases Nat.eq_or_lt_of_le hk2 with h7 | h7
      · rw [h7]; exact hc.2
      · exact h5 k hk1 (by omega)
    · rw [if_neg hc]
      refine ⟨le_refl _, hij, ?_, ?_⟩
      · intro k h3 h4; omega
      · intro h
        simp only [Bool.and_eq_true, decide_eq_true_eq, not_and, Bool.not_eq_true] at hc
        exact hc h

theorem partitionEqualLoop_spec {α κ : Type} [LinearOrder κ] (key : α → κ)
    (less : α → α → Bool) (hless : ∀ a b, less a b = true ↔ key a < key b) (d : α)
    (a b : Nat) (pv : κ) (fuel : Nat) (l : List α) (i j : Nat)
    (hf : j + 1 - i ≤ fuel) (hai : a + 1 ≤ i) (hij : i ≤ j + 1) (hjb : j < b)
    (hb : b ≤ l.length) (hpv : key (l.getD a d) = pv)
    (hlo : ∀ k, a + 1 ≤ k → k < i → key (l.getD k d) ≤ pv)
    (hhi : ∀ k, j < k → k < b → pv < key (l.getD k d)) :
    Rearr (a + 1) b l (partitionEqualLoop less a fuel l i j).1 ∧
      i ≤ (partitionEqualLoop less a fuel l i j).2 ∧
      (partitionEqualLoop less a fuel l i j).2 ≤ b ∧
      (∀ k, a + 1 ≤ k → k < (partitionEqualLoop less a fuel l i j).2 →
        key ((partitionEqualLoop less a fuel l i j).1.getD k d) ≤ pv) ∧
      (∀ k, (partitionEqualLoop less a fuel l i j).2 ≤ k → k < b →
        pv < key ((partitionEqualLoop less a fuel l i j).1.getD k d)) := by
  induction fuel generalizing l i j with
  | zero =>
    unfold partitionEqualLoop
    refine ⟨Rearr.refl _ _ _, le_refl _, by omega, hlo, ?_⟩
    intro k h1 h2
    exact hhi k (by omega) h2
  | succ f ih =>
    unfold partitionEqualLoop
    dsimp only
    obtain ⟨u1, u2, u3, u4⟩ := scanUpEqual_spec less l a j (j + 1 - i) i (le_refl _) hij
    generalize scanUpEqual less l a j (j + 1 - i) i = i1 at u1 u2 u3 u4 ⊢
    obtain ⟨v1, v2, v3, v4⟩ :=
      scanDownEqual_spec less l a i1 (j + 1 - i1) j (le_refl _) u2 (by omega)
    generalize scanDownEqual less l a i1 (j + 1 - i1) j = j1 at v1 v2 v3 v4 ⊢
    have ha : a < l.length := by omega
    have lo1 : ∀ k, a + 1 ≤ k → k < i1 → key (l.getD k d) ≤ pv := by
      intro k h1 h2
      by_cases h3 : k < i
      · exact hlo k h1 h3
      · have := u3 k (by omega) h2
        rw [lessAt_false_iff key less hless l a k d ha (by omega), hpv] at this
        exact this
    have hi1 : ∀ k, j1 < k → k < b → pv < key (l.getD k d) := by
      intro k h1 h2
      by_cases h3 : j < k
      · exact hhi k h3 h2
      · have := v3 k h1 (by omega)
        rw [lessAt_iff key less hless l a k d ha (by omega), hpv] at this
        exact this
    by_cases hc : j1 < i1
    · rw [if_pos hc]
      refine ⟨Rearr.refl _ _ _, by omega, by omega, lo1, ?_⟩
      intro k h1 h2
      exact hi1 k (by omega) h2
    · rw [if_neg hc]
      have w1 := u4 (by omega)
      have w2 := v4 (by omega)
      rw [lessAt_iff key less hless l a i1 d ha (by omega), hpv] at w1
      rw [lessAt_false_iff key less hless l a j1 d ha (by omega), hpv] at w2
      have hne : i1 ≠ j1 := by
        intro h
        rw [h] at w1
        exact absurd w1 (not_lt.mpr w2)
      have hi1l : i1 < l.length := by omega
      have hj1l : j1 < l.length := by omega
      obtain ⟨r1, r2, r3, r4, r5⟩ := ih (swapAt l i1 j1) (i1 + 1) (j1 - 1) (by omega)
        (by omega) (by omega) (by omega) (by rw [length_swapAt]; exact hb)
        (by
          rw [getD_swapAt l i1 j1 a d hi1l hj1l, if_neg (by omega), if_neg (by omega)]
          exact hpv)
        (by
          intro k h1 h2
          rw [getD_swapAt l i1 j1 k d hi1l hj1l]
          by_cases h3 : k = i1
          · rw [if_neg (by omega), if_pos h3]; exact w2
          · rw [if_neg (by omega), if_neg h3]; exact lo1 k h1 (by omega))
        (by
          intro k h1 h2
          rw [getD_swapAt l i1 j1 k d hi1l hj1l]
          by_cases h3 : k = j1
          · rw [if_pos h3]; exact w1
          · rw [if_neg h3, if_neg (by omega)]; exact hi1 k (by omega) h2)
      exact ⟨(swapAt_rearr l (a + 1) b i1 j1 (by omega) (by omega) (by omega)
        (by omega)).trans r1, by omega, r3, r4, r5⟩

/-- The library `partitionEqual`: the elements before the returned index are
not greater than the pivot and the elements from it on are greater. -/
theorem partitionEqual_spec {α κ : Type} [LinearOrder κ] (key : α → κ)
    (less : α → α → Bool) (hless : ∀ a b, less a b = true ↔ key a < key b) (d : α)
    (l : List α) (a b pivot : Nat) (hb : b ≤ l.length) (hp1 : a ≤ pivot)
    (hp2 : pivot < b) :
    Rearr a b l (partitionEqual less l a b pivot).1 ∧
      a + 1 ≤ (partitionEqual less l a b pivot).2 ∧ (partitionEqual less l a b pivot).2 ≤ b ∧
      (∀ k, a ≤ k → k < (partitionEqual less l a b pivot).2 →
        key ((partitionEqual less l a b pivot).1.getD k d) ≤ key (l.getD pivot d)) ∧
      (∀ k, (partitionEqual less l a b pivot).2 ≤ k → k < b →
        key (l.getD pivot d) < key ((partitionEqual less l a b pivot).1.getD k d)) := by
  unfold partitionEqual
  have hal : a < l.length := by omega
  have hpl : pivot < l.length := by omega
  have hpv : key ((swapAt l a pivot).getD a d) = key (l.getD pivot d) := by
    rw [getD_swapAt l a pivot a d hal hpl]
    by_cases h : a = pivot
    · rw [if_pos h, h]
    · rw [if_neg h, if_pos rfl]
  obtain ⟨r1, r2, r3, r4, r5⟩ := partitionEqualLoop_spec key less hless d a b
    (key (l.getD pivot d)) (b - a) (swapAt l a pivot) (a + 1) (b - 1) (by omega)
    (le_refl _) (by omega) (by omega) (by rw [length_swapAt]; exact hb) hpv
    (by intro k h1 h2; omega) (by intro k h1 h2; omega)
  refine ⟨(swapAt_rearr l a b a pivot (le_refl a) (by omega) hp1 hp2).trans
    (r1.mono (by omega) (le_refl b)), r2, r3, ?_, r5⟩
  intro k h1 h2
  rcases Nat.eq_or_lt_of_le h1 with h3 | h3
  · rw [← h3, r1.getD_lt d a (by omega), hpv]
  · exact r4 k h3 h2

/-! ## The library `reverseRange`, `breakPatterns` and `choosePivot` -/

theorem reverseLoop_rearr {α : Type} (a b fuel : Nat) (l : List α) (i j : Nat)
    (hai : a ≤ i) (hjb : j < b) : Rearr a b l (reverseLoop fuel l i j) := by
  induction fuel generalizing l i j with
  | zero => exact Rearr.refl _ _ _
  | succ f ih =>
    unfold reverseLoop
    by_cases h : i < j
    · rw [if_pos h]
      exact (swapAt_rearr l a b i j hai (by omega) (by omega) hjb).trans
        (ih _ _ _ (by omega) (by omega))
    · rw [if_neg h]
      exact Rearr.refl _ _ _

theorem reverseRange_rearr {α : Type} (l : List α) (a b : Nat) (hab : a < b) :
    Rearr a b l (reverseRange l a b) :=
  reverseLoop_rearr a b _ l a (b - 1) (le_refl a) (by omega)

theorem bitsLen_pow_le (fuel n : Nat) (hn : 1 ≤ n) : 2 ^ bitsLen fuel n ≤ 2 * n := by
  induction fuel generalizing n with
  | zero =>
    unfold bitsLen
    simp
    omega
  | succ f ih =>
    unfold bitsLen
    rw [if_neg (by omega)]
    rw [pow_succ]
    by_cases h : n / 2 = 0
    · have h0 : bitsLen f (n / 2) = 0 := by
        rw [h]
        cases f <;> simp [bitsLen]
      rw [h0]
      simp
      omega
    · have := ih (n / 2) (by omega)
      omega

theorem breakPatterns_other_lt (length random : Nat) (hn : 1 ≤ length) :
    (if length ≤ random &&& (2 ^ bitsLen 64 length - 1) then
      (random &&& (2 ^ bitsLen 64 length - 1)) - length
    else random &&& (2 ^ bitsLen 64 length - 1)) < length := by
  have h1 : random &&& (2 ^ bitsLen 64 length - 1) ≤ 2 ^ bitsLen 64 length - 1 :=
    Nat.and_le_right
  have h2 := bitsLen_pow_le 64 length hn
  split <;> omega

theorem breakPatterns_rearr {α : Type} (l : List α) (a b : Nat) :
    Rearr a b l (breakPatterns l a b) := by
  unfold breakPatterns
  dsimp only
  by_cases h : 8 ≤ b - a
  · rw [if_pos h]
    simp only [List.range_succ, List.range_zero, List.nil_append, List.cons_append,
      List.foldl_cons, List.foldl_nil]
    have hn : 1 ≤ b - a := by omega
    have o1 := breakPatterns_other_lt (b - a) (xorshiftNext (b - a)) hn
    have o2 := breakPatterns_other_lt (b - a) (xorshiftNext (xorshiftNext (b - a))) hn
    have o3 := breakPatterns_other_lt (b - a)
      (xorshiftNext (xorshiftNext (xorshiftNext (b - a)))) hn
    refine ((swapAt_rearr l a b _ _ ?_ ?_ ?_ ?_).trans
      (swapAt_rearr _ a b _ _ ?_ ?_ ?_ ?_)).trans (swapAt_rearr _ a b _ _ ?_ ?_ ?_ ?_) <;>
      omega
  · rw [if_neg h]
    exact Rearr.refl _ _ _

theorem order2_cases {α : Type} (less : α → α → Bool) (l : List α) (a b s : Nat) :
    ((order2 less l a b s).1 = a ∧ (order2 less l a b s).2.1 = b) ∨
      ((order2 less l a b s).1 = b ∧ (order2 less l a b s).2.1 = a) := by
  unfold order2
  split
  · exact Or.inr ⟨rfl, rfl⟩
  · exact Or.inl ⟨rfl, rfl⟩

theorem median_mem {α : Type} (less : α → α → Bool) (l : List α) (a b c s : Nat) :
    (median less l a b c s).1 = a ∨ (median less l a b c s).1 = b ∨
      (median less l a b c s).1 = c := by
  unfold median
  dsimp only
  have h1 := order2_cases less l a b s
  generalize order2 less l a b s = o1 at h1 ⊢
  have h2 := order2_cases less l o1.2.1 c o1.2.2
  generalize order2 less l o1.2.1 c o1.2.2 = o2 at h2 ⊢
  have h3 := order2_cases less l o1.1 o2.1 o2.2.2
  generalize order2 less l o1.1 o2.1 o2.2.2 = o3 at h3 ⊢
  omega

theorem choosePivot_range {α : Type} (less : α → α → Bool) (l : List α) (a b : Nat)
    (hab : a < b) :
    a ≤ (choosePivot less l a b).1 ∧ (choosePivot less l a b).1 < b := by
  unfold choosePivot
  dsimp only
  have hfst : ∀ (m : Nat × Nat),
      (if m.2 = 0 then (m.1, SortedHint.increasingHint)
        else if m.2 = 12 then (m.1, SortedHint.decreasingHint)
        else (m.1, SortedHint.unknownHint)).1 = m.1 := by
    intro m
    split
    · rfl
    · split <;> rfl
  rw [hfst]
  by_cases h8 : 8 ≤ b - a
  · rw [if_pos h8]
    by_cases h50 : 50 ≤ b - a
    · rw [if_pos h50]
      dsimp only
      unfold medianAdjacent
      generalize (median less l (a + (b - a) / 4 * 1 - 1) (a + (b - a) / 4 * 1)
        (a + (b - a) / 4 * 1 + 1) 0).2 = s1
      rcases median_mem less l (a + (b - a) / 4 * 1 - 1) (a + (b - a) / 4 * 1)
        (a + (b - a) / 4 * 1 + 1) 0 with e1 | e1 | e1 <;>
      generalize (median less l (a + (b - a) / 4 * 2 - 1) (a + (b - a) / 4 * 2)
        (a + (b - a) / 4 * 2 + 1) s1).2 = s2 <;>
      rcases median_mem less l (a + (b - a) / 4 * 2 - 1) (a + (b - a) / 4 * 2)
        (a + (b - a) / 4 * 2 + 1) s1 with e2 | e2 | e2 <;>
      generalize (median less l (a + (b - a) / 4 * 3 - 1) (a + (b - a) / 4 * 3)
        (a + (b - a) / 4 * 3 + 1) s2).2 = s3 <;>
      rcases median_mem less l (a + (b - a) / 4 * 3 - 1) (a + (b - a) / 4 * 3)
        (a + (b - a) / 4 * 3 + 1) s2 with e3 | e3 | e3 <;>
      rw [e1, e2, e3] <;>
      rcases median_mem less l _ _ _ s3 with e4 | e4 | e4 <;>
      rw [e4] <;> omega
    · rw [if_neg h50]
      dsimp only
      rcases median_mem less l (a + (b - a) / 4 * 1) (a + (b - a) / 4 * 2)
        (a + (b - a) / 4 * 3) 0 with e | e | e <;> rw [e] <;> omega
  · rw [if_neg h8]
    dsimp only
    omega

/-! ## The library `partialInsertionSort` -/

theorem sortedOn_of_adjOn {α κ : Type} [LinearOrder κ] (key : α → κ) (d : α) (l : List α)
    (a b : Nat) (h : AdjOn key d l a b) : SortedOn key d l a b := by
  intro i j hi hij hj
  induction j, hij using Nat.le_induction with
  | base => exact le_refl _
  | succ n hn ih =>
    have h1 := h (n + 1) (by omega) hj
    rw [Nat.add_sub_cancel] at h1
    exact le_trans (ih (by omega)) h1

theorem LowerBound.rearr {α κ : Type} [LinearOrder κ] (key : α → κ) (d : α) {l r : List α}
    {a b : Nat} (h : LowerBound key d l a b) (hr : Rearr a b l r) (hab : a ≤ b)
    (hb : b ≤ l.length) : LowerBound key d r a b := by
  rcases h with h | h
  · exact Or.inl h
  · by_cases ha : a = 0
    · exact Or.inl ha
    · right
      rw [hr.getD_lt d (a - 1) (by omega)]
      exact hr.forall_range d hab hb (fun x => key (l.getD (a - 1) d) ≤ key x) h

theorem scanOrdered_spec {α : Type} (less : α → α → Bool) (l : List α) (b : Nat)
    (fuel i : Nat) (hf : b - i ≤ fuel) (hib : i ≤ b) :
    i ≤ scanOrdered less l b fuel i ∧ scanOrdered less l b fuel i ≤ b ∧
      (∀ k, i ≤ k → k < scanOrdered less l b fuel i → lessAt less l k (k - 1) = false) ∧
      (scanOrdered less l b fuel i < b →
        lessAt less l (scanOrdered less l b fuel i) (scanOrdered less l b fuel i - 1) =
          true) := by
  induction fuel generalizing i with
  | zero =>
    unfold scanOrdered
    refine ⟨le_refl _, hib, ?_, ?_⟩
    · intro k h1 h2; omega
    · intro h; omega
  | succ f ih =>
    unfold scanOrdered
    by_cases hc : (decide (i < b) && !lessAt less l i (i - 1)) = true
    · rw [if_pos hc]
      simp only [Bool.and_eq_true, decide_eq_true_eq, Bool.not_eq_true'] at hc
      obtain ⟨h3, h4, h5, h6⟩ := ih (i + 1) (by omega) (by omega)
      refine ⟨by omega, h4, ?_, h6⟩
      intro k hk1 hk2
      rcases Nat.eq_or_lt_of_le hk1 with h7 | h7
      · rw [← h7]; exact hc.2
      · exact h5 k h7 hk2
    · rw [if_neg hc]
      refine ⟨le_refl _, hib, ?_, ?_⟩
      · intro k h3 h4; omega
      · intro h
        simp only [Bool.and_eq_true, decide_eq_true_eq, Bool.not_eq_true', not_and,
          Bool.not_eq_false] at hc
        exact hc h

theorem shiftSmaller_spec {α κ : Type} [LinearOrder κ] (key : α → κ)
    (less : α → α → Bool) (hless : ∀ a b, less a b = true ↔ key a < key b) (d : α)
    (a top : Nat) (fuel : Nat) (l : List α) (j : Nat)
    (hf : j + 1 ≤ fuel) (haj : a ≤ j) (hjt : j < top) (htl : top ≤ l.length)
    (hLB : a = 0 ∨ key (l.getD (a - 1) d) ≤ key (l.getD j d))
    (h1 : ∀ k, a < k → k < top → k ≠ j → k ≠ j + 1 →
      key (l.getD (k - 1) d) ≤ key (l.getD k d))
    (h2 : j + 1 < top → key (l.getD j d) ≤ key (l.getD (j + 1) d))
    (h3 : a < j → j + 1 < top → key (l.getD (j - 1) d) ≤ key (l.getD (j + 1) d)) :
    Rearr a top l (shiftSmaller less fuel l j) ∧
      AdjOn key d (shiftSmaller less fuel l j) a top := by
  induction fuel generalizing l j with
  | zero => omega
  | succ f ih =>
    unfold shiftSmaller
    have hjl : j < l.length := by omega
    by_cases hj1 : 1 ≤ j
    · rw [if_pos hj1]
      have hj1l : j - 1 < l.length := by omega
      by_cases hl : lessAt less l j (j - 1) = true
      · have hl2 : (!lessAt less l j (j - 1)) = false := by simp [hl]
        rw [hl2]
        simp only [Bool.false_eq_true, if_false]
        have hlt := (lessAt_iff key less hless l j (j - 1) d hjl hj1l).mp hl
        have haj2 : a < j := by
          rcases Nat.eq_or_lt_of_le haj with h | h
          · rcases hLB with h0 | h0
            · omega
            · subst h
              exact absurd hlt (not_lt.mpr h0)
          · exact h
        have g : ∀ k, (swapAt l j (j - 1)).getD k d =
            if k = j - 1 then l.getD j d else if k = j then l.getD (j - 1) d
            else l.getD k d := fun k => getD_swapAt l j (j - 1) k d hjl hj1l
        obtain ⟨r1, r2⟩ := ih (swapAt l j (j - 1)) (j - 1) (by omega) (by omega) (by omega)
          (by rw [length_swapAt]; exact htl)
          (by
            by_cases ha0 : a = 0
            · exact Or.inl ha0
            · right
              rw [g, g, if_neg (by omega), if_neg (by omega), if_pos rfl]
              rcases hLB with h0 | h0
              · omega
              · exact h0)
          (by
            intro k k1 k2 k3 k4
            rw [g, g]
            by_cases k5 : k = j + 1
            · rw [if_neg (by omega), if_pos (by omega), if_neg (by omega), if_neg (by omega),
                k5]
              exact h3 haj2 (by omega)
            · rw [if_neg (by omega), if_neg (by omega), if_neg (by omega), if_neg (by omega)]
              exact h1 k k1 k2 (by omega) k5)
          (by
            intro _
            rw [g, g, if_pos rfl, if_neg (by omega), if_pos (by omega)]
            exact le_of_lt hlt)
          (by
            intro k1 k2
            rw [g, g, if_neg (by omega), if_neg (by omega), if_neg (by omega),
              if_pos (by omega)]
            have := h1 (j - 1) (by omega) (by omega) (by omega) (by omega)
            exact this)
        exact ⟨(swapAt_rearr l a top j (j - 1) haj hjt (by omega) (by omega)).trans r1, r2⟩
      · have hl2 : (!lessAt less l j (j - 1)) = true := by simp [hl]
        rw [hl2]
        simp only [if_true]
        refine ⟨Rearr.refl _ _ _, ?_⟩
        have hge := (lessAt_false_iff key less hless l j (j - 1) d hjl hj1l).mp
          (by simpa using hl)
        intro k k1 k2
        by_cases k3 : k = j
        · rw [k3]; exact hge
        · by_cases k4 : k = j + 1
          · rw [k4, Nat.add_sub_cancel]; exact h2 (by omega)
          · exact h1 k k1 k2 k3 k4
    · rw [if_neg hj1]
      refine ⟨Rearr.refl _ _ _, ?_⟩
      intro k k1 k2
      by_cases k4 : k = j + 1
      · rw [k4, Nat.add_sub_cancel]; exact h2 (by omega)
      · exact h1 k k1 k2 (by omega) k4

theorem shiftGreater_rearr {α : Type} (less : α → α → Bool) (lo b fuel : Nat) (l : List α)
    (j : Nat) (hj : lo + 1 ≤ j) : Rearr lo b l (shiftGreater less b fuel l j) := by
  induction fuel generalizing l j with
  | zero => exact Rearr.refl _ _ _
  | succ f ih =>
    unfold shiftGreater
    by_cases h1 : j < b
    · rw [if_pos h1]
      split
      · exact Rearr.refl _ _ _
      · exact (swapAt_rearr l lo b j (j - 1) (by omega) h1 (by omega) (by omega)).trans
          (ih _ _ (by omega))
    · rw [if_neg h1]
      exact Rearr.refl _ _ _

theorem partialInsertionLoop_spec {α κ : Type} [LinearOrder κ] (key : α → κ)
    (less : α → α → Bool) (hless : ∀ a b, less a b = true ↔ key a < key b) (d : α)
    (a b : Nat) (steps : Nat) (l : List α) (i : Nat)
    (hai : a + 1 ≤ i) (hib : i ≤ b) (hb : b ≤ l.length)
    (hadj : AdjOn key d l a i) (hLB : LowerBound key d l a b) :
    Rearr a b l (partialInsertionLoop less a b steps l i).1 ∧
      ((partialInsertionLoop less a b steps l i).2 = true →
        SortedOn key d (partialInsertionLoop less a b steps l i).1 a b) := by
  induction steps generalizing l i with
  | zero =>
    unfold partialInsertionLoop
    exact ⟨Rearr.refl _ _ _, by intro h; simp at h⟩
  | succ s ih =>
    unfold partialInsertionLoop
    dsimp only
    obtain ⟨u1, u2, u3, u4⟩ := scanOrdered_spec less l b (b - i) i (le_refl _) hib
    generalize scanOrdered less l b (b - i) i = i1 at u1 u2 u3 u4 ⊢
    have hadj1 : AdjOn key d l a i1 := by
      intro k k1 k2
      by_cases k3 : k < i
      · exact hadj k k1 k3
      · exact (lessAt_false_iff key less hless l k (k - 1) d (by omega) (by omega)).mp
          (u3 k (by omega) k2)
    by_cases hc1 : i1 = b
    · rw [if_pos hc1]
      refine ⟨Rearr.refl _ _ _, fun _ => ?_⟩
      rw [hc1] at hadj1
      exact sortedOn_of_adjOn key d l a b hadj1
    · rw [if_neg hc1]
      by_cases hc2 : b - a < 50
      · rw [if_pos hc2]
        exact ⟨Rearr.refl _ _ _, by intro h; simp at h⟩
      · rw [if_neg hc2]
        have hi1b : i1 < b := by omega
        have hi1l : i1 < l.length := by omega
        have hi1l2 : i1 - 1 < l.length := by omega
        have g : ∀ k, (swapAt l i1 (i1 - 1)).getD k d =
            if k = i1 - 1 then l.getD i1 d else if k = i1 then l.getD (i1 - 1) d
            else l.getD k d := fun k => getD_swapAt l i1 (i1 - 1) k d hi1l hi1l2
        have hr1 : Rearr a b l (swapAt l i1 (i1 - 1)) :=
          swapAt_rearr l a b i1 (i1 - 1) (by omega) hi1b (by omega) (by omega)
        have hlen1 : (swapAt l i1 (i1 - 1)).length = l.length := length_swapAt _ _ _
        have h2 : Rearr a b (swapAt l i1 (i1 - 1))
            (if 2 ≤ i1 - a then shiftSmaller less i1 (swapAt l i1 (i1 - 1)) (i1 - 1)
              else swapAt l i1 (i1 - 1)) ∧
            AdjOn key d (if 2 ≤ i1 - a then
              shiftSmaller less i1 (swapAt l i1 (i1 - 1)) (i1 - 1)
              else swapAt l i1 (i1 - 1)) a i1 := by
          by_cases hc3 : 2 ≤ i1 - a
          · rw [if_pos hc3]
            obtain ⟨s1, s2⟩ := shiftSmaller_spec key less hless d a i1 i1
              (swapAt l i1 (i1 - 1)) (i1 - 1) (by omega) (by omega) (by omega)
              (by rw [hlen1]; omega)
              (by
                by_cases ha0 : a = 0
                · exact Or.inl ha0
                · right
                  rw [g, g, if_neg (by omega), if_neg (by omega), if_pos rfl]
                  rcases hLB with h0 | h0
                  · omega
                  · exact h0 i1 (by omega) hi1b)
              (by
                intro k k1 k2 k3 k4
                rw [g, g, if_neg (by omega), if_neg (by omega), if_neg (by omega),
                  if_neg (by omega)]
                exact hadj1 k k1 k2)
              (by intro h; omega)
              (by intro _ h; omega)
            exact ⟨s1.mono (le_refl a) (by omega), s2⟩
          · rw [if_neg hc3]
            refine ⟨Rearr.refl _ _ _, ?_⟩
            intro k k1 k2
            omega
        generalize (if 2 ≤ i1 - a then shiftSmaller less i1 (swapAt l i1 (i1 - 1)) (i1 - 1)
          else swapAt l i1 (i1 - 1)) = l2 at h2 ⊢
        obtain ⟨h2r, h2a⟩ := h2
        have h3 : Rearr i1 b l2
            (if 2 ≤ b - i1 then shiftGreater less b (b - i1) l2 (i1 + 1) else l2) := by
          split
          · exact shiftGreater_rearr less i1 b _ l2 (i1 + 1) (le_refl _)
          · exact Rearr.refl _ _ _
        generalize (if 2 ≤ b - i1 then shiftGreater less b (b - i1) l2 (i1 + 1) else l2) = l3
          at h3 ⊢
        have hr3 : Rearr a b l l3 := (hr1.trans h2r).trans (h3.mono (by omega) (le_refl b))
        have hadj3 : AdjOn key d l3 a i1 := by
          intro k k1 k2
          rw [h3.getD_lt d k k2, h3.getD_lt d (k - 1) (by omega)]
          exact h2a k k1 k2
        obtain ⟨r1, r2⟩ := ih l3 i1 (by omega) u2 (by rw [hr3.length]; exact hb) hadj3
          (hLB.rearr key d hr3 (by omega) hb)
        exact ⟨hr3.trans r1, r2⟩

/-- The library `partialInsertionSort`: when it reports success the range is
ascending. -/
theorem partialInsertionSort_spec {α κ : Type} [LinearOrder κ] (key : α → κ)
    (less : α → α → Bool) (hless : ∀ a b, less a b = true ↔ key a < key b) (d : α)
    (l : List α) (a b : Nat) (hab : a < b) (hb : b ≤ l.length)
    (hLB : LowerBound key d l a b) :
    Rearr a b l (partialInsertionSort less l a b).1 ∧
      ((partialInsertionSort less l a b).2 = true →
        SortedOn key d (partialInsertionSort less l a b).1 a b) := by
  unfold partialInsertionSort
  exact partialInsertionLoop_spec key less hless d a b 5 l (a + 1) (le_refl _) (by omega) hb
    (by intro k k1 k2; omega) hLB

/-! ## The library `heapSort` -/

theorem getD_swapAt_add {α : Type} (m : List α) (a r c x : Nat) (d : α)
    (hr : a + r < m.length) (hc : a + c < m.length) :
    (swapAt m (a + r) (a + c)).getD (a + x) d =
      if x = c then m.getD (a + r) d else if x = r then m.getD (a + c) d
      else m.getD (a + x) d := by
  rw [getD_swapAt m (a + r) (a + c) (a + x) d hr hc]
  simp only [Nat.add_left_cancel_iff]

theorem siftDown_spec {α κ : Type} [LinearOrder κ] (key : α → κ)
    (less : α → α → Bool) (hless : ∀ a b, less a b = true ↔ key a < key b) (d : α)
    (a lo n : Nat) (fuel : Nat) (m : List α) (r : Nat)
    (hf : n - r ≤ fuel) (hlen : a + n ≤ m.length) (hlo : lo ≤ r)
    (hex : HeapExcept key d m a lo n r) :
    Rearr (a + r) (a + n) m (siftDown less n a fuel m r) ∧
      HeapFrom key d (siftDown less n a fuel m r) a lo n := by
  induction fuel generalizing m r with
  | zero =>
    unfold siftDown
    refine ⟨Rearr.refl _ _ _, ?_⟩
    intro p c h1 h2 h3
    by_cases h4 : p = r
    · omega
    · exact hex.1 p c h1 h4 h2 h3
  | succ f ih =>
    unfold siftDown
    dsimp only
    by_cases hc : n ≤ 2 * r + 1
    · rw [if_pos hc]
      refine ⟨Rearr.refl _ _ _, ?_⟩
      intro p c h1 h2 h3
      by_cases h4 : p = r
      · omega
      · exact hex.1 p c h1 h4 h2 h3
    · rw [if_neg hc]
      have hcs : ∃ cs, (if (decide (2 * r + 1 + 1 < n) &&
            lessAt less m (a + (2 * r + 1)) (a + (2 * r + 1) + 1)) = true
            then 2 * r + 1 + 1 else 2 * r + 1) = cs ∧ cs < n ∧
          (cs = 2 * r + 1 ∨ cs = 2 * r + 2) ∧
          ∀ c, c < n → (c = 2 * r + 1 ∨ c = 2 * r + 2) →
            key (m.getD (a + c) d) ≤ key (m.getD (a + cs) d) := by
        by_cases h5 : (decide (2 * r + 1 + 1 < n) &&
            lessAt less m (a + (2 * r + 1)) (a + (2 * r + 1) + 1)) = true
        · rw [if_pos h5]
          simp only [Bool.and_eq_true, decide_eq_true_eq] at h5
          refine ⟨_, rfl, h5.1, Or.inr rfl, ?_⟩
          intro c c1 c2
          rcases c2 with c2 | c2
          · rw [c2]
            have := (lessAt_iff key less hless m (a + (2 * r + 1)) (a + (2 * r + 1) + 1) d
              (by omega) (by omega)).mp h5.2
            exact le_of_lt this
          · rw [c2]
        · rw [if_neg h5]
          refine ⟨_, rfl, by omega, Or.inl rfl, ?_⟩
          intro c c1 c2
          rcases c2 with c2 | c2
          · rw [c2]
          · rw [c2]
            simp only [Bool.and_eq_true, decide_eq_true_eq, not_and, Bool.not_eq_true] at h5
            have := (lessAt_false_iff key less hless m (a + (2 * r + 1))
              (a + (2 * r + 1) + 1) d (by omega) (by omega)).mp (h5 (by omega))
            exact this
      obtain ⟨cs, e1, e2, e3, e4⟩ := hcs
      rw [e1]
      by_cases hl : lessAt less m (a + r) (a + cs) = true
      · have hl2 : (!lessAt less m (a + r) (a + cs)) = false := by simp [hl]
        rw [hl2]
        simp only [Bool.false_eq_true, if_false]
        have hlt := (lessAt_iff key less hless m (a + r) (a + cs) d (by omega)
          (by omega)).mp hl
        have g := fun x => getD_swapAt_add m a r cs x d (by omega) (by omega)
        obtain ⟨r1, r2⟩ := ih (swapAt m (a + r) (a + cs)) cs (by omega)
          (by rw [length_swapAt]; exact hlen) (by omega)
          (by
            constructor
            · intro p c h1 h2 h3 h4
              rw [g, g]
              by_cases h5 : p = r
              · rw [if_neg h2, if_pos h5]
                by_cases h6 : c = cs
                · rw [if_pos h6]; exact le_of_lt hlt
                · rw [if_neg h6, if_neg (by omega)]
                  exact e4 c h3 (by omega)
              · rw [if_neg h2, if_neg h5]
                by_cases h6 : c = r
                · rw [if_neg (by omega), if_pos h6]
                  exact hex.2 p cs h1 (by omega) e2 e3
                · rw [if_neg (by omega), if_neg h6]
                  exact hex.1 p c h1 h5 h3 h4
            · intro q c h1 h2 h3 h4
              rw [g, g]
              have hq : q = r := by omega
              rw [if_neg (by omega), if_neg (by omega), if_neg (by omega), if_pos hq]
              exact hex.1 cs c (by omega) (by omega) h3 h4)
        exact ⟨(swapAt_rearr m (a + r) (a + n) (a + r) (a + cs) (le_refl _) (by omega)
          (by omega) (by omega)).trans (r1.mono (by omega) (le_refl _)), r2⟩
      · have hl2 : (!lessAt less m (a + r) (a + cs)) = true := by simp [hl]
        rw [hl2]
        simp only [if_true]
        refine ⟨Rearr.refl _ _ _, ?_⟩
        have hge := (lessAt_false_iff key less hless m (a + r) (a + cs) d (by omega)
          (by omega)).mp (by simpa using hl)
        intro p c h1 h2 h3
        by_cases h4 : p = r
        · rw [h4]
          exact le_trans (e4 c h2 (by omega)) hge
        · exact hex.1 p c h1 h4 h2 h3

theorem heap_root_max {α κ : Type} [LinearOrder κ] (key : α → κ) (d : α) (m : List α)
    (a n : Nat) (h : HeapFrom key d m a 0 n) (c : Nat) (hc : c < n) :
    key (m.getD (a + c) d) ≤ key (m.getD (a + 0) d) := by
  induction c using Nat.strong_induction_on with
  | _ c ih =>
    by_cases h0 : c = 0
    · rw [h0]
    · have h1 := h ((c - 1) / 2) c (Nat.zero_le _) hc (by omega)
      exact le_trans h1 (ih ((c - 1) / 2) (by omega) (by omega))

theorem heapify_spec {α κ : Type} [LinearOrder κ] (key : α → κ)
    (less : α → α → Bool) (hless : ∀ a b, less a b = true ↔ key a < key b) (d : α)
    (a n : Nat) (k : Nat) (m : List α) (hlen : a + n ≤ m.length)
    (h : HeapFrom key d m a k n) :
    Rearr a (a + n) m
        ((List.range k).reverse.foldl (fun acc i => siftDown less n a n acc i) m) ∧
      HeapFrom key d
        ((List.range k).reverse.foldl (fun acc i => siftDown less n a n acc i) m) a 0 n := by
  induction k generalizing m with
  | zero => exact ⟨Rearr.refl _ _ _, h⟩
  | succ k ih =>
    rw [List.range_succ, List.reverse_append, List.reverse_singleton, List.singleton_append,
      List.foldl_cons]
    obtain ⟨s1, s2⟩ := siftDown_spec key less hless d a k n n m k (by omega) hlen (le_refl k)
      ⟨fun p c h1 h2 h3 h4 => h p c (by omega) h3 h4, fun q c h1 h2 h3 h4 => by omega⟩
    obtain ⟨r1, r2⟩ := ih (siftDown less n a n m k) (by rw [s1.length]; exact hlen) s2
    exact ⟨(s1.mono (by omega) (le_refl _)).trans r1, r2⟩

theorem heapExtract_spec {α κ : Type} [LinearOrder κ] (key : α → κ)
    (less : α → α → Bool) (hless : ∀ a b, less a b = true ↔ key a < key b) (d : α)
    (a n : Nat) (k : Nat) (m : List α) (hk : k ≤ n) (hlen : a + n ≤ m.length)
    (hheap : HeapFrom key d m a 0 k)
    (hsorted : SortedOn key d m (a + k) (a + n))
    (hcross : ∀ x y, x < k → k ≤ y → y < n →
      key (m.getD (a + x) d) ≤ key (m.getD (a + y) d)) :
    Rearr a (a + n) m
        ((List.range k).reverse.foldl
          (fun acc i => siftDown less i a i (swapAt acc a (a + i)) 0) m) ∧
      SortedOn key d
        ((List.range k).reverse.foldl
          (fun acc i => siftDown less i a i (swapAt acc a (a + i)) 0) m) a (a + n) := by
  induction k generalizing m with
  | zero => exact ⟨Rearr.refl _ _ _, hsorted⟩
  | succ k ih =>
    rw [List.range_succ, List.reverse_append, List.reverse_singleton, List.singleton_append,
      List.foldl_cons]
    have hmax := heap_root_max key d m a (k + 1) hheap
    have g : ∀ x, (swapAt m a (a + k)).getD (a + x) d =
        if x = k then m.getD (a + 0) d else if x = 0 then m.getD (a + k) d
        else m.getD (a + x) d := fun x =>
      getD_swapAt_add m a 0 k x d (by omega) (by omega)
    have hr1 : Rearr a (a + n) m (swapAt m a (a + k)) :=
      swapAt_rearr m a (a + n) a (a + k) (le_refl a) (by omega) (by omega) (by omega)
    have hlen1 : a + n ≤ (swapAt m a (a + k)).length := by rw [length_swapAt]; exact hlen
    obtain ⟨s1, s2⟩ := siftDown_spec key less hless d a 0 k k (swapAt m a (a + k)) 0
      (by omega) (by omega) (le_refl 0)
      ⟨fun p c h1 h2 h3 h4 => by
          rw [g, g, if_neg (by omega), if_neg (by omega), if_neg (by omega), if_neg (by omega)]
          exact hheap p c h1 (by omega) h4,
        fun q c h1 h2 h3 h4 => by omega⟩
    rw [Nat.add_zero] at s1
    have hlen2 : a + n ≤ (siftDown less k a k (swapAt m a (a + k)) 0).length := by
      rw [s1.length]; exact hlen1
    have v1 : ∀ y, k ≤ y → (siftDown less k a k (swapAt m a (a + k)) 0).getD (a + y) d =
        (swapAt m a (a + k)).getD (a + y) d := fun y hy => s1.getD_ge d (a + y) (by omega)
    have hcross1 : ∀ y, k ≤ y → y < n → ∀ x, a ≤ x → x < a + k →
        key ((swapAt m a (a + k)).getD x d) ≤ key ((swapAt m a (a + k)).getD (a + y) d) := by
      intro y y1 y2 x x1 x2
      obtain ⟨x0, rfl⟩ : ∃ x0, x = a + x0 := ⟨x - a, by omega⟩
      rw [g, g, if_neg (by omega)]
      by_cases hx0 : x0 = 0
      · rw [if_pos hx0]
        by_cases hy : y = k
        · rw [if_pos hy]; exact hmax k (by omega)
        · rw [if_neg hy, if_neg (by omega)]
          exact hcross k y (by omega) (by omega) y2
      · rw [if_neg hx0]
        by_cases hy : y = k
        · rw [if_pos hy]; exact hmax x0 (by omega)
        · rw [if_neg hy, if_neg (by omega)]
          exact hcross x0 y (by omega) (by omega) y2
    obtain ⟨r1, r2⟩ := ih (siftDown less k a k (swapAt m a (a + k)) 0) (by omega) hlen2 s2
      (by
        intro i j i1 i2 i3
        obtain ⟨i0, rfl⟩ : ∃ i0, i = a + i0 := ⟨i - a, by omega⟩
        obtain ⟨j0, rfl⟩ : ∃ j0, j = a + j0 := ⟨j - a, by omega⟩
        rw [v1 i0 (by omega), v1 j0 (by omega), g, g]
        by_cases hi : i0 = k
        · rw [if_pos hi]
          by_cases hj : j0 = k
          · rw [if_pos hj]
          · rw [if_neg hj, if_neg (by omega)]
            exact hcross 0 j0 (by omega) (by omega) (by omega)
        · rw [if_neg hi, if_neg (by omega), if_neg (by omega), if_neg (by omega)]
          exact hsorted (a + i0) (a + j0) (by omega) i2 i3)
      (by
        intro x y x1 y1 y2
        exact s1.forall_range d (by omega) (by omega)
          (fun e => key e ≤ key ((siftDown less k a k (swapAt m a (a + k)) 0).getD (a + y) d))
          (by
            intro x' h1 h2
            rw [v1 y y1]
            exact hcross1 y y1 y2 x' h1 h2)
          (a + x) (by omega) (by omega))
    exact ⟨(hr1.trans (s1.mono (le_refl a) (by omega))).trans r1, r2⟩

/-- The library `heapSort` leaves the range ascending. -/
theorem heapSort_spec {α κ : Type} [LinearOrder κ] (key : α → κ)
    (less : α → α → Bool) (hless : ∀ a b, less a b = true ↔ key a < key b) (d : α)
    (l : List α) (a b : Nat) (hab : a ≤ b) (hb : b ≤ l.length) :
    Rearr a b l (heapSort less l a b) ∧ SortedOn key d (heapSort less l a b) a b := by
  unfold heapSort
  dsimp only
  have hn : a + (b - a) = b := by omega
  obtain ⟨p1, p2⟩ := heapify_spec key less hless d a (b - a) ((b - a - 1) / 2 + 1) l
    (by omega) (by intro p c h1 h2 h3; omega)
  obtain ⟨q1, q2⟩ := heapExtract_spec key less hless d a (b - a) (b - a) _ (le_refl _)
    (by rw [p1.length]; omega) p2 (by intro i j h1 h2 h3; omega)
    (by intro x y h1 h2 h3; omega)
  rw [hn] at p1 q1 q2
  exact ⟨p1.trans q1, q2⟩

/-! ## The library `pdqsort` -/

theorem LowerBound.sub {α κ : Type} [LinearOrder κ] (key : α → κ) (d : α) {l : List α}
    {a b b1 : Nat} (h : LowerBound key d l a b) (hb : b1 ≤ b) : LowerBound key d l a b1 := by
  rcases h with h | h
  · exact Or.inl h
  · exact Or.inr (fun k k1 k2 => h k k1 (by omega))

theorem sortedOn_join {α κ : Type} [LinearOrder κ] (key : α → κ) (d : α) (r : List α)
    (a mid b : Nat) (h1 : SortedOn key d r a mid) (h2 : SortedOn key d r (mid + 1) b)
    (h3 : ∀ k, a ≤ k → k < mid → key (r.getD k d) ≤ key (r.getD mid d))
    (h4 : ∀ k, mid < k → k < b → key (r.getD mid d) ≤ key (r.getD k d)) :
    SortedOn key d r a b := by
  intro i j hi hij hj
  by_cases c1 : j < mid
  · exact h1 i j hi hij c1
  · by_cases c2 : mid < i
    · exact h2 i j (by omega) hij hj
    · by_cases c3 : i = mid
      · by_cases c4 : j = mid
        · rw [c3, c4]
        · rw [c3]; exact h4 j (by omega) hj
      · by_cases c4 : j = mid
        · rw [c4]; exact h3 i hi (by omega)
        · exact le_trans (h3 i hi (by omega)) (h4 j (by omega) hj)

/-- The library `pdqsort` rearranges the range and leaves it ascending. -/
theorem pdqsort_spec {α κ : Type} [LinearOrder κ] (key : α → κ)
    (less : α → α → Bool) (hless : ∀ a b, less a b = true ↔ key a < key b) (d : α)
    (fuel : Nat) (l : List α) (a b limit : Nat) (wb wp : Bool)
    (hab : a ≤ b) (hb : b ≤ l.length) (hf : b - a < fuel)
    (hLB : LowerBound key d l a b) :
    Rearr a b l (pdqsort less fuel l a b limit wb wp) ∧
      SortedOn key d (pdqsort less fuel l a b limit wb wp) a b := by
  induction fuel generalizing l a b limit wb wp with
  | zero => omega
  | succ f ih =>
    unfold pdqsort
    lift_lets
    intro length l1 limit1 ph l2 pivot hint tried l3 pe p mid leftLen rightLen
      balanceThreshold
    have hlength : length = b - a := rfl
    by_cases c1 : length ≤ 12
    · rw [if_pos c1]
      exact insertionSortRange_spec key less hless d l a b hab hb
    · rw [if_neg c1]
      by_cases c2 : limit = 0
      · rw [if_pos c2]
        exact heapSort_spec key less hless d l a b hab hb
      · rw [if_neg c2]
        have hab2 : a < b := by omega
        have h1 : Rearr a b l l1 := by
          show Rearr a b l (if wb = true then l else breakPatterns l a b)
          split
          · exact Rearr.refl _ _ _
          · exact breakPatterns_rearr l a b
        have hphr := choosePivot_range less l1 a b hab2
        have h2 : Rearr a b l l2 := by
          show Rearr a b l (if ph.2 = SortedHint.decreasingHint then reverseRange l1 a b
            else l1)
          split
          · exact h1.trans (reverseRange_rearr l1 a b hab2)
          · exact h1
        have hpiv : a ≤ pivot ∧ pivot < b := by
          show a ≤ (if ph.2 = SortedHint.decreasingHint then (b - 1) - (ph.1 - a) else ph.1) ∧
            (if ph.2 = SortedHint.decreasingHint then (b - 1) - (ph.1 - a) else ph.1) < b
          have e : ph = choosePivot less l1 a b := rfl
          rw [← e] at hphr
          split <;> omega
        have hb2 : b ≤ l2.length := by rw [h2.length]; exact hb
        have hLB2 : LowerBound key d l2 a b := hLB.rearr key d h2 hab hb
        have h3 : Rearr a b l2 tried.1 ∧ (tried.2 = true → SortedOn key d tried.1 a b) := by
          show Rearr a b l2
              (if (wb && wp && decide (hint = SortedHint.increasingHint)) = true then
                partialInsertionSort less l2 a b else (l2, false)).1 ∧
            ((if (wb && wp && decide (hint = SortedHint.increasingHint)) = true then
                partialInsertionSort less l2 a b else (l2, false)).2 = true →
              SortedOn key d
                (if (wb && wp && decide (hint = SortedHint.increasingHint)) = true then
                  partialInsertionSort less l2 a b else (l2, false)).1 a b)
          split
          · exact partialInsertionSort_spec key less hless d l2 a b hab2 hb2 hLB2
          · exact ⟨Rearr.refl _ _ _, by intro h; simp at h⟩
        by_cases c3 : tried.2 = true
        · rw [if_pos c3]
          exact ⟨h2.trans h3.1, h3.2 c3⟩
        · rw [if_neg c3]
          have h4 : Rearr a b l l3 := h2.trans h3.1
          have hb3 : b ≤ l3.length := by rw [h4.length]; exact hb
          have hLB3 : LowerBound key d l3 a b := hLB.rearr key d h4 hab hb
          by_cases c4 : (decide (0 < a) && !lessAt less l3 (a - 1) pivot) = true
          · rw [if_pos c4]
            simp only [Bool.and_eq_true, decide_eq_true_eq, Bool.not_eq_true'] at c4
            obtain ⟨e1, e2, e3, e4, e5⟩ :=
              partitionEqual_spec key less hless d l3 a b pivot hb3 hpiv.1 hpiv.2
            have epe : pe = partitionEqual less l3 a b pivot := rfl
            rw [← epe] at e1 e2 e3 e4 e5
            have hbpe : b ≤ pe.1.length := by rw [e1.length]; exact hb3
            have hLBpe : LowerBound key d pe.1 a b := hLB3.rearr key d e1 hab hb3
            have hge : key (l3.getD pivot d) ≤ key (pe.1.getD (a - 1) d) := by
              rw [e1.getD_lt d (a - 1) (by omega)]
              exact (lessAt_false_iff key less hless l3 (a - 1) pivot d (by omega)
                (by omega)).mp c4.2
            have hall : ∀ k, a ≤ k → k < b →
                key (l3.getD pivot d) ≤ key (pe.1.getD k d) := by
              intro k k1 k2
              rcases hLBpe with h0 | h0
              · omega
              · exact le_trans hge (h0 k k1 k2)
            obtain ⟨r1, r2⟩ := ih pe.1 pe.2 b limit1 wb wp e3 hbpe (by omega)
              (Or.inr (fun k k1 k2 => by
                have := e4 (pe.2 - 1) (by omega) (by omega)
                exact le_trans this (le_of_lt (e5 k k1 k2))))
            refine ⟨h4.trans (e1.trans (r1.mono (by omega) (le_refl b))), ?_⟩
            intro i j hi hij hj
            by_cases d1 : pe.2 ≤ i
            · exact r2 i j d1 hij hj
            · rw [r1.getD_lt d i (by omega)]
              by_cases d2 : j < pe.2
              · rw [r1.getD_lt d j d2]
                exact le_trans (e4 i hi (by omega)) (hall j (by omega) hj)
              · have := r1.forall_range d e3 hbpe
                  (fun x => key (l3.getD pivot d) < key x) e5 j (by omega) hj
                exact le_trans (e4 i hi (by omega)) (le_of_lt this)
          · rw [if_neg c4]
            obtain ⟨e1, e2, e3, e4, e5⟩ :=
              partition_spec key less hless d l3 a b pivot hb3 hpiv.1 hpiv.2
            have ep : p = partition less l3 a b pivot := rfl
            rw [← ep] at e1 e2 e3 e4 e5
            have emid : mid = p.2.1 := rfl
            rw [← emid] at e2 e3 e4 e5
            have hbp : b ≤ p.1.length := by rw [e1.length]; exact hb3
            have hLBp : LowerBound key d p.1 a b := hLB3.rearr key d e1 hab hb3
            by_cases c5 : leftLen < rightLen
            · rw [if_pos c5]
              obtain ⟨r1, r2⟩ := ih p.1 a mid limit1 true true e2 (by omega) (by omega)
                (hLBp.sub key d (by omega))
              generalize pdqsort less f p.1 a mid limit1 true true = q1 at r1 r2 ⊢
              have hq1len : b ≤ q1.length := by rw [r1.length]; exact hbp
              obtain ⟨s1, s2⟩ := ih q1 (mid + 1) b limit1 (decide (balanceThreshold ≤ leftLen))
                p.2.2 (by omega) hq1len (by omega)
                (Or.inr (fun k k1 k2 => by
                  rw [Nat.add_sub_cancel, r1.getD_ge d mid (le_refl _),
                    r1.getD_ge d k (by omega)]
                  exact e5 k (by omega) k2))
              generalize pdqsort less f q1 (mid + 1) b limit1
                (decide (balanceThreshold ≤ leftLen)) p.2.2 = q2 at s1 s2 ⊢
              refine ⟨h4.trans (e1.trans ((r1.mono (le_refl a) (by omega)).trans
                (s1.mono (by omega) (le_refl b)))), ?_⟩
              apply sortedOn_join key d q2 a mid b
              · intro i j hi hij hj
                rw [s1.getD_lt d i (by omega), s1.getD_lt d j (by omega)]
                exact r2 i j hi hij hj
              · exact s2
              · intro k k1 k2
                rw [s1.getD_lt d k (by omega), s1.getD_lt d mid (by omega),
                  r1.getD_ge d mid (le_refl _)]
                exact le_of_lt (r1.forall_range d e2 (by omega)
                  (fun x => key x < key (p.1.getD mid d)) e4 k k1 k2)
              · intro k k1 k2
                rw [s1.getD_lt d mid (by omega), r1.getD_ge d mid (le_refl _)]
                exact s1.forall_range d (by omega) hq1len
                  (fun x => key (p.1.getD mid d) ≤ key x)
                  (fun k k1 k2 => by
                    rw [r1.getD_ge d k (by omega)]
                    exact e5 k (by omega) k2) k (by omega) k2
            · rw [if_neg c5]
              obtain ⟨r1, r2⟩ := ih p.1 (mid + 1) b limit1 true true (by omega) hbp (by omega)
                (Or.inr (fun k k1 k2 => by
                  rw [Nat.add_sub_cancel]
                  exact e5 k (by omega) k2))
              generalize pdqsort less f p.1 (mid + 1) b limit1 true true = q1 at r1 r2 ⊢
              have hq1len : b ≤ q1.length := by rw [r1.length]; exact hbp
              have hLBq1 : LowerBound key d q1 a mid := by
                rcases hLBp with h0 | h0
                · exact Or.inl h0
                · right
                  intro k k1 k2
                  rw [r1.getD_lt d k (by omega), r1.getD_lt d (a - 1) (by omega)]
                  exact h0 k k1 (by omega)
              obtain ⟨s1, s2⟩ := ih q1 a mid limit1 (decide (balanceThreshold ≤ rightLen))
                p.2.2 e2 (by omega) (by omega) hLBq1
              generalize pdqsort less f q1 a mid limit1
                (decide (balanceThreshold ≤ rightLen)) p.2.2 = q2 at s1 s2 ⊢
              refine ⟨h4.trans (e1.trans ((r1.mono (by omega) (le_refl b)).trans
                (s1.mono (le_refl a) (by omega)))), ?_⟩
              apply sortedOn_join key d q2 a mid b
              · exact s2
              · intro i j hi hij hj
                rw [s1.getD_ge d i (by omega), s1.getD_ge d j (by omega)]
                exact r2 i j hi hij hj
              · intro k k1 k2
                rw [s1.getD_ge d mid (le_refl _), r1.getD_lt d mid (by omega)]
                exact le_of_lt (s1.forall_range d e2 (by omega)
                  (fun x => key x < key (p.1.getD mid d))
                  (fun k k1 k2 => by
                    rw [r1.getD_lt d k (by omega)]
                    exact e4 k k1 k2) k k1 k2)
              · intro k k1 k2
                rw [s1.getD_ge d mid (le_refl _), s1.getD_ge d k (by omega),
                  r1.getD_lt d mid (by omega)]
                exact r1.forall_range d (by omega) hbp
                  (fun x => key (p.1.getD mid d) ≤ key x)
                  (fun k k1 k2 => e5 k (by omega) k2) k (by omega) k2

/-- The call `sort.Sort` leaves the slice in ascending order of the key that
`less` compares. -/
theorem sortSort_ascending {α κ : Type} [LinearOrder κ] (key : α → κ)
    (less : α → α → Bool) (hless : ∀ a b, less a b = true ↔ key a < key b) (l : List α) :
    (sortSort less l).Pairwise (fun a b => key a ≤ key b) := by
  unfold sortSort
  split
  · rename_i h1
    match l, h1 with
    | [], _ => exact List.Pairwise.nil
    | [x], _ => exact List.pairwise_singleton _ _
    | _ :: _ :: _, h1 => simp at h1
  · cases l with
    | nil => simp [pdqsort, insertionSortRange, insertionSort]
    | cons d t =>
      obtain ⟨r1, r2⟩ := pdqsort_spec key less hless d ((d :: t).length + 1) (d :: t) 0
        (d :: t).length (bitsLen 64 (d :: t).length) true true (Nat.zero_le _) (le_refl _)
        (by omega) (Or.inl rfl)
      apply SortedOn.pairwise key d
      rw [r1.length]
      exact r2

/-! ## Lemmas on the loops -/

theorem overlaps_iff (aStart aEnd bStart bEnd : Time) :
    overlaps aStart aEnd bStart bEnd = true ↔ bStart ≤ aEnd ∧ aStart ≤ bEnd := by
  simp [overlaps]

theorem antennaSession_eq_find (a : InstalledAntenna) (ss : List Session) :
    antennaSession a ss = ss.find? (fun s => overlaps a.Start a.End s.Start s.End) := by
  induction ss with
  | nil => rfl
  | cons s rest ih =>
    unfold antennaSession
    rw [List.find?_cons, ih]
    by_cases h1 : s.End < a.Start <;> by_cases h2 : a.End < s.Start <;>
      simp [After, Before, overlaps, h1, h2]

theorem metsensorSession_eq_find (m : InstalledMetSensor) (ss : List Session) :
    metsensorSession m ss = ss.find? (fun s => overlaps m.Start m.End s.Start s.End) := by
  induction ss with
  | nil => rfl
  | cons s rest ih =>
    unfold metsensorSession
    rw [List.find?_cons, ih]
    by_cases h1 : s.End < m.Start <;> by_cases h2 : m.End < s.Start <;>
      simp [After, Before, overlaps, h1, h2]

theorem receiverSession_eq_find (r : DeployedReceiver) (v : FirmwareHistory)
    (ss : List Session) :
    receiverSession r v ss =
      ss.find? (fun s => overlaps r.Start r.End s.Start s.End &&
        overlaps v.Start v.End s.Start s.End) := by
  induction ss with
  | nil => rfl
  | cons s rest ih =>
    unfold receiverSession
    rw [List.find?_cons, ih]
    by_cases h1 : s.End < r.Start <;> by_cases h2 : r.End < s.Start <;>
      by_cases h3 : s.End < v.Start <;> by_cases h4 : v.End < s.Start <;>
      simp [After, Before, overlaps, h1, h2, h3, h4]

theorem range_rev_index {α : Type} (fw : List α) :
    (List.range fw.length).map (fun i => fw[fw.length - i - 1]?) = fw.reverse.map some := by
  apply List.ext_getElem?
  intro i
  simp only [List.getElem?_map]
  by_cases hi : i < fw.length
  · rw [List.getElem?_range hi, List.getElem?_reverse hi]
    simp only [Option.map_some']
    have h2 : fw.length - i - 1 < fw.length := by omega
    have h3 : fw.length - 1 - i = fw.length - i - 1 := by omega
    rw [h3, List.getElem?_eq_getElem h2]
    simp
  · have h1 : (List.range fw.length)[i]? = none := by
      apply List.getElem?_eq_none; simp; omega
    have h2 : fw.reverse[i]? = none := by
      apply List.getElem?_eq_none; simp; omega
    rw [h1, h2]; simp

theorem foldl_firmwareBody (env : Env) (now : Time) (ss : List Session)
    (r : DeployedReceiver) (l : List FirmwareHistory) (acc : List GnssReceiver) :
    (l.map some).foldl (firmwareBody env now ss r) acc =
      acc ++ l.filterMap (receiverPass env now ss r) := by
  induction l generalizing acc with
  | nil => simp
  | cons v t ih =>
    simp only [List.map_cons, List.foldl_cons, List.filterMap_cons]
    rw [ih]
    unfold firmwareBody
    cases h : receiverPass env now ss r v <;> simp [h]

/-- The firmware loop emits, after what was there, the records of the passes
over the entries taken last-listed first. -/
theorem firmwareLoop_eq (env : Env) (now : Time) (ss : List Session)
    (r : DeployedReceiver) (fw : List FirmwareHistory) (acc : List GnssReceiver) :
    firmwareLoop env now ss r fw acc =
      acc ++ fw.reverse.filterMap (receiverPass env now ss r) := by
  rw [← foldl_firmwareBody, ← range_rev_index, List.foldl_map]
  rfl

/-- One pass of the deployment loop appends the records of that deployment. -/
theorem receiversPass_eq (env : Env) (now : Time) (T : Tables) (m : Mark)
    (acc : List GnssReceiver) (r : DeployedReceiver) :
    receiversPass env now T m acc r = acc ++ receiverRecords env now T m r := by
  unfold receiversPass
  cases h1 : mapGet T.firmwareHistory r.Model with
  | none => simp [receiverRecords, firmwareOf, h1]
  | some bySerial =>
    cases h2 : mapGet bySerial r.Serial with
    | none => simp [receiverRecords, firmwareOf, mapSlice, h1, h2]
    | some fw => simp [receiverRecords, firmwareOf, mapSlice, h1, h2, firmwareLoop_eq]

theorem receivers_foldl (env : Env) (now : Time) (T : Tables) (m : Mark)
    (l : List DeployedReceiver) (acc : List GnssReceiver) :
    l.foldl (receiversPass env now T m) acc =
      acc ++ l.flatMap (receiverRecords env now T m) := by
  induction l generalizing acc with
  | nil => simp
  | cons r t ih =>
    simp only [List.foldl_cons, List.flatMap_cons]
    rw [ih, receiversPass_eq, List.append_assoc]

/-- The unsorted receiver slice is the concatenation, over the stored
deployments in order, of the records of each. -/
theorem receivers_eq (env : Env) (now : Time) (T : Tables) (m : Mark) :
    receivers env now T m =
      (mapSlice T.deployedReceivers m.Code).flatMap (receiverRecords env now T m) := by
  unfold receivers
  rw [receivers_foldl]
  simp

theorem antennas_foldl (env : Env) (now : Time) (T : Tables) (m : Mark)
    (l : List InstalledAntenna) (acc : List GnssAntenna) :
    l.foldl (antennasPass env now T m) acc =
    acc ++ (l.filter (fun a => (antennaSession a (mapSlice T.sessions m.Code)).isSome)).map
      (fun a => antennaRecord env now a (radomeOf T m.Code a).1 (radomeOf T m.Code a).2) := by
  induction l generalizing acc with
  | nil => simp
  | cons a t ih =>
    simp only [List.foldl_cons]
    rw [ih, List.filter_cons]
    unfold antennasPass
    cases h : antennaSession a (mapSlice T.sessions m.Code) <;> simp

/-- The unsorted antenna slice holds one record for each stored install that
has a session, in stored order. -/
theorem antennas_eq (env : Env) (now : Time) (T : Tables) (m : Mark) :
    antennas env now T m =
      ((mapSlice T.installedAntenna m.Code).filter
        (fun a => (antennaSession a (mapSlice T.sessions m.Code)).isSome)).map
        (fun a => antennaRecord env now a (radomeOf T m.Code a).1 (radomeOf T m.Code a).2) := by
  unfold antennas
  rw [antennas_foldl]
  simp

theorem radomeScan_foldl (a : InstalledAntenna) (l : List InstalledRadome)
    (acc : String × String) :
    l.foldl
      (fun acc v =>
        if After v.Start a.End || Before v.End a.Start then acc
        else (v.Model, v.Serial))
      acc =
    match l.reverse.find? (fun v => overlaps v.Start v.End a.Start a.End) with
    | none => acc
    | some v => (v.Model, v.Serial) := by
  induction l generalizing acc with
  | nil => rfl
  | cons h t ih =>
    simp only [List.foldl_cons, List.reverse_cons, List.find?_append]
    rw [ih]
    cases ht : t.reverse.find? (fun v => overlaps v.Start v.End a.Start a.End) with
    | some v => simp
    | none =>
      by_cases h1 : a.End < h.Start <;> by_cases h2 : h.End < a.Start <;>
        simp [After, Before, overlaps, h1, h2]

/-- The radome scan ends on the last stored radome that overlaps the antenna,
or on the initial pair when there is none. -/
theorem radomeScan_eq (a : InstalledAntenna) (radomes : List InstalledRadome) :
    radomeScan a radomes =
      match radomes.reverse.find? (fun v => overlaps v.Start v.End a.Start a.End) with
      | none => ("NONE", "")
      | some v => (v.Model, v.Serial) := by
  unfold radomeScan
  exact radomeScan_foldl a radomes ("NONE", "")

theorem receiverPass_some (env : Env) (now : Time) (ss : List Session)
    (r : DeployedReceiver) (v : FirmwareHistory) (x : GnssReceiver) :
    receiverPass env now ss r v = some x ↔
      overlaps v.Start v.End r.Start r.End = true ∧
        ∃ s, receiverSession r v ss = some s ∧ x = receiverRecord env now r v s := by
  unfold receiverPass
  by_cases h1 : r.End < v.Start <;> by_cases h2 : v.End < r.Start <;>
    cases hs : receiverSession r v ss <;>
    simp [After, Before, overlaps, h1, h2, eq_comm]

theorem mem_receivers (env : Env) (now : Time) (T : Tables) (m : Mark) (x : GnssReceiver) :
    x ∈ receivers env now T m ↔
      ∃ r ∈ mapSlice T.deployedReceivers m.Code, ∃ v ∈ firmwareOf T r,
        receiverPass env now (mapSlice T.sessions m.Code) r v = some x := by
  rw [receivers_eq]
  simp [receiverRecords, List.mem_flatMap, List.mem_filterMap]

theorem siteLog_some (env : Env) (now : Time) (T : Tables) (m : Mark) (sl : SiteLog)
    (h : siteLog env now T m = some sl) :
    sl.mark = m ∧ mapGet T.monuments m.Code = some sl.monument ∧
      sl.GnssReceivers = sortSort GnssReceivers.Less (receivers env now T m) ∧
      sl.GnssAntennas = sortSort GnssAntennas.Less (antennas env now T m) ∧
      sl.GnssMetSensors = metsensors T m := by
  unfold siteLog at h
  cases h1 : mapGet T.monuments m.Code with
  | none => simp [h1] at h
  | some mon =>
    cases h2 : mapGet T.sessions m.Code with
    | none => simp [h1, h2] at h
    | some ss =>
      cases h3 : mapGet T.installedAntenna m.Code with
      | none => simp [h1, h2, h3] at h
      | some aa =>
        cases h4 : mapGet T.deployedReceivers m.Code with
        | none => simp [h1, h2, h3, h4] at h
        | some rr =>
          simp only [h1, h2, h3, h4, Option.some.injEq] at h
          subst h
          simp

theorem mem_main (env : Env) (L : MetaLess) (now : Time) (inp : Input) (sl : SiteLog) :
    sl ∈ main env L now inp ↔
      ∃ m ∈ inp.markList, siteLog env now (tables L inp) m = some sl := by
  simp [main, List.mem_filterMap]

theorem clip_bounds (r : DeployedReceiver) (v : FirmwareHistory) :
    r.Start ≤ clipStart r v ∧ v.Start ≤ clipStart r v ∧
      clipEnd r v ≤ r.End ∧ clipEnd r v ≤ v.End := by
  unfold clipStart clipEnd Before After
  by_cases h1 : r.Start < v.Start <;> by_cases h2 : v.End < r.End <;>
    simp only [h1, h2, decide_True, decide_False, if_true, if_false, le_refl, true_and,
      and_true, Bool.false_eq_true] <;>
    first
      | exact ⟨le_of_lt h1, le_of_lt h2⟩
      | exact ⟨le_of_lt h1, le_of_not_lt h2⟩
      | exact ⟨le_of_not_lt h1, le_of_lt h2⟩
      | exact ⟨le_of_not_lt h1, le_of_not_lt h2⟩

theorem receivers_sources (env : Env) (now : Time) (T : Tables) (m : Mark)
    (x : GnssReceiver) (hx : x ∈ receivers env now T m) :
    ∃ r ∈ mapSlice T.deployedReceivers m.Code, ∃ v ∈ firmwareOf T r,
      ∃ s ∈ mapSlice T.sessions m.Code,
        receiverSession r v (mapSlice T.sessions m.Code) = some s ∧
        x = receiverRecord env now r v s ∧
        overlaps v.Start v.End r.Start r.End = true ∧
        overlaps r.Start r.End s.Start s.End = true ∧
        overlaps v.Start v.End s.Start s.End = true := by
  obtain ⟨r, hr, v, hv, hpass⟩ := (mem_receivers env now T m x).mp hx
  obtain ⟨hov, s, hs, hxs⟩ := (receiverPass_some env now _ r v x).mp hpass
  have hfind := hs
  rw [receiverSession_eq_find] at hfind
  have hmem : s ∈ mapSlice T.sessions m.Code := List.mem_of_find?_eq_some hfind
  have hp := List.find?_some hfind
  simp only [Bool.and_eq_true] at hp
  exact ⟨r, hr, v, hv, s, hmem, hs, hxs, hov, hp.1, hp.2⟩

theorem mem_antennas (env : Env) (now : Time) (T : Tables) (m : Mark) (x : GnssAntenna) :
    x ∈ antennas env now T m ↔
      ∃ a ∈ mapSlice T.installedAntenna m.Code,
        (antennaSession a (mapSlice T.sessions m.Code)).isSome = true ∧
        x = antennaRecord env now a (radomeOf T m.Code a).1 (radomeOf T m.Code a).2 := by
  rw [antennas_eq]
  simp only [List.mem_map, List.mem_filter]
  constructor
  · rintro ⟨a, ⟨ha, hs⟩, rfl⟩
    exact ⟨a, ha, hs, rfl⟩
  · rintro ⟨a, ha, hs, rfl⟩
    exact ⟨a, ⟨ha, hs⟩, rfl⟩

theorem radomeOf_cases (T : Tables) (code : String) (a : InstalledAntenna) :
    (radomeOf T code a = ("NONE", "") ∧
      ∀ v ∈ mapSlice T.installedRadomes code,
        overlaps v.Start v.End a.Start a.End = false) ∨
    ∃ pre v post, mapSlice T.installedRadomes code = pre ++ v :: post ∧
      overlaps v.Start v.End a.Start a.End = true ∧
      (∀ w ∈ post, overlaps w.Start w.End a.Start a.End = false) ∧
      radomeOf T code a = (v.Model, v.Serial) := by
  unfold radomeOf mapSlice
  cases hm : mapGet T.installedRadomes code with
  | none => left; simp
  | some radomes =>
    simp only [Option.getD_some]
    rw [radomeScan_eq]
    cases hf : radomes.reverse.find? (fun v => overlaps v.Start v.End a.Start a.End) with
    | none =>
      left
      refine ⟨rfl, ?_⟩
      intro v hv
      have := List.find?_eq_none.mp hf v (List.mem_reverse.mpr hv)
      simpa using this
    | some v =>
      right
      obtain ⟨hp, as, bs, hsplit, hbefore⟩ := List.find?_eq_some.mp hf
      refine ⟨bs.reverse, v, as.reverse, ?_, by simpa using hp, ?_, rfl⟩
      · have := congrArg List.reverse hsplit
        simpa using this
      · intro w hw
        have := hbefore w (List.mem_reverse.mp hw)
        simpa using this

theorem antennas_sources (env : Env) (now : Time) (T : Tables) (m : Mark)
    (x : GnssAntenna) (hx : x ∈ antennas env now T m) :
    ∃ a ∈ mapSlice T.installedAntenna m.Code, ∃ s ∈ mapSlice T.sessions m.Code,
      antennaSession a (mapSlice T.sessions m.Code) = some s ∧
      x = antennaRecord env now a (radomeOf T m.Code a).1 (radomeOf T m.Code a).2 ∧
      overlaps a.Start a.End s.Start s.End = true := by
  obtain ⟨a, ha, hs, hxa⟩ := (mem_antennas env now T m x).mp hx
  obtain ⟨s, hs1⟩ := Option.isSome_iff_exists.mp hs
  have hfind := hs1
  rw [antennaSession_eq_find] at hfind
  have hp := List.find?_some hfind
  simp only at hp
  exact ⟨a, ha, s, List.mem_of_find?_eq_some hfind, hs1, hxa, hp⟩

theorem receiverSession_single (r : DeployedReceiver) (v : FirmwareHistory) (s : Session)
    (h1 : s.Start ≤ r.End) (h2 : r.Start ≤ s.End) (h3 : s.Start ≤ v.End)
    (h4 : v.Start ≤ s.End) : receiverSession r v [s] = some s := by
  unfold receiverSession
  simp [After, Before, not_lt.mpr h1, not_lt.mpr h2, not_lt.mpr h3, not_lt.mpr h4]

theorem stringLess_iff (a b : String) : stringLess a b = true ↔ a < b := by
  unfold stringLess
  rw [decide_eq_true_iff]
  exact String.lt_iff_toList_lt.symm

theorem sortSort_receivers_ascending (l : List GnssReceiver) :
    (sortSort GnssReceivers.Less l).Pairwise
      (fun a b => a.DateInstalled ≤ b.DateInstalled) :=
  sortSort_ascending (fun a : GnssReceiver => a.DateInstalled) GnssReceivers.Less
    (fun a b => stringLess_iff a.DateInstalled b.DateInstalled) l

theorem sortSort_antennas_ascending (l : List GnssAntenna) :
    (sortSort GnssAntennas.Less l).Pairwise
      (fun a b => a.DateInstalled ≤ b.DateInstalled) :=
  sortSort_ascending (fun a : GnssAntenna => a.DateInstalled) GnssAntennas.Less
    (fun a b => stringLess_iff a.DateInstalled b.DateInstalled) l

/-! ## Lemmas on the tables -/

theorem mapGet_mapSet {β : Type} (m : GoMap β) (k : String) (v : β) (c : String) :
    mapGet (mapSet m k v) c = if k = c then some v else mapGet m c := by
  induction m with
  | nil => simp [mapSet, mapGet]
  | cons kv rest ih =>
    obtain ⟨k1, v1⟩ := kv
    unfold mapSet
    by_cases h1 : k1 = k
    · subst h1
      by_cases h2 : k1 = c <;> simp [mapGet, h2]
    · by_cases h2 : k = c
      · subst h2
        simp [mapGet, h1, ih]
      · by_cases h3 : k1 = c
        · subst h3
          simp [mapGet, h1, h2]
        · simp [mapGet, h1, h2, h3, ih]

theorem mapGet_mapValues {β : Type} (f : β → β) (m : GoMap β) (c : String) :
    mapGet (mapValues f m) c = (mapGet m c).map f := by
  induction m with
  | nil => rfl
  | cons kv rest ih =>
    obtain ⟨k1, v1⟩ := kv
    unfold mapValues at ih ⊢
    by_cases h : k1 = c <;> simp [mapGet, h, ih]

/-- After the grouping loop started on the map `m0`, the slice stored for a
code is the slice `m0` had, followed by the records of that code in list
order; when the list has none, the entry of `m0` is unchanged. -/
theorem mapGet_foldl_mapAppend {β : Type} (key : β → String) (l : List β)
    (m0 : GoMap (List β)) (c : String) :
    mapGet (l.foldl (fun m s => mapAppend m (key s) s) m0) c =
      match l.filter (fun s => decide (key s = c)) with
      | [] => mapGet m0 c
      | x :: xs => some ((mapGet m0 c).getD [] ++ x :: xs) := by
  induction l generalizing m0 with
  | nil => simp
  | cons s t ih =>
    simp only [List.foldl_cons]
    rw [ih]
    unfold mapAppend
    rw [mapGet_mapSet]
    by_cases h : key s = c
    · subst h
      cases ht : t.filter (fun x => decide (key x = key s)) <;>
        simp [List.filter_cons, ht]
    · simp [List.filter_cons, h]

/-- The map built by a grouping loop has a code exactly when some record of
the list has it. -/
theorem mapGet_group_isSome {β : Type} (key : β → String) (l : List β) (c : String) :
    (mapGet (l.foldl (fun m s => mapAppend m (key s) s) []) c).isSome =
      l.any (fun s => decide (key s = c)) := by
  rw [mapGet_foldl_mapAppend]
  cases h : l.filter (fun s => decide (key s = c)) with
  | nil =>
    have h2 := List.filter_eq_nil_iff.mp h
    have h3 : l.any (fun s => decide (key s = c)) = false := by
      rw [List.any_eq_false]
      intro x hx
      exact h2 x hx
    rw [h3]; rfl
  | cons x xs =>
    have hx : x ∈ l.filter (fun s => decide (key s = c)) := by rw [h]; simp
    have h3 : l.any (fun s => decide (key s = c)) = true := by
      rw [List.any_eq_true]
      exact ⟨x, (List.mem_filter.mp hx).1, (List.mem_filter.mp hx).2⟩
    rw [h3]; rfl

theorem mapGet_monuments_foldl (l : List Monument) (m0 : GoMap Monument) (c : String) :
    (mapGet (l.foldl (fun mm m => mapSet mm m.MarkCode m) m0) c).isSome =
      ((mapGet m0 c).isSome || l.any (fun x => decide (x.MarkCode = c))) := by
  induction l generalizing m0 with
  | nil => simp
  | cons x t ih =>
    simp only [List.foldl_cons, List.any_cons]
    rw [ih, mapGet_mapSet]
    by_cases h : x.MarkCode = c <;> simp [h]

/-- The map `monuments` has a code exactly when some monument has it. -/
theorem mapGet_monuments_isSome (l : List Monument) (c : String) :
    (mapGet (monuments l) c).isSome = l.any (fun x => decide (x.MarkCode = c)) := by
  unfold monuments
  rw [mapGet_monuments_foldl]
  simp [mapGet]

theorem siteLog_isSome (env : Env) (now : Time) (T : Tables) (m : Mark) :
    (siteLog env now T m).isSome =
      ((mapGet T.monuments m.Code).isSome && (mapGet T.sessions m.Code).isSome &&
        (mapGet T.installedAntenna m.Code).isSome &&
        (mapGet T.deployedReceivers m.Code).isSome) := by
  unfold siteLog
  cases mapGet T.monuments m.Code <;> cases mapGet T.sessions m.Code <;>
    cases mapGet T.installedAntenna m.Code <;>
    cases mapGet T.deployedReceivers m.Code <;> rfl

theorem siteLog_isSome_tables (env : Env) (L : MetaLess) (now : Time) (inp : Input)
    (m : Mark) :
    (siteLog env now (tables L inp) m).isSome = hasMinimumData inp m := by
  rw [siteLog_isSome]
  unfold tables hasMinimumData sessions installedAntenna deployedReceivers
  simp only [mapGet_mapValues, Option.isSome_map', mapGet_group_isSome,
    mapGet_monuments_isSome]

theorem map_mark_filterMap_siteLog (env : Env) (now : Time) (T : Tables) (l : List Mark) :
    (l.filterMap (siteLog env now T)).map (fun sl => sl.mark) =
      l.filter (fun m => (siteLog env now T m).isSome) := by
  induction l with
  | nil => rfl
  | cons m t ih =>
    rw [List.filterMap_cons, List.filter_cons]
    cases h : siteLog env now T m with
    | none => simpa using ih
    | some sl =>
      have hm := (siteLog_some env now T m sl h).1
      simp [ih, hm]

theorem utcFormat_ne_empty (t : Time) : utcFormat t ≠ "" := by
  intro h
  have h2 := congrArg String.length h
  simp only [utcFormat, String.length_append] at h2
  have h3 : "Z".length = 1 := rfl
  have h4 : "".length = 0 := rfl
  omega

theorem forall₂_filter_filterMap {α β : Type} (R : α → β → Prop) (p : α → Bool)
    (f : α → Option β) (hyes : ∀ v, p v = true → ∃ x, f v = some x ∧ R v x)
    (hno : ∀ v, p v = false → f v = none) (l : List α) :
    List.Forall₂ R (l.filter p) (l.filterMap f) := by
  induction l with
  | nil => exact List.Forall₂.nil
  | cons v t ih =>
    rw [List.filter_cons, List.filterMap_cons]
    cases hp : p v with
    | true =>
      obtain ⟨x, hx, hR⟩ := hyes v hp
      simp only [hx, if_true]
      exact List.Forall₂.cons hR ih
    | false =>
      simp only [hno v hp, Bool.false_eq_true, if_false]
      exact ih

theorem find?_isSome_eq_any {α : Type} (p : α → Bool) (l : List α) :
    (l.find? p).isSome = l.any p := by
  induction l with
  | nil => rfl
  | cons x t ih =>
    rw [List.find?_cons, List.any_cons]
    cases hp : p x <;> simp [ih]

theorem receiverSession_isSome (r : DeployedReceiver) (v : FirmwareHistory)
    (ss : List Session) :
    (receiverSession r v ss).isSome =
      ss.any (fun s => overlaps r.Start r.End s.Start s.End &&
        overlaps v.Start v.End s.Start s.End) := by
  rw [receiverSession_eq_find, find?_isSome_eq_any]

theorem find?_append_cons_first {α : Type} (p : α → Bool) (pre post : List α) (s : α)
    (hpre : ∀ t ∈ pre, p t = false) (hs : p s = true) :
    (pre ++ s :: post).find? p = some s := by
  induction pre with
  | nil => simp [List.find?_cons, hs]
  | cons t rest ih =>
    have ht : p t = false := hpre t (List.mem_cons_self t rest)
    rw [List.cons_append, List.find?_cons, ht]
    exact ih (fun u hu => hpre u (List.mem_cons_of_mem t hu))

theorem antennaSession_isSome (a : InstalledAntenna) (ss : List Session) :
    (antennaSession a ss).isSome =
      ss.any (fun s => overlaps a.Start a.End s.Start s.End) := by
  rw [antennaSession_eq_find, find?_isSome_eq_any]

theorem antennasPass_some (env : Env) (now : Time) (T : Tables) (m : Mark)
    (acc : List GnssAntenna) (a : InstalledAntenna)
    (hsess : (antennaSession a (mapSlice T.sessions m.Code)).isSome = true) :
    antennasPass env now T m acc a =
      acc ++ [antennaRecord env now a (radomeOf T m.Code a).1 (radomeOf T m.Code a).2] := by
  unfold antennasPass
  obtain ⟨s, hs⟩ := Option.isSome_iff_exists.mp hsess
  rw [hs]

theorem radomeOf_last (T : Tables) (code : String) (a : InstalledAntenna)
    (pre post : List InstalledRadome) (v : InstalledRadome)
    (hsplit : mapSlice T.installedRadomes code = pre ++ v :: post)
    (hv : overlaps v.Start v.End a.Start a.End = true)
    (hpost : ∀ w ∈ post, overlaps w.Start w.End a.Start a.End = false) :
    radomeOf T code a = (v.Model, v.Serial) := by
  unfold radomeOf
  unfold mapSlice at hsplit
  cases hm : mapGet T.installedRadomes code with
  | none =>
    rw [hm] at hsplit
    simp at hsplit
  | some radomes =>
    rw [hm] at hsplit
    simp only [Option.getD_some] at hsplit
    show radomeScan a radomes = (v.Model, v.Serial)
    rw [radomeScan_eq, hsplit]
    have hrev : (pre ++ v :: post).reverse = post.reverse ++ v :: pre.reverse := by simp
    rw [hrev, find?_append_cons_first _ post.reverse pre.reverse v
      (fun w hw => hpost w (List.mem_reverse.mp hw)) hv]

theorem radomeOf_none (T : Tables) (code : String) (a : InstalledAntenna)
    (hnone : ∀ w ∈ mapSlice T.installedRadomes code,
      overlaps w.Start w.End a.Start a.End = false) :
    radomeOf T code a = ("NONE", "") := by
  rcases radomeOf_cases T code a with ⟨h, _⟩ | ⟨pre, v, post, hsplit, hv, _, _⟩
  · exact h
  · have hmem : v ∈ mapSlice T.installedRadomes code := by rw [hsplit]; simp
    rw [hnone v hmem] at hv
    exact absurd hv Bool.false_ne_true

/-! ## Lemmas for the met-sensor loop and the stored groups -/

theorem metsensorSession_isSome (m : InstalledMetSensor) (ss : List Session) :
    (metsensorSession m ss).isSome =
      ss.any (fun s => overlaps m.Start m.End s.Start s.End) := by
  rw [metsensorSession_eq_find, find?_isSome_eq_any]

theorem metsensors_foldl (T : Tables) (l : List InstalledMetSensor)
    (acc : List GnssMetSensor) :
    l.foldl
      (fun acc ms =>
        match metsensorSession ms (mapSlice T.sessions ms.MarkCode) with
        | none => acc
        | some _ => acc ++ [metsensorRecord ms])
      acc =
    acc ++ (l.filter (fun ms => (mapSlice T.sessions ms.MarkCode).any
      (fun s => overlaps ms.Start ms.End s.Start s.End))).map metsensorRecord := by
  induction l generalizing acc with
  | nil => simp
  | cons ms t ih =>
    simp only [List.foldl_cons]
    rw [ih, List.filter_cons, ← metsensorSession_isSome]
    cases h : metsensorSession ms (mapSlice T.sessions ms.MarkCode) <;> simp

/-- The met-sensor slice holds one record for each stored install that has a
session among the sessions of its own mark code, in stored order. -/
theorem metsensors_eq (T : Tables) (m : Mark) :
    metsensors T m =
      ((mapSlice T.installedMetSensors m.ReferenceCode).filter
        (fun ms => (mapSlice T.sessions ms.MarkCode).any
          (fun s => overlaps ms.Start ms.End s.Start s.End))).map metsensorRecord := by
  unfold metsensors
  rw [metsensors_foldl]
  simp

/-- The slice stored for a code by a grouping loop: the records of that code,
in list order. -/
theorem mapSlice_group {β : Type} (key : β → String) (l : List β) (c : String) :
    mapSlice (l.foldl (fun m s => mapAppend m (key s) s) []) c =
      l.filter (fun s => decide (key s = c)) := by
  unfold mapSlice
  rw [mapGet_foldl_mapAppend]
  cases h : l.filter (fun s => decide (key s = c)) <;> simp [mapGet]

/-- The slice stored for a code after the groups are passed through `f`. -/
theorem mapSlice_mapValues_group {β : Type} (f : List β → List β) (hf : f [] = [])
    (key : β → String) (l : List β) (c : String) :
    mapSlice (mapValues f (l.foldl (fun m s => mapAppend m (key s) s) [])) c =
      f (l.filter (fun s => decide (key s = c))) := by
  unfold mapSlice
  rw [mapGet_mapValues, mapGet_foldl_mapAppend]
  cases h : l.filter (fun s => decide (key s = c)) <;> simp [mapGet, hf]

theorem sortSort_nil {α : Type} (less : α → α → Bool) : sortSort less [] = [] := by
  simp [sortSort]

theorem mem_installedMetSensors_key (L : MetaLess) (l : List InstalledMetSensor)
    (c : String) (ms : InstalledMetSensor)
    (h : ms ∈ mapSlice (installedMetSensors L l) c) : ms.MarkCode = c := by
  unfold installedMetSensors at h
  rw [mapSlice_mapValues_group _ (sortSort_nil _), mem_sortSort] at h
  simpa using (List.mem_filter.mp h).2

/-- A session that overlaps a deployment and a firmware entry overlaps their
clipped interval. -/
theorem overlaps_clip (r : DeployedReceiver) (v : FirmwareHistory) (s : Session)
    (hrs : overlaps r.Start r.End s.Start s.End = true)
    (hvs : overlaps v.Start v.End s.Start s.End = true) :
    overlaps (clipStart r v) (clipEnd r v) s.Start s.End = true := by
  rw [overlaps_iff] at hrs hvs ⊢
  unfold clipStart clipEnd Before After
  constructor
  · by_cases h2 : v.End < r.End
    · simp only [h2, decide_True, if_true]; exact hvs.1
    · simp only [h2, decide_False, if_false, Bool.false_eq_true]; exact hrs.1
  · by_cases h1 : r.Start < v.Start
    · simp only [h1, decide_True, if_true]; exact hvs.2
    · simp only [h1, decide_False, if_false, Bool.false_eq_true]; exact hrs.2

theorem metsensors_sources (T : Tables) (m : Mark) (x : GnssMetSensor)
    (hx : x ∈ metsensors T m) :
    ∃ ms ∈ mapSlice T.installedMetSensors m.ReferenceCode,
      ∃ s ∈ mapSlice T.sessions ms.MarkCode,
        x = metsensorRecord ms ∧ overlaps ms.Start ms.End s.Start s.End = true := by
  rw [metsensors_eq, List.mem_map] at hx
  obtain ⟨ms, hms, hxm⟩ := hx
  obtain ⟨hmem, hany⟩ := List.mem_filter.mp hms
  obtain ⟨s, hs, hov⟩ := List.any_eq_true.mp hany
  exact ⟨ms, hmem, s, hs, hxm.symm, hov⟩

theorem clipStart_eq_max (r : DeployedReceiver) (v : FirmwareHistory) :
    clipStart r v = max r.Start v.Start := by
  unfold clipStart Before
  by_cases h : r.Start < v.Start
  · simp only [h, decide_True, if_true]
    exact (max_eq_right (le_of_lt h)).symm
  · simp only [h, decide_False, if_false, Bool.false_eq_true]
    exact (max_eq_left (not_lt.mp h)).symm

theorem clipEnd_eq_min (r : DeployedReceiver) (v : FirmwareHistory) :
    clipEnd r v = min r.End v.End := by
  unfold clipEnd After
  by_cases h : v.End < r.End
  · simp only [h, decide_True, if_true]
    exact (min_eq_right (le_of_lt h)).symm
  · simp only [h, decide_False, if_false, Bool.false_eq_true]
    exact (min_eq_left (not_lt.mp h)).symm

theorem receiverPass_eq (env : Env) (now : Time) (ss : List Session)
    (r : DeployedReceiver) (v : FirmwareHistory) :
    receiverPass env now ss r v =
      if overlaps v.Start v.End r.Start r.End then
        (receiverSession r v ss).map (receiverRecord env now r v)
      else none := by
  unfold receiverPass
  by_cases h1 : r.End < v.Start <;> by_cases h2 : v.End < r.Start <;>
    cases hs : receiverSession r v ss <;>
    simp [After, Before, overlaps, h1, h2]

/-! ## Lemmas on what a station reads from the tables -/

theorem mapGet_monuments_foldl_last (l : List Monument) (m0 : GoMap Monument) (c : String) :
    mapGet (l.foldl (fun mm m => mapSet mm m.MarkCode m) m0) c =
      match (l.filter (fun x => decide (x.MarkCode = c))).getLast? with
      | none => mapGet m0 c
      | some x => some x := by
  induction l generalizing m0 with
  | nil => simp
  | cons x t ih =>
    simp only [List.foldl_cons]
    rw [ih, mapGet_mapSet, List.filter_cons]
    by_cases h : x.MarkCode = c
    · simp only [h, decide_True, if_true]
      cases ht : (t.filter (fun y => decide (y.MarkCode = c))).getLast? with
      | none =>
        have hnil : t.filter (fun y => decide (y.MarkCode = c)) = [] :=
          List.getLast?_eq_none_iff.mp ht
        simp [hnil]
      | some y =>
        have hne : t.filter (fun y => decide (y.MarkCode = c)) ≠ [] := by
          intro hnil; rw [hnil] at ht; simp at ht
        obtain ⟨z, zs, hz⟩ := List.exists_cons_of_ne_nil hne
        rw [hz] at ht ⊢
        rw [List.getLast?_cons_cons, ht]
    · simp [h]

/-- The monument stored for a code is the last loaded monument of that code. -/
theorem mapGet_monuments (l : List Monument) (c : String) :
    mapGet (monuments l) c = (l.filter (fun x => decide (x.MarkCode = c))).getLast? := by
  unfold monuments
  rw [mapGet_monuments_foldl_last]
  cases (l.filter (fun x => decide (x.MarkCode = c))).getLast? <;> simp [mapGet]

/-- The entry of a sorted grouping map for a code depends only on the records
of that code. -/
theorem mapGet_group_congr {β : Type} (f : List β → List β) (key : β → String)
    (l1 l2 : List β) (c : String)
    (h : l1.filter (fun s => decide (key s = c)) = l2.filter (fun s => decide (key s = c))) :
    mapGet (mapValues f (l1.foldl (fun m s => mapAppend m (key s) s) [])) c =
      mapGet (mapValues f (l2.foldl (fun m s => mapAppend m (key s) s) [])) c := by
  rw [mapGet_mapValues, mapGet_mapValues, mapGet_foldl_mapAppend, mapGet_foldl_mapAppend, h]

theorem mapGet_sessions_congr (l1 l2 : List Session) (c : String)
    (h : l1.filter (fun s => decide (s.MarkCode = c)) =
      l2.filter (fun s => decide (s.MarkCode = c))) :
    mapGet (sessions l1) c = mapGet (sessions l2) c := by
  unfold sessions
  rw [mapGet_foldl_mapAppend, mapGet_foldl_mapAppend, h]

/-- The station value of a mark is the same for two sets of tables that agree
on the firmware map, on the entries of the mark code in the monument, session,
antenna, receiver and radome maps, and on the entries of the reference code in
the met-sensor and session maps. -/
theorem siteLog_congr (env : Env) (now : Time) (T1 T2 : Tables) (m : Mark)
    (efw : T1.firmwareHistory = T2.firmwareHistory)
    (emon : mapGet T1.monuments m.Code = mapGet T2.monuments m.Code)
    (eses : mapGet T1.sessions m.Code = mapGet T2.sessions m.Code)
    (eant : mapGet T1.installedAntenna m.Code = mapGet T2.installedAntenna m.Code)
    (erec : mapGet T1.deployedReceivers m.Code = mapGet T2.deployedReceivers m.Code)
    (erad : mapGet T1.installedRadomes m.Code = mapGet T2.installedRadomes m.Code)
    (emet : mapGet T1.installedMetSensors m.ReferenceCode =
      mapGet T2.installedMetSensors m.ReferenceCode)
    (eref : mapGet T1.sessions m.ReferenceCode = mapGet T2.sessions m.ReferenceCode)
    (hkey : ∀ ms ∈ mapSlice T1.installedMetSensors m.ReferenceCode,
      ms.MarkCode = m.ReferenceCode) :
    siteLog env now T1 m = siteLog env now T2 m := by
  have hrec : receivers env now T1 m = receivers env now T2 m := by
    unfold receivers receiversPass mapSlice
    rw [erec, efw, eses]
  have hant : antennas env now T1 m = antennas env now T2 m := by
    unfold antennas antennasPass radomeOf mapSlice
    rw [eant, eses, erad]
  have hmet : metsensors T1 m = metsensors T2 m := by
    rw [metsensors_eq, metsensors_eq]
    have e1 : mapSlice T1.installedMetSensors m.ReferenceCode =
        mapSlice T2.installedMetSensors m.ReferenceCode := by
      unfold mapSlice; rw [emet]
    rw [← e1]
    congr 1
    apply List.filter_congr
    intro ms hms
    rw [hkey ms hms]
    unfold mapSlice
    rw [eref]
  unfold siteLog
  rw [emon, eses, eant, erec, hrec, hant, hmet]

/-! ## Lemmas on the order of equal elements -/

theorem filter_sink {α κ : Type} [DecidableEq κ] (key : α → κ) (less : α → α → Bool)
    (hless : ∀ a b, less a b = true → key a ≠ key b) (k : κ) (x : α) (acc : List α) :
    (sink less x acc).filter (fun a => decide (key a = k)) =
      (x :: acc).filter (fun a => decide (key a = k)) := by
  induction acc with
  | nil => rfl
  | cons h t ih =>
    unfold sink
    split
    · rename_i hlt
      have hne := hless x h hlt
      rw [List.filter_cons, ih]
      by_cases hx : key x = k
      · have hh : ¬ key h = k := fun hc => hne (hx.trans hc.symm)
        simp [List.filter_cons, hx, hh]
      · simp [List.filter_cons, hx]
    · rfl

theorem filter_foldl_sink {α κ : Type} [DecidableEq κ] (key : α → κ) (less : α → α → Bool)
    (hless : ∀ a b, less a b = true → key a ≠ key b) (k : κ) (l acc : List α) :
    (l.foldl (fun acc x => sink less x acc) acc).filter (fun a => decide (key a = k)) =
      (l.reverse ++ acc).filter (fun a => decide (key a = k)) := by
  induction l generalizing acc with
  | nil => simp
  | cons h t ih =>
    simp only [List.foldl_cons, List.reverse_cons, List.append_assoc, List.singleton_append]
    rw [ih, List.filter_append, List.filter_append, filter_sink key less hless]

/-- The library `insertionSort` keeps the elements of equal key in their
order. -/
theorem filter_insertionSort {α κ : Type} [DecidableEq κ] (key : α → κ)
    (less : α → α → Bool) (hless : ∀ a b, less a b = true → key a ≠ key b) (k : κ)
    (l : List α) :
    (insertionSort less l).filter (fun a => decide (key a = k)) =
      l.filter (fun a => decide (key a = k)) := by
  unfold insertionSort
  rw [List.filter_reverse, filter_foldl_sink key less hless, List.append_nil,
    List.filter_reverse, List.reverse_reverse]

theorem stringLess_ne (a b : String) (h : stringLess a b = true) : a ≠ b := by
  intro hab
  rw [hab] at h
  exact lt_irrefl b ((stringLess_iff b b).mp h)

/-- On a slice of at most twelve elements `sort.Sort` keeps the elements of
any one key in their order, when `less` holds only between different keys. -/
theorem filter_sortSort {α κ : Type} [DecidableEq κ] (key : α → κ) (less : α → α → Bool)
    (hless : ∀ a b, less a b = true → key a ≠ key b) (k : κ) (l : List α)
    (hlen : l.length ≤ 12) :
    (sortSort less l).filter (fun a => decide (key a = k)) =
      l.filter (fun a => decide (key a = k)) := by
  rw [sortSort_short less l hlen, filter_insertionSort key less hless k]

/-! ## Lemmas on the sorted groups -/

/-- A group sorted by a `less` that compares a key: a rearrangement of the
records of the code, ascending in the key, and in list order among equal keys
when there are at most twelve records. -/
theorem mapSlice_sorted_group {β κ : Type} [LinearOrder κ] (less : β → β → Bool)
    (start : β → κ) (hless : ∀ a b, less a b = true ↔ start a < start b)
    (key : β → String) (l : List β) (c : String) :
    mapSlice (mapValues (sortSort less) (l.foldl (fun m s => mapAppend m (key s) s) [])) c =
      sortSort less (l.filter (fun s => decide (key s = c))) ∧
    (mapSlice (mapValues (sortSort less)
        (l.foldl (fun m s => mapAppend m (key s) s) [])) c).Perm
      (l.filter (fun s => decide (key s = c))) ∧
    (mapSlice (mapValues (sortSort less)
        (l.foldl (fun m s => mapAppend m (key s) s) [])) c).Pairwise
      (fun a b => start a ≤ start b) ∧
    ((l.filter (fun s => decide (key s = c))).length ≤ 12 → ∀ t,
      (mapSlice (mapValues (sortSort less)
          (l.foldl (fun m s => mapAppend m (key s) s) [])) c).filter
        (fun a => decide (start a = t)) =
      (l.filter (fun s => decide (key s = c))).filter (fun a => decide (start a = t))) := by
  have h := mapSlice_mapValues_group (sortSort less) (sortSort_nil less) key l c
  rw [h]
  refine ⟨rfl, sortSort_perm _ _, sortSort_ascending start less hless _, ?_⟩
  intro hlen t
  exact filter_sortSort start less
    (fun a b hab => ne_of_lt ((hless a b).mp hab)) t _ hlen

theorem firmwareEntry_step (fh : GoMap (GoMap (List FirmwareHistory)))
    (i : FirmwareHistory) (model serial : String) :
    firmwareEntry
      (mapSet
        (match mapGet fh i.Model with
          | some _ => fh
          | none => mapSet fh i.Model [])
        i.Model
        (mapAppend
          ((mapGet
            (match mapGet fh i.Model with
              | some _ => fh
              | none => mapSet fh i.Model [])
            i.Model).getD [])
          i.Serial i))
      model serial =
    if i.Model = model ∧ i.Serial = serial then
      some ((firmwareEntry fh model serial).getD [] ++ [i])
    else firmwareEntry fh model serial := by
  unfold firmwareEntry
  rw [mapGet_mapSet]
  cases hg : mapGet fh i.Model with
  | none =>
    have hB : mapGet (mapSet fh i.Model ([] : GoMap (List FirmwareHistory))) i.Model =
        some [] := by
      rw [mapGet_mapSet]; simp
    simp only [hB, Option.getD_some]
    by_cases hm : i.Model = model
    · subst hm
      simp only [if_true, true_and, hg, Option.some_bind, Option.none_bind]
      unfold mapAppend
      rw [mapGet_mapSet]
      by_cases hs : i.Serial = serial <;> simp [hs, mapGet]
    · simp only [hm, if_false, false_and]
      rw [mapGet_mapSet]
      simp only [hm, if_false]
  | some b =>
    simp only [hg, Option.getD_some]
    by_cases hm : i.Model = model
    · subst hm
      simp only [if_true, true_and, hg, Option.some_bind]
      unfold mapAppend
      rw [mapGet_mapSet]
      by_cases hs : i.Serial = serial <;> simp [hs]
    · simp only [hm, if_false, false_and]

theorem firmwareEntry_foldl (l : List FirmwareHistory)
    (fh0 : GoMap (GoMap (List FirmwareHistory))) (model serial : String) :
    firmwareEntry
      (l.foldl
        (fun fh i =>
          let fh1 := match mapGet fh i.Model with
            | some _ => fh
            | none => mapSet fh i.Model []
          mapSet fh1 i.Model (mapAppend ((mapGet fh1 i.Model).getD []) i.Serial i))
        fh0)
      model serial =
    match l.filter (fun i => decide (i.Model = model ∧ i.Serial = serial)) with
    | [] => firmwareEntry fh0 model serial
    | x :: xs => some ((firmwareEntry fh0 model serial).getD [] ++ x :: xs) := by
  induction l generalizing fh0 with
  | nil => simp
  | cons i t ih =>
    simp only [List.foldl_cons]
    rw [ih, firmwareEntry_step, List.filter_cons]
    by_cases h : i.Model = model ∧ i.Serial = serial
    · simp only [h, and_self, decide_True, if_true]
      cases ht : t.filter (fun i => decide (i.Model = model ∧ i.Serial = serial)) <;> simp
    · simp only [h, decide_False, if_false, Bool.false_eq_true]

theorem firmwareEntry_mapValues (f : List FirmwareHistory → List FirmwareHistory)
    (fh : GoMap (GoMap (List FirmwareHistory))) (model serial : String) :
    firmwareEntry (mapValues (mapValues f) fh) model serial =
      (firmwareEntry fh model serial).map f := by
  unfold firmwareEntry
  rw [mapGet_mapValues]
  cases mapGet fh model with
  | none => rfl
  | some b => simp [mapGet_mapValues]

theorem firmwareGroup_eq (fh : GoMap (GoMap (List FirmwareHistory))) (model serial : String) :
    firmwareGroup fh model serial = (firmwareEntry fh model serial).getD [] := by
  unfold firmwareGroup firmwareEntry mapSlice
  cases mapGet fh model <;> rfl

/-- The firmware entries stored for a model and serial: the loaded entries of
that model and serial, sorted. -/
theorem firmwareGroup_firmwareHistory (L : MetaLess) (l : List FirmwareHistory)
    (model serial : String) :
    firmwareGroup (firmwareHistory L l) model serial =
      sortSort L.FirmwareHistoryList
        (l.filter (fun i => decide (i.Model = model ∧ i.Serial = serial))) := by
  rw [firmwareGroup_eq]
  unfold firmwareHistory
  rw [firmwareEntry_mapValues, firmwareEntry_foldl]
  cases h : l.filter (fun i => decide (i.Model = model ∧ i.Serial = serial)) <;>
    simp [firmwareEntry, mapGet, sortSort_nil]

theorem firmwareOf_eq_firmwareGroup (T : Tables) (r : DeployedReceiver) :
    firmwareOf T r = firmwareGroup T.firmwareHistory r.Model r.Serial := rfl

/-! ## Lemmas on `country` -/

theorem countryPass_foldl_name {F : Type} (ops : FloatOps F)
    (W : F → F → F → F × F × F) (X Y : F) (l : List (Country F)) (st : F × String) :
    (l.foldl (countryPass ops W X Y) st).2 = st.2 ∨
      (l.foldl (countryPass ops W X Y) st).2 ∈ l.map (fun v => v.name) := by
  induction l generalizing st with
  | nil => left; rfl
  | cons v t ih =>
    simp only [List.foldl_cons, List.map_cons, List.mem_cons]
    rcases ih (countryPass ops W X Y st v) with h | h
    · rw [h]
      unfold countryPass
      split
      · right; left; rfl
      · left; rfl
    · right; right; exact h

/-- From a state whose distance is a number not below zero, over entries whose
distances are such numbers too, the loop of `country` ends on the state it
started from when no entry is nearer, and otherwise on the first of the
nearest entries. -/
theorem countryPass_foldl_first_min {F : Type} (ops : FloatOps F)
    (W : F → F → F → F × F × F) (X Y : F) (val : F → ℚ) (l : List (Country F))
    (r0 : F) (n0 : String)
    (hz0 : ops.lt r0 (ops.lit 0 1) = false)
    (hz : ∀ v ∈ l, ops.lt (distance ops W X Y v) (ops.lit 0 1) = false)
    (hcmp0 : ∀ v ∈ l, ops.lt (distance ops W X Y v) r0 =
      decide (val (distance ops W X Y v) < val r0))
    (hcmp : ∀ v ∈ l, ∀ w ∈ l, ops.lt (distance ops W X Y v) (distance ops W X Y w) =
      decide (val (distance ops W X Y v) < val (distance ops W X Y w))) :
    (l.foldl (countryPass ops W X Y) (r0, n0) = (r0, n0) ∧
      ∀ v ∈ l, val r0 ≤ val (distance ops W X Y v)) ∨
    ∃ pre v post, l = pre ++ v :: post ∧
      l.foldl (countryPass ops W X Y) (r0, n0) = (distance ops W X Y v, v.name) ∧
      val (distance ops W X Y v) < val r0 ∧
      (∀ p ∈ pre, val (distance ops W X Y v) < val (distance ops W X Y p)) ∧
      (∀ p ∈ post, val (distance ops W X Y v) ≤ val (distance ops W X Y p)) := by
  induction l generalizing r0 n0 with
  | nil => left; exact ⟨rfl, fun v hv => absurd hv (List.not_mem_nil v)⟩
  | cons v t ih =>
    have hzt : ∀ w ∈ t, ops.lt (distance ops W X Y w) (ops.lit 0 1) = false :=
      fun w hw => hz w (List.mem_cons_of_mem v hw)
    have hcmpt : ∀ a ∈ t, ∀ w ∈ t,
        ops.lt (distance ops W X Y a) (distance ops W X Y w) =
          decide (val (distance ops W X Y a) < val (distance ops W X Y w)) :=
      fun a ha w hw => hcmp a (List.mem_cons_of_mem v ha) w (List.mem_cons_of_mem v hw)
    have hv := hcmp0 v (List.mem_cons_self v t)
    simp only [List.foldl_cons]
    by_cases hlt : val (distance ops W X Y v) < val r0
    · have hstep : countryPass ops W X Y (r0, n0) v = (distance ops W X Y v, v.name) := by
        unfold countryPass
        simp [hz0, hv, hlt]
      rw [hstep]
      right
      rcases ih (distance ops W X Y v) v.name (hz v (List.mem_cons_self v t)) hzt
          (fun w hw => hcmp w (List.mem_cons_of_mem v hw) v (List.mem_cons_self v t))
          hcmpt with
        ⟨hres, hall⟩ | ⟨pre, w, post, hsplit, hres, hw, hpre, hpost⟩
      · exact ⟨[], v, t, rfl, hres, hlt, fun p hp => absurd hp (List.not_mem_nil p), hall⟩
      · refine ⟨v :: pre, w, post, by rw [hsplit]; rfl, hres, lt_trans hw hlt, ?_, hpost⟩
        intro p hp
        rcases List.mem_cons.mp hp with hp1 | hp1
        · rw [hp1]; exact hw
        · exact hpre p hp1
    · have hstep : countryPass ops W X Y (r0, n0) v = (r0, n0) := by
        unfold countryPass
        simp [hz0, hv, hlt]
      rw [hstep]
      rcases ih r0 n0 hz0 hzt (fun w hw => hcmp0 w (List.mem_cons_of_mem v hw)) hcmpt with
        ⟨hres, hall⟩ | ⟨pre, w, post, hsplit, hres, hw, hpre, hpost⟩
      · left
        refine ⟨hres, ?_⟩
        intro p hp
        rcases List.mem_cons.mp hp with hp1 | hp1
        · rw [hp1]; exact not_lt.mp hlt
        · exact hall p hp1
      · right
        refine ⟨v :: pre, w, post, by rw [hsplit]; rfl, hres, hw, ?_, hpost⟩
        intro p hp
        rcases List.mem_cons.mp hp with hp1 | hp1
        · rw [hp1]; exact lt_of_lt_of_le hw (not_lt.mp hlt)
        · exact hpre p hp1

/-! ## Lemmas on the sources of the emitted records -/

theorem antennas_eq_sources (env : Env) (now : Time) (T : Tables) (m : Mark) :
    antennas env now T m =
      (antennaSources T m).map
        (fun a => antennaRecord env now a (radomeOf T m.Code a).1 (radomeOf T m.Code a).2) :=
  antennas_eq env now T m

theorem receivers_eq_sources (env : Env) (now : Time) (T : Tables) (m : Mark) :
    receivers env now T m =
      (receiverSources T m).map (fun p => receiverRecord env now p.1 p.2.1 p.2.2) := by
  rw [receivers_eq]
  unfold receiverSources receiverRecords
  rw [List.map_flatMap]
  congr 1
  funext r
  rw [List.map_filterMap]
  congr 1
  funext v
  rw [receiverPass_eq]
  by_cases h : overlaps v.Start v.End r.Start r.End = true
  · simp only [h, if_true]
    cases receiverSession r v (mapSlice T.sessions m.Code) <;> rfl
  · simp only [h]
    rfl

/-- A rearrangement of the images of a list is the list of images of a
rearrangement. -/
theorem perm_map_exists {σ ρ : Type} (f : σ → ρ) (out : List ρ) (srcs : List σ)
    (h : out.Perm (srcs.map f)) : ∃ ps : List σ, ps.Perm srcs ∧ ps.map f = out := by
  have key : ∀ l1 l2 : List ρ, l1.Perm l2 → ∀ s2 : List σ, s2.map f = l2 →
      ∃ s1 : List σ, s1.Perm s2 ∧ s1.map f = l1 := by
    intro l1 l2 hp
    induction hp with
    | nil =>
      intro s2 hs
      exact ⟨s2, List.Perm.refl _, hs⟩
    | cons x _ ih =>
      intro s2 hs
      cases s2 with
      | nil => simp at hs
      | cons s t =>
        simp only [List.map_cons, List.cons.injEq] at hs
        obtain ⟨t1, ht1, ht2⟩ := ih t hs.2
        exact ⟨s :: t1, ht1.cons s, by simp [ht2, hs.1]⟩
    | swap x y l =>
      intro s2 hs
      match s2, hs with
      | [], hs => simp at hs
      | [_], hs => simp at hs
      | s :: s1 :: t, hs =>
        simp only [List.map_cons, List.cons.injEq] at hs
        exact ⟨s1 :: s :: t, List.Perm.swap _ _ _, by simp [hs.1, hs.2.1, hs.2.2]⟩
    | trans _ _ ih1 ih2 =>
      intro s3 hs
      obtain ⟨s2, hp2, hs2⟩ := ih2 s3 hs
      obtain ⟨s1, hp1, hs1⟩ := ih1 s2 hs2
      exact ⟨s1, hp1.trans hp2, hs1⟩
  exact key out (srcs.map f) h srcs rfl

/-- A slice of records sorted by a date string that is the format of an
instant of the source of the record, the format being strictly increasing on
the instants of the sources: the sorted slice lists the records of a
rearrangement of the sources that is ascending in the instant. -/
theorem sortSort_sources {σ ρ : Type} (less : ρ → ρ → Bool) (date : ρ → String)
    (hless : ∀ a b, less a b = true ↔ date a < date b) (f : σ → ρ) (inst : σ → Time)
    (format : Time → String) (hdate : ∀ s, date (f s) = format (inst s)) (srcs : List σ)
    (hmono : ∀ p ∈ srcs, ∀ q ∈ srcs, inst p < inst q →
      stringLess (format (inst p)) (format (inst q)) = true) :
    ∃ ps : List σ, ps.Perm srcs ∧ sortSort less (srcs.map f) = ps.map f ∧
      ps.Pairwise (fun p q => inst p ≤ inst q) := by
  obtain ⟨ps, hperm, hmap⟩ := perm_map_exists f _ srcs (sortSort_perm less (srcs.map f))
  refine ⟨ps, hperm, hmap.symm, ?_⟩
  have hasc := sortSort_ascending date less hless (srcs.map f)
  rw [← hmap, List.pairwise_map] at hasc
  refine hasc.imp_of_mem ?_
  intro p q hp hq hpq
  by_contra hlt
  have h1 := hmono q (hperm.mem_iff.mp hq) p (hperm.mem_iff.mp hp) (not_le.mp hlt)
  rw [hdate, hdate] at hpq
  exact absurd ((stringLess_iff _ _).mp h1) (not_lt.mpr hpq)

/-! ## The claims -/

/-- C1, as stated, fails: on the one-station input `c1Input` the engine emits a
receiver record built from `c1Receiver`, `c1Firmware` and the matched session
`c1Session` whose interval 2010-01-01 to 2015-01-01 starts before the session
does, and an antenna record built from `c1Antenna` whose interval starts before
both the matched session and the matched radome. -/
theorem c1_interval_not_within_session :
    main sampleEnv sampleLess t2026 c1Input = [c1Site] ∧
    receiverSession c1Receiver c1Firmware [c1Session] = some c1Session ∧
    (receiverRecord sampleEnv t2026 c1Receiver c1Firmware c1Session).DateInstalled =
      "2010-01-01T00:00Z" ∧
    ¬ (c1Session.Start ≤ clipStart c1Receiver c1Firmware ∧
        clipEnd c1Receiver c1Firmware ≤ c1Session.End) ∧
    antennaSession c1Antenna [c1Session] = some c1Session ∧
    radomeScan c1Antenna [c1Radome] = (c1Radome.Model, c1Radome.Serial) ∧
    ¬ (c1Session.Start ≤ c1Antenna.Start ∧ c1Antenna.End ≤ c1Session.End) ∧
    ¬ (c1Radome.Start ≤ c1Antenna.Start ∧ c1Antenna.End ≤ c1Radome.End) := by
  decide

/-- C1 (amended): every receiver record of an emitted station is built from a
stored deployment `r`, a stored firmware entry `v` of its model and serial and
the first matching session `s`; its interval `[clipStart r v, clipEnd r v]` lies
inside the interval of `r` and inside the interval of `v`, and the interval of
`s` overlaps it. Every antenna record is built from a stored install `a` and the
first matching session `s`; its interval is the interval of `a` itself, the
interval of `s` overlaps it, and its radome is either the fallback or a stored
radome whose interval overlaps it. -/
theorem c1_interval_within_install_and_firmware (env : Env) (L : MetaLess) (now : Time)
    (inp : Input) (sl : SiteLog) (hsl : sl ∈ main env L now inp) :
    (∀ x ∈ sl.GnssReceivers,
      ∃ r ∈ mapSlice (tables L inp).deployedReceivers sl.mark.Code,
      ∃ v ∈ firmwareOf (tables L inp) r,
      ∃ s ∈ mapSlice (tables L inp).sessions sl.mark.Code,
        receiverSession r v (mapSlice (tables L inp).sessions sl.mark.Code) = some s ∧
        x = receiverRecord env now r v s ∧
        (r.Start ≤ clipStart r v ∧ clipEnd r v ≤ r.End) ∧
        (v.Start ≤ clipStart r v ∧ clipEnd r v ≤ v.End) ∧
        overlaps (clipStart r v) (clipEnd r v) s.Start s.End = true) ∧
    (∀ x ∈ sl.GnssAntennas,
      ∃ a ∈ mapSlice (tables L inp).installedAntenna sl.mark.Code,
      ∃ s ∈ mapSlice (tables L inp).sessions sl.mark.Code,
        antennaSession a (mapSlice (tables L inp).sessions sl.mark.Code) = some s ∧
        x.DateInstalled = env.Format a.Start ∧
        x.DateRemoved = (if After now a.End then env.Format a.End else "") ∧
        overlaps a.Start a.End s.Start s.End = true ∧
        ((x.AntennaRadomeType = "NONE" ∧ x.RadomeSerialNumber = "") ∨
          ∃ v ∈ mapSlice (tables L inp).installedRadomes sl.mark.Code,
            overlaps v.Start v.End a.Start a.End = true ∧
            x.AntennaRadomeType = v.Model ∧ x.RadomeSerialNumber = v.Serial)) := by
  obtain ⟨m, _, hm⟩ := (mem_main env L now inp sl).mp hsl
  obtain ⟨hmark, _, hrec, hant, _⟩ := siteLog_some env now _ m sl hm
  rw [hmark, hrec, hant]
  constructor
  · intro x hx
    rw [mem_sortSort] at hx
    obtain ⟨r, hr, v, hv, s, hs, hsess, hxs, hvr, hrs, hvs⟩ :=
      receivers_sources env now _ m x hx
    have hb := clip_bounds r v
    refine ⟨r, hr, v, hv, s, hs, hsess, hxs, ⟨hb.1, hb.2.2.1⟩, ⟨hb.2.1, hb.2.2.2⟩, ?_⟩
    rw [overlaps_iff] at hvr hrs hvs ⊢
    unfold clipStart clipEnd Before After
    constructor
    · by_cases h2 : v.End < r.End
      · simp only [h2, decide_True, if_true]; exact hvs.1
      · simp only [h2, decide_False, if_false, Bool.false_eq_true]; exact hrs.1
    · by_cases h1 : r.Start < v.Start
      · simp only [h1, decide_True, if_true]; exact hvs.2
      · simp only [h1, decide_False, if_false, Bool.false_eq_true]; exact hrs.2
  · intro x hx
    rw [mem_sortSort] at hx
    obtain ⟨a, ha, s, hs, hsess, hxa, has⟩ := antennas_sources env now _ m x hx
    refine ⟨a, ha, s, hs, hsess, by rw [hxa]; rfl, by rw [hxa]; rfl, has, ?_⟩
    rcases radomeOf_cases (tables L inp) m.Code a with ⟨hnone, _⟩ | ⟨pre, v, post, hsplit, hov, _, hval⟩
    · left
      rw [hxa, hnone]
      exact ⟨rfl, rfl⟩
    · right
      refine ⟨v, ?_, hov, ?_, ?_⟩
      · rw [hsplit]; simp
      · rw [hxa, hval]; rfl
      · rw [hxa, hval]; rfl

/-- C1 (amended), applied to the station of `c1Input`. -/
theorem c1_interval_within_install_and_firmware_witness :
    c1Site ∈ main sampleEnv sampleLess t2026 c1Input ∧
    ((∀ x ∈ c1Site.GnssReceivers,
      ∃ r ∈ mapSlice (tables sampleLess c1Input).deployedReceivers c1Site.mark.Code,
      ∃ v ∈ firmwareOf (tables sampleLess c1Input) r,
      ∃ s ∈ mapSlice (tables sampleLess c1Input).sessions c1Site.mark.Code,
        receiverSession r v
          (mapSlice (tables sampleLess c1Input).sessions c1Site.mark.Code) = some s ∧
        x = receiverRecord sampleEnv t2026 r v s ∧
        (r.Start ≤ clipStart r v ∧ clipEnd r v ≤ r.End) ∧
        (v.Start ≤ clipStart r v ∧ clipEnd r v ≤ v.End) ∧
        overlaps (clipStart r v) (clipEnd r v) s.Start s.End = true) ∧
    (∀ x ∈ c1Site.GnssAntennas,
      ∃ a ∈ mapSlice (tables sampleLess c1Input).installedAntenna c1Site.mark.Code,
      ∃ s ∈ mapSlice (tables sampleLess c1Input).sessions c1Site.mark.Code,
        antennaSession a
          (mapSlice (tables sampleLess c1Input).sessions c1Site.mark.Code) = some s ∧
        x.DateInstalled = sampleEnv.Format a.Start ∧
        x.DateRemoved = (if After t2026 a.End then sampleEnv.Format a.End else "") ∧
        overlaps a.Start a.End s.Start s.End = true ∧
        ((x.AntennaRadomeType = "NONE" ∧ x.RadomeSerialNumber = "") ∨
          ∃ v ∈ mapSlice (tables sampleLess c1Input).installedRadomes c1Site.mark.Code,
            overlaps v.Start v.End a.Start a.End = true ∧
            x.AntennaRadomeType = v.Model ∧ x.RadomeSerialNumber = v.Serial))) :=
  ⟨by decide,
    c1_interval_within_install_and_firmware sampleEnv sampleLess t2026 c1Input c1Site
      (by decide)⟩

/-- C2: at a station that passes the filter, with the one stored deployment `r`
from 2010-01-01 to 2015-01-01, the two stored firmware entries `f1` from
2009-01-01 to 2012-06-01 and `f2` from 2012-06-01 to 2020-01-01 (in either
stored order), one session `s` covering 2010-01-01 to 2015-01-01, a current time
after 2015-01-01 and a timestamp format that writes 2010-01-01 before
2012-06-01, the receiver list is exactly the record of `f1` from 2010-01-01 to
2012-06-01 followed by the record of `f2` from 2012-06-01 to 2015-01-01. -/
theorem c2_firmware_fan_out (env : Env) (now : Time) (T : Tables) (m : Mark) (sl : SiteLog)
    (r : DeployedReceiver) (f1 f2 : FirmwareHistory) (s : Session)
    (hsl : siteLog env now T m = some sl)
    (hdep : mapSlice T.deployedReceivers m.Code = [r])
    (hfw : firmwareOf T r = [f1, f2] ∨ firmwareOf T r = [f2, f1])
    (hss : mapSlice T.sessions m.Code = [s])
    (hr : r.Start = t2010 ∧ r.End = t2015)
    (hf1 : f1.Start = t2009 ∧ f1.End = t2012)
    (hf2 : f2.Start = t2012 ∧ f2.End = t2020)
    (hs : s.Start ≤ t2010 ∧ t2015 ≤ s.End)
    (hnow : t2015 < now)
    (hfmt : stringLess (env.Format t2010) (env.Format t2012) = true) :
    sl.GnssReceivers =
      [ { ReceiverType := r.Model
          SatelliteSystem := s.SatelliteSystem
          SerialNumber := r.Serial
          FirmwareVersion := f1.Version
          ElevationCutoffSetting := env.FormatFloat s.ElevationMask 'g' (-1)
          DateInstalled := env.Format t2010
          DateRemoved := env.Format t2012
          TemperatureStabilization := ""
          Notes := "" },
        { ReceiverType := r.Model
          SatelliteSystem := s.SatelliteSystem
          SerialNumber := r.Serial
          FirmwareVersion := f2.Version
          ElevationCutoffSetting := env.FormatFloat s.ElevationMask 'g' (-1)
          DateInstalled := env.Format t2012
          DateRemoved := env.Format t2015
          TemperatureStabilization := ""
          Notes := "" } ] := by
  obtain ⟨_, _, hrec, _, _⟩ := siteLog_some env now T m sl hsl
  obtain ⟨hr1, hr2⟩ := hr
  obtain ⟨hf11, hf12⟩ := hf1
  obtain ⟨hf21, hf22⟩ := hf2
  obtain ⟨hs1, hs2⟩ := hs
  have e1 : receiverSession r f1 [s] = some s := by
    apply receiverSession_single <;> simp only [hr1, hr2, hf11, hf12] <;>
      unfold t2009 t2010 t2012 t2015 at * <;> linarith
  have e2 : receiverSession r f2 [s] = some s := by
    apply receiverSession_single <;> simp only [hr1, hr2, hf21, hf22] <;>
      unfold t2010 t2012 t2015 t2020 at * <;> linarith
  have hlt : ¬ (env.Format t2012).data < (env.Format t2010).data := by
    have h := of_decide_eq_true hfmt
    exact fun h2 => lt_asymm h h2
  have hnl : stringLess (env.Format t2012) (env.Format t2010) = false := by
    unfold stringLess
    exact decide_eq_false hlt
  have hnow2 : t2012 < now := by unfold t2012 t2015 at *; linarith
  have hn1 : (1338508800 : Time) < now := hnow2
  have hn2 : (1420070400 : Time) < now := hnow
  have p1 : receiverPass env now [s] r f1 = some
      { ReceiverType := r.Model, SatelliteSystem := s.SatelliteSystem,
        SerialNumber := r.Serial, FirmwareVersion := f1.Version,
        ElevationCutoffSetting := env.FormatFloat s.ElevationMask 'g' (-1),
        DateInstalled := env.Format t2010, DateRemoved := env.Format t2012,
        TemperatureStabilization := "", Notes := "" } := by
    unfold receiverPass
    rw [e1]
    simp only [receiverRecord, clipStart, clipEnd, Before, After, hr1, hr2, hf11, hf12,
      hnow2, decide_True, if_true]
    simp [t2009, t2010, t2012, t2015, not_le.mpr hn1]
  have p2 : receiverPass env now [s] r f2 = some
      { ReceiverType := r.Model, SatelliteSystem := s.SatelliteSystem,
        SerialNumber := r.Serial, FirmwareVersion := f2.Version,
        ElevationCutoffSetting := env.FormatFloat s.ElevationMask 'g' (-1),
        DateInstalled := env.Format t2012, DateRemoved := env.Format t2015,
        TemperatureStabilization := "", Notes := "" } := by
    unfold receiverPass
    rw [e2]
    simp only [receiverRecord, clipStart, clipEnd, Before, After, hr1, hr2, hf21, hf22,
      hnow, decide_True, if_true]
    simp [t2010, t2012, t2015, t2020, not_le.mpr hn2]
  rw [hrec, receivers_eq, hdep]
  simp only [List.flatMap_cons, List.flatMap_nil, List.append_nil, receiverRecords, hss]
  rcases hfw with hfw | hfw
  · rw [hfw]
    simp [p1, p2, sortSort_short, insertionSort, sink, GnssReceivers.Less, hfmt, hnl]
  · rw [hfw]
    simp [p1, p2, sortSort_short, insertionSort, sink, GnssReceivers.Less, hfmt, hnl]

/-- C2, applied to `c2Input` with UTC timestamps and the current time
2026-01-01: the two receiver records run from 2010-01-01 to 2012-06-01 and from
2012-06-01 to 2015-01-01. -/
theorem c2_firmware_fan_out_witness :
    main sampleEnv sampleLess t2026 c2Input = [c2Site] ∧
    c2Site.GnssReceivers =
      [ { ReceiverType := "NETR9"
          SatelliteSystem := "GPS+GLO"
          SerialNumber := "1"
          FirmwareVersion := "4.17"
          ElevationCutoffSetting := "5"
          DateInstalled := "2010-01-01T00:00Z"
          DateRemoved := "2012-06-01T00:00Z"
          TemperatureStabilization := ""
          Notes := "" },
        { ReceiverType := "NETR9"
          SatelliteSystem := "GPS+GLO"
          SerialNumber := "1"
          FirmwareVersion := "4.85"
          ElevationCutoffSetting := "5"
          DateInstalled := "2012-06-01T00:00Z"
          DateRemoved := "2015-01-01T00:00Z"
          TemperatureStabilization := ""
          Notes := "" } ] :=
  ⟨by decide,
    c2_firmware_fan_out sampleEnv t2026 (tables sampleLess c2Input) markA c2Site c1Receiver
      c2Firmware1 c2Firmware2 c2Session (by decide) (by decide) (by decide) (by decide)
      (by decide) (by decide) (by decide) (by decide) (by decide) (by decide)⟩

/-- C3: in every station value the engine emits, whatever the input lists and
their order, the antenna list and the receiver list are in ascending order of
the string `DateInstalled`; and when the format of instants is strictly
increasing on the starts of the antenna installs that give a record, and on
the clipped starts of the pairs of deployment and firmware entry that give a
record, the antenna list holds the records of a rearrangement of those
installs that is ascending in `Start`, and the receiver list holds the records
of a rearrangement of those pairs that is ascending in the clipped start. -/
theorem c3_lists_ascending_by_installed (env : Env) (L : MetaLess) (now : Time)
    (inp : Input) (sl : SiteLog) (hsl : sl ∈ main env L now inp)
    (hant : ∀ a ∈ antennaSources (tables L inp) sl.mark,
      ∀ b ∈ antennaSources (tables L inp) sl.mark, a.Start < b.Start →
        stringLess (env.Format a.Start) (env.Format b.Start) = true)
    (hrec : ∀ p ∈ receiverSources (tables L inp) sl.mark,
      ∀ q ∈ receiverSources (tables L inp) sl.mark,
        clipStart p.1 p.2.1 < clipStart q.1 q.2.1 →
          stringLess (env.Format (clipStart p.1 p.2.1))
            (env.Format (clipStart q.1 q.2.1)) = true) :
    sl.GnssAntennas.Pairwise (fun a b => a.DateInstalled ≤ b.DateInstalled) ∧
    sl.GnssReceivers.Pairwise (fun a b => a.DateInstalled ≤ b.DateInstalled) ∧
    (∃ installs : List InstalledAntenna,
      installs.Perm (antennaSources (tables L inp) sl.mark) ∧
      sl.GnssAntennas = installs.map
        (fun a => antennaRecord env now a (radomeOf (tables L inp) sl.mark.Code a).1
          (radomeOf (tables L inp) sl.mark.Code a).2) ∧
      installs.Pairwise (fun a b => a.Start ≤ b.Start)) ∧
    (∃ passes : List (DeployedReceiver × FirmwareHistory × Session),
      passes.Perm (receiverSources (tables L inp) sl.mark) ∧
      sl.GnssReceivers = passes.map (fun p => receiverRecord env now p.1 p.2.1 p.2.2) ∧
      passes.Pairwise (fun p q => clipStart p.1 p.2.1 ≤ clipStart q.1 q.2.1)) := by
  obtain ⟨m, _, hm⟩ := (mem_main env L now inp sl).mp hsl
  obtain ⟨hmark, _, hr, ha, _⟩ := siteLog_some env now _ m sl hm
  rw [hmark] at hant hrec ⊢
  rw [hr, ha]
  refine ⟨sortSort_antennas_ascending _, sortSort_receivers_ascending _, ?_, ?_⟩
  · rw [antennas_eq_sources]
    exact sortSort_sources GnssAntennas.Less (fun x => x.DateInstalled)
      (fun a b => stringLess_iff a.DateInstalled b.DateInstalled) _
      (fun a : InstalledAntenna => a.Start) env.Format (fun _ => rfl) _ hant
  · rw [receivers_eq_sources]
    exact sortSort_sources GnssReceivers.Less (fun x => x.DateInstalled)
      (fun a b => stringLess_iff a.DateInstalled b.DateInstalled) _
      (fun p : DeployedReceiver × FirmwareHistory × Session => clipStart p.1 p.2.1)
      env.Format (fun _ => rfl) _ hrec

/-- C3, applied to the station of `c2Input`, whose two receiver records are
produced latest first and emitted earliest first. -/
theorem c3_lists_ascending_by_installed_witness :
    c2Site ∈ main sampleEnv sampleLess t2026 c2Input ∧
    receiverSources (tables sampleLess c2Input) c2Site.mark =
      [(c1Receiver, c2Firmware2, c2Session), (c1Receiver, c2Firmware1, c2Session)] ∧
    (c2Site.GnssAntennas.Pairwise (fun a b => a.DateInstalled ≤ b.DateInstalled) ∧
    c2Site.GnssReceivers.Pairwise (fun a b => a.DateInstalled ≤ b.DateInstalled) ∧
    (∃ installs : List InstalledAntenna,
      installs.Perm (antennaSources (tables sampleLess c2Input) c2Site.mark) ∧
      c2Site.GnssAntennas = installs.map
        (fun a => antennaRecord sampleEnv t2026 a
          (radomeOf (tables sampleLess c2Input) c2Site.mark.Code a).1
          (radomeOf (tables sampleLess c2Input) c2Site.mark.Code a).2) ∧
      installs.Pairwise (fun a b => a.Start ≤ b.Start)) ∧
    (∃ passes : List (DeployedReceiver × FirmwareHistory × Session),
      passes.Perm (receiverSources (tables sampleLess c2Input) c2Site.mark) ∧
      c2Site.GnssReceivers =
        passes.map (fun p => receiverRecord sampleEnv t2026 p.1 p.2.1 p.2.2) ∧
      passes.Pairwise (fun p q => clipStart p.1 p.2.1 ≤ clipStart q.1 q.2.1))) :=
  ⟨by decide, by decide,
    c3_lists_ascending_by_installed sampleEnv sampleLess t2026 c2Input c2Site (by decide)
      (by decide) (by decide)⟩

/-- C4: a pass of the station loop produces a station value exactly when the
code of the mark has a monument, a session, an antenna install and a receiver
deployment in the loaded lists, nothing else being asked of the equipment
records; and the marks of the values produced are exactly the marks of the
station list that meet the condition, each once and in list order. -/
theorem c4_station_emitted_iff_minimum_data (env : Env) (L : MetaLess) (now : Time)
    (inp : Input) :
    (∀ m, (siteLog env now (tables L inp) m).isSome = hasMinimumData inp m) ∧
    (main env L now inp).map (fun sl => sl.mark) =
      inp.markList.filter (hasMinimumData inp) := by
  refine ⟨siteLog_isSome_tables env L now inp, ?_⟩
  unfold main
  rw [map_mark_filterMap_siteLog]
  congr 1
  funext m
  exact siteLog_isSome_tables env L now inp m

/-- C5: with a timestamp format that never writes the empty string, every
receiver record of an emitted station is the record of a deployment `r`, a
firmware entry `v` and a session `s` whose removed field is empty exactly when
the clipped end `clipEnd r v` is not before `now`, and is the formatted clipped
end otherwise; every antenna record is the record of an install `a` whose
removed field is empty exactly when `a.End` is not before `now`, and is the
formatted `a.End` otherwise. -/
theorem c5_removed_empty_iff_end_not_past (env : Env) (L : MetaLess) (now : Time)
    (inp : Input) (sl : SiteLog) (hfmt : ∀ t, env.Format t ≠ "")
    (hsl : sl ∈ main env L now inp) :
    (∀ x ∈ sl.GnssReceivers,
      ∃ r ∈ mapSlice (tables L inp).deployedReceivers sl.mark.Code,
      ∃ v ∈ firmwareOf (tables L inp) r,
      ∃ s ∈ mapSlice (tables L inp).sessions sl.mark.Code,
        x = receiverRecord env now r v s ∧
        (x.DateRemoved = "" ↔ ¬ Before (clipEnd r v) now = true) ∧
        (Before (clipEnd r v) now = true → x.DateRemoved = env.Format (clipEnd r v))) ∧
    (∀ x ∈ sl.GnssAntennas,
      ∃ a ∈ mapSlice (tables L inp).installedAntenna sl.mark.Code,
        x = antennaRecord env now a x.AntennaRadomeType x.RadomeSerialNumber ∧
        (x.DateRemoved = "" ↔ ¬ Before a.End now = true) ∧
        (Before a.End now = true → x.DateRemoved = env.Format a.End)) := by
  obtain ⟨m, _, hm⟩ := (mem_main env L now inp sl).mp hsl
  obtain ⟨hmark, _, hrec, hant, _⟩ := siteLog_some env now _ m sl hm
  rw [hmark, hrec, hant]
  constructor
  · intro x hx
    rw [mem_sortSort] at hx
    obtain ⟨r, hr, v, hv, s, hs, _, hxs, _, _, _⟩ := receivers_sources env now _ m x hx
    refine ⟨r, hr, v, hv, s, hs, hxs, ?_, ?_⟩
    · rw [hxs]
      unfold receiverRecord After Before
      by_cases h : clipEnd r v < now
      · simp [h, hfmt]
      · simp [h]
    · intro h
      rw [hxs]
      unfold receiverRecord After
      unfold Before at h
      simp only [h, if_true]
  · intro x hx
    rw [mem_sortSort] at hx
    obtain ⟨a, ha, s, _, _, hxa, _⟩ := antennas_sources env now _ m x hx
    refine ⟨a, ha, ?_, ?_, ?_⟩
    · rw [hxa]; rfl
    · rw [hxa]
      unfold antennaRecord After Before
      by_cases h : a.End < now
      · simp [h, hfmt]
      · simp [h]
    · intro h
      rw [hxa]
      unfold antennaRecord After
      unfold Before at h
      simp only [h, if_true]

/-- C5, applied to `c2Input` with the current time 2013-01-01: the first
receiver record is closed at 2012-06-01 and the other records are open. -/
theorem c5_removed_empty_iff_end_not_past_witness :
    ((∀ t, sampleEnv.Format t ≠ "") ∧ c5Site ∈ main sampleEnv sampleLess t2013 c2Input) ∧
    ((∀ x ∈ c5Site.GnssReceivers,
      ∃ r ∈ mapSlice (tables sampleLess c2Input).deployedReceivers c5Site.mark.Code,
      ∃ v ∈ firmwareOf (tables sampleLess c2Input) r,
      ∃ s ∈ mapSlice (tables sampleLess c2Input).sessions c5Site.mark.Code,
        x = receiverRecord sampleEnv t2013 r v s ∧
        (x.DateRemoved = "" ↔ ¬ Before (clipEnd r v) t2013 = true) ∧
        (Before (clipEnd r v) t2013 = true →
          x.DateRemoved = sampleEnv.Format (clipEnd r v))) ∧
    (∀ x ∈ c5Site.GnssAntennas,
      ∃ a ∈ mapSlice (tables sampleLess c2Input).installedAntenna c5Site.mark.Code,
        x = antennaRecord sampleEnv t2013 a x.AntennaRadomeType x.RadomeSerialNumber ∧
        (x.DateRemoved = "" ↔ ¬ Before a.End t2013 = true) ∧
        (Before a.End t2013 = true → x.DateRemoved = sampleEnv.Format a.End))) :=
  ⟨⟨utcFormat_ne_empty, by decide⟩,
    c5_removed_empty_iff_end_not_past sampleEnv sampleLess t2013 c2Input c5Site
      utcFormat_ne_empty (by decide)⟩

/-- C6: the pass of the deployment loop for `r` appends `receiverRecords`; it
appends nothing when no firmware entry is stored for the model and serial of
`r`; and the appended records correspond one to one, in order, to the stored
firmware entries `v` of that model and serial, taken last-listed first, whose
interval overlaps the interval of `r` and for which some session of the
station overlaps both `r` and `v`: the record of `v` carries the version of
`v` and the model and serial of `r`. -/
theorem c6_one_record_per_overlapping_firmware (env : Env) (now : Time) (T : Tables)
    (m : Mark) (acc : List GnssReceiver) (r : DeployedReceiver) :
    receiversPass env now T m acc r = acc ++ receiverRecords env now T m r ∧
    (firmwareOf T r = [] → receiverRecords env now T m r = []) ∧
    List.Forall₂
      (fun v x =>
        x.FirmwareVersion = v.Version ∧ x.ReceiverType = r.Model ∧
        x.SerialNumber = r.Serial ∧
        ∃ s, receiverSession r v (mapSlice T.sessions m.Code) = some s ∧
          x = receiverRecord env now r v s)
      ((firmwareOf T r).reverse.filter
        (fun v => overlaps v.Start v.End r.Start r.End &&
          (mapSlice T.sessions m.Code).any
            (fun s => overlaps r.Start r.End s.Start s.End &&
              overlaps v.Start v.End s.Start s.End)))
      (receiverRecords env now T m r) := by
  refine ⟨receiversPass_eq env now T m acc r, ?_, ?_⟩
  · intro h
    simp [receiverRecords, h]
  · unfold receiverRecords
    apply forall₂_filter_filterMap
    · intro v hv
      rw [Bool.and_eq_true, ← receiverSession_isSome] at hv
      obtain ⟨s, hs⟩ := Option.isSome_iff_exists.mp hv.2
      refine ⟨receiverRecord env now r v s, ?_, rfl, rfl, rfl, s, hs, rfl⟩
      exact (receiverPass_some env now _ r v _).mpr ⟨hv.1, s, hs, rfl⟩
    · intro v hv
      cases hp : receiverPass env now (mapSlice T.sessions m.Code) r v with
      | none => rfl
      | some x =>
        obtain ⟨hov, s, hs, _⟩ := (receiverPass_some env now _ r v x).mp hp
        rw [← receiverSession_isSome, hov, hs] at hv
        simp at hv

/-- C7: when the sessions of the station are `pre ++ s :: post`, no session of
`pre` overlaps both the deployment `r` and the firmware entry `v`, and `s`
overlaps both, the session found for `r` and `v` is `s`, whatever `post`
holds; the record of `r` and `v` then has the satellite system of `s` and the
formatted elevation mask of `s`. -/
theorem c7_first_session_in_stored_order (env : Env) (now : Time) (r : DeployedReceiver)
    (v : FirmwareHistory) (pre post : List Session) (s : Session)
    (hov : overlaps v.Start v.End r.Start r.End = true)
    (hpre : ∀ t ∈ pre, (overlaps r.Start r.End t.Start t.End &&
      overlaps v.Start v.End t.Start t.End) = false)
    (hs : (overlaps r.Start r.End s.Start s.End &&
      overlaps v.Start v.End s.Start s.End) = true) :
    receiverSession r v (pre ++ s :: post) = some s ∧
    ∃ x, receiverPass env now (pre ++ s :: post) r v = some x ∧
      x.SatelliteSystem = s.SatelliteSystem ∧
      x.ElevationCutoffSetting = env.FormatFloat s.ElevationMask 'g' (-1) := by
  have hfind : receiverSession r v (pre ++ s :: post) = some s := by
    rw [receiverSession_eq_find]
    exact find?_append_cons_first _ pre post s hpre hs
  refine ⟨hfind, receiverRecord env now r v s, ?_, rfl, rfl⟩
  exact (receiverPass_some env now _ r v _).mpr ⟨hov, s, hfind, rfl⟩

/-- C7, applied to three sessions: the first misses the firmware entry, the
second overlaps deployment and entry for seven months, the third covers both
entirely; the record takes the system and mask of the second. -/
theorem c7_first_session_in_stored_order_witness :
    receiverSession c1Receiver c2Firmware2 ([c7Early] ++ c7Short :: [c2Session]) =
      some c7Short ∧
    ∃ x, receiverPass sampleEnv t2026 ([c7Early] ++ c7Short :: [c2Session]) c1Receiver
        c2Firmware2 = some x ∧
      x.SatelliteSystem = c7Short.SatelliteSystem ∧
      x.ElevationCutoffSetting = sampleEnv.FormatFloat c7Short.ElevationMask 'g' (-1) :=
  c7_first_session_in_stored_order sampleEnv t2026 c1Receiver c2Firmware2 [c7Early]
    [c2Session] c7Short (by decide) (by decide) (by decide)

/-- C8: before the sort, the antenna slice holds exactly the records of the
stored installs of the station whose interval overlaps at least one session of
the station, one record each and in stored order; the record of install `a` has
the formatted `a.Start` as installed date and takes its removed date from
`a.End`, whatever the session; an install that overlaps no session adds
nothing; and the emitted list is a rearrangement of that slice. -/
theorem c8_one_antenna_record_per_install_with_session (env : Env) (now : Time)
    (T : Tables) (m : Mark) :
    antennas env now T m =
      ((mapSlice T.installedAntenna m.Code).filter
        (fun a => (mapSlice T.sessions m.Code).any
          (fun s => overlaps a.Start a.End s.Start s.End))).map
        (fun a => antennaRecord env now a (radomeOf T m.Code a).1 (radomeOf T m.Code a).2) ∧
    (∀ a radome serial,
      (antennaRecord env now a radome serial).DateInstalled = env.Format a.Start ∧
      (antennaRecord env now a radome serial).DateRemoved =
        (if After now a.End then env.Format a.End else "")) ∧
    (∀ acc a,
      (mapSlice T.sessions m.Code).any
          (fun s => overlaps a.Start a.End s.Start s.End) = false →
        antennasPass env now T m acc a = acc) ∧
    (∀ sl, siteLog env now T m = some sl →
      sl.GnssAntennas.Perm (antennas env now T m)) := by
  refine ⟨?_, fun a radome serial => ⟨rfl, rfl⟩, ?_, ?_⟩
  · rw [antennas_eq]
    congr 2
    funext a
    exact antennaSession_isSome a _
  · intro acc a h
    rw [← antennaSession_isSome] at h
    unfold antennasPass
    cases hs : antennaSession a (mapSlice T.sessions m.Code) with
    | none => rfl
    | some s => rw [hs] at h; simp at h
  · intro sl hsl
    rw [(siteLog_some env now T m sl hsl).2.2.2.1]
    exact sortSort_perm _ _

/-- C9: when the stored radomes of the station are `pre ++ v :: post`, the
interval of `v` overlaps the interval of the antenna install `a` and no radome
of `post` does, the radome pair of `a` is the model and serial of `v`, whatever
`pre` holds; the pass for `a`, when `a` has a session, appends a record whose
radome model and radome serial are those of `v`. -/
theorem c9_radome_is_last_overlapping (env : Env) (now : Time) (T : Tables) (m : Mark)
    (acc : List GnssAntenna) (a : InstalledAntenna) (pre post : List InstalledRadome)
    (v : InstalledRadome)
    (hsplit : mapSlice T.installedRadomes m.Code = pre ++ v :: post)
    (hv : overlaps v.Start v.End a.Start a.End = true)
    (hpost : ∀ w ∈ post, overlaps w.Start w.End a.Start a.End = false)
    (hsess : (antennaSession a (mapSlice T.sessions m.Code)).isSome = true) :
    radomeOf T m.Code a = (v.Model, v.Serial) ∧
    ∃ x, antennasPass env now T m acc a = acc ++ [x] ∧
      x = antennaRecord env now a v.Model v.Serial ∧
      x.AntennaRadomeType = v.Model ∧ x.RadomeSerialNumber = v.Serial := by
  have h := radomeOf_last T m.Code a pre post v hsplit hv hpost
  refine ⟨h, antennaRecord env now a v.Model v.Serial, ?_, rfl, rfl, rfl⟩
  rw [antennasPass_some env now T m acc a hsess, h]

/-- C9, applied to the station of `c9Input`: of the three stored radomes the
first two overlap the antenna and the third does not; the record carries the
second. -/
theorem c9_radome_is_last_overlapping_witness :
    mapSlice (tables sampleLess c9Input).installedRadomes markA.Code =
      [c9Radome1] ++ c1Radome :: [c9Radome3] ∧
    overlaps c9Radome1.Start c9Radome1.End c1Antenna.Start c1Antenna.End = true ∧
    (radomeOf (tables sampleLess c9Input) markA.Code c1Antenna =
        (c1Radome.Model, c1Radome.Serial) ∧
      ∃ x, antennasPass sampleEnv t2026 (tables sampleLess c9Input) markA [] c1Antenna =
          [] ++ [x] ∧
        x = antennaRecord sampleEnv t2026 c1Antenna c1Radome.Model c1Radome.Serial ∧
        x.AntennaRadomeType = c1Radome.Model ∧ x.RadomeSerialNumber = c1Radome.Serial) :=
  ⟨by decide, by decide,
    c9_radome_is_last_overlapping sampleEnv t2026 (tables sampleLess c9Input) markA []
      c1Antenna [c9Radome1] [c9Radome3] c1Radome (by decide) (by decide) (by decide)
      (by decide)⟩

/-- C10: when no stored radome of the station has an interval that overlaps
the interval of the antenna install `a`, which includes a station with no
radome at all, the radome pair of `a` is `NONE` and the empty string; the pass
for `a`, when `a` has a session, appends a record whose radome model is `NONE`
and whose radome serial is empty. -/
theorem c10_radome_fallback (env : Env) (now : Time) (T : Tables) (m : Mark)
    (acc : List GnssAntenna) (a : InstalledAntenna)
    (hnone : ∀ w ∈ mapSlice T.installedRadomes m.Code,
      overlaps w.Start w.End a.Start a.End = false)
    (hsess : (antennaSession a (mapSlice T.sessions m.Code)).isSome = true) :
    radomeOf T m.Code a = ("NONE", "") ∧
    ∃ x, antennasPass env now T m acc a = acc ++ [x] ∧
      x = antennaRecord env now a "NONE" "" ∧
      x.AntennaRadomeType = "NONE" ∧ x.RadomeSerialNumber = "" := by
  have h := radomeOf_none T m.Code a hnone
  refine ⟨h, antennaRecord env now a "NONE" "", ?_, rfl, rfl, rfl⟩
  rw [antennasPass_some env now T m acc a hsess, h]

/-- C10, applied to the station of `c10Input`, whose one radome was installed
after the antenna was removed, and to the station of `c2Input`, which has no
radome. -/
theorem c10_radome_fallback_witness :
    (mapSlice (tables sampleLess c10Input).installedRadomes markA.Code = [c9Radome3] ∧
      radomeOf (tables sampleLess c10Input) markA.Code c1Antenna = ("NONE", "") ∧
      ∃ x, antennasPass sampleEnv t2026 (tables sampleLess c10Input) markA [] c1Antenna =
          [] ++ [x] ∧
        x = antennaRecord sampleEnv t2026 c1Antenna "NONE" "" ∧
        x.AntennaRadomeType = "NONE" ∧ x.RadomeSerialNumber = "") ∧
    (mapGet (tables sampleLess c2Input).installedRadomes markA.Code = none ∧
      radomeOf (tables sampleLess c2Input) markA.Code c1Antenna = ("NONE", "") ∧
      ∃ x, antennasPass sampleEnv t2026 (tables sampleLess c2Input) markA [] c1Antenna =
          [] ++ [x] ∧
        x = antennaRecord sampleEnv t2026 c1Antenna "NONE" "" ∧
        x.AntennaRadomeType = "NONE" ∧ x.RadomeSerialNumber = "") :=
  ⟨⟨by decide,
      c10_radome_fallback sampleEnv t2026 (tables sampleLess c10Input) markA [] c1Antenna
        (by decide) (by decide)⟩,
    ⟨by decide,
      c10_radome_fallback sampleEnv t2026 (tables sampleLess c2Input) markA [] c1Antenna
        (by decide) (by decide)⟩⟩

/-- C11: the met-sensor list of an emitted station holds exactly one record
for each stored met-sensor install of the reference code of the mark whose
interval overlaps at least one session of that reference code, in stored
order; the stored installs of the reference code are the loaded installs filed
under it; each record carries the make, model and serial of its install with
the sampling interval `360 sec` and the effective dates
`2000-02-05/CCYY-MM-DD`. -/
theorem c11_met_sensor_records (env : Env) (L : MetaLess) (now : Time) (inp : Input)
    (sl : SiteLog) (hsl : sl ∈ main env L now inp) :
    sl.GnssMetSensors =
      ((mapSlice (tables L inp).installedMetSensors sl.mark.ReferenceCode).filter
        (fun ms => (mapSlice (tables L inp).sessions sl.mark.ReferenceCode).any
          (fun s => overlaps ms.Start ms.End s.Start s.End))).map metsensorRecord ∧
    (mapSlice (tables L inp).installedMetSensors sl.mark.ReferenceCode).Perm
      (inp.installedMetSensorList.filter
        (fun ms => decide (ms.MarkCode = sl.mark.ReferenceCode))) ∧
    mapSlice (tables L inp).sessions sl.mark.ReferenceCode =
      inp.sessionList.filter (fun s => decide (s.MarkCode = sl.mark.ReferenceCode)) ∧
    ∀ ms, (metsensorRecord ms).Manufacturer = ms.Make ∧
      (metsensorRecord ms).MetSensorModel = ms.Model ∧
      (metsensorRecord ms).SerialNumber = ms.Serial ∧
      (metsensorRecord ms).DataSamplingInterval = "360 sec" ∧
      (metsensorRecord ms).EffectiveDates = "2000-02-05/CCYY-MM-DD" := by
  obtain ⟨m, _, hm⟩ := (mem_main env L now inp sl).mp hsl
  obtain ⟨hmark, _, _, _, hmet⟩ := siteLog_some env now _ m sl hm
  rw [hmark, hmet, metsensors_eq]
  refine ⟨?_, ?_, ?_, fun ms => ⟨rfl, rfl, rfl, rfl, rfl⟩⟩
  · congr 1
    apply List.filter_congr
    intro ms hms
    rw [mem_installedMetSensors_key L inp.installedMetSensorList m.ReferenceCode ms hms]
  · show (mapSlice (installedMetSensors L inp.installedMetSensorList) m.ReferenceCode).Perm _
    unfold installedMetSensors
    rw [mapSlice_mapValues_group _ (sortSort_nil _)]
    exact sortSort_perm _ _
  · exact mapSlice_group _ _ _

/-- C11, applied to mark `BBBB` of `c11Input`, whose reference is `AAAA`: the
sensor that overlaps the session of `AAAA` is kept and the sensor that only
overlaps the session of `BBBB` is dropped. -/
theorem c11_met_sensor_records_witness :
    c11SiteB ∈ main sampleEnv sampleLess t2026 c11Input ∧
    (c11SiteB.GnssMetSensors =
      ((mapSlice (tables sampleLess c11Input).installedMetSensors
          c11SiteB.mark.ReferenceCode).filter
        (fun ms => (mapSlice (tables sampleLess c11Input).sessions
            c11SiteB.mark.ReferenceCode).any
          (fun s => overlaps ms.Start ms.End s.Start s.End))).map metsensorRecord ∧
    (mapSlice (tables sampleLess c11Input).installedMetSensors
        c11SiteB.mark.ReferenceCode).Perm
      (c11Input.installedMetSensorList.filter
        (fun ms => decide (ms.MarkCode = c11SiteB.mark.ReferenceCode))) ∧
    mapSlice (tables sampleLess c11Input).sessions c11SiteB.mark.ReferenceCode =
      c11Input.sessionList.filter
        (fun s => decide (s.MarkCode = c11SiteB.mark.ReferenceCode)) ∧
    ∀ ms, (metsensorRecord ms).Manufacturer = ms.Make ∧
      (metsensorRecord ms).MetSensorModel = ms.Model ∧
      (metsensorRecord ms).SerialNumber = ms.Serial ∧
      (metsensorRecord ms).DataSamplingInterval = "360 sec" ∧
      (metsensorRecord ms).EffectiveDates = "2000-02-05/CCYY-MM-DD") :=
  ⟨by decide,
    c11_met_sensor_records sampleEnv sampleLess t2026 c11Input c11SiteB (by decide)⟩

/-- C12: every record of an emitted station has a session in the session list
consulted for it whose interval overlaps the interval of the record: for a
receiver record of deployment `r` and firmware entry `v`, a session of the
mark code overlaps `[clipStart r v, clipEnd r v]`; for an antenna record of
install `a`, a session of the mark code overlaps the interval of `a`; for a
met-sensor record of install `ms`, a session of the reference code overlaps
the interval of `ms`. -/
theorem c12_every_record_has_overlapping_session (env : Env) (L : MetaLess) (now : Time)
    (inp : Input) (sl : SiteLog) (hsl : sl ∈ main env L now inp) :
    (∀ x ∈ sl.GnssReceivers,
      ∃ r ∈ mapSlice (tables L inp).deployedReceivers sl.mark.Code,
      ∃ v ∈ firmwareOf (tables L inp) r,
      ∃ s ∈ mapSlice (tables L inp).sessions sl.mark.Code,
        x = receiverRecord env now r v s ∧
        overlaps (clipStart r v) (clipEnd r v) s.Start s.End = true) ∧
    (∀ x ∈ sl.GnssAntennas,
      ∃ a ∈ mapSlice (tables L inp).installedAntenna sl.mark.Code,
      ∃ s ∈ mapSlice (tables L inp).sessions sl.mark.Code,
        x = antennaRecord env now a x.AntennaRadomeType x.RadomeSerialNumber ∧
        overlaps a.Start a.End s.Start s.End = true) ∧
    (∀ x ∈ sl.GnssMetSensors,
      ∃ ms ∈ mapSlice (tables L inp).installedMetSensors sl.mark.ReferenceCode,
      ∃ s ∈ mapSlice (tables L inp).sessions sl.mark.ReferenceCode,
        x = metsensorRecord ms ∧
        overlaps ms.Start ms.End s.Start s.End = true) := by
  obtain ⟨m, _, hm⟩ := (mem_main env L now inp sl).mp hsl
  obtain ⟨hmark, _, hrec, hant, hmet⟩ := siteLog_some env now _ m sl hm
  rw [hmark, hrec, hant, hmet]
  refine ⟨?_, ?_, ?_⟩
  · intro x hx
    rw [mem_sortSort] at hx
    obtain ⟨r, hr, v, hv, s, hs, _, hxs, _, hrs, hvs⟩ := receivers_sources env now _ m x hx
    exact ⟨r, hr, v, hv, s, hs, hxs, overlaps_clip r v s hrs hvs⟩
  · intro x hx
    rw [mem_sortSort] at hx
    obtain ⟨a, ha, s, hs, _, hxa, has⟩ := antennas_sources env now _ m x hx
    refine ⟨a, ha, s, hs, ?_, has⟩
    rw [hxa]; rfl
  · intro x hx
    obtain ⟨ms, hms, s, hs, hxm, hov⟩ := metsensors_sources _ m x hx
    have hkey := mem_installedMetSensors_key L inp.installedMetSensorList m.ReferenceCode
      ms hms
    rw [hkey] at hs
    exact ⟨ms, hms, s, hs, hxm, hov⟩

/-- C12, applied to mark `AAAA` of `c11Input`, which has one record of each
kind. -/
theorem c12_every_record_has_overlapping_session_witness :
    c12SiteA ∈ main sampleEnv sampleLess t2026 c11Input ∧
    ((∀ x ∈ c12SiteA.GnssReceivers,
      ∃ r ∈ mapSlice (tables sampleLess c11Input).deployedReceivers c12SiteA.mark.Code,
      ∃ v ∈ firmwareOf (tables sampleLess c11Input) r,
      ∃ s ∈ mapSlice (tables sampleLess c11Input).sessions c12SiteA.mark.Code,
        x = receiverRecord sampleEnv t2026 r v s ∧
        overlaps (clipStart r v) (clipEnd r v) s.Start s.End = true) ∧
    (∀ x ∈ c12SiteA.GnssAntennas,
      ∃ a ∈ mapSlice (tables sampleLess c11Input).installedAntenna c12SiteA.mark.Code,
      ∃ s ∈ mapSlice (tables sampleLess c11Input).sessions c12SiteA.mark.Code,
        x = antennaRecord sampleEnv t2026 a x.AntennaRadomeType x.RadomeSerialNumber ∧
        overlaps a.Start a.End s.Start s.End = true) ∧
    (∀ x ∈ c12SiteA.GnssMetSensors,
      ∃ ms ∈ mapSlice (tables sampleLess c11Input).installedMetSensors
          c12SiteA.mark.ReferenceCode,
      ∃ s ∈ mapSlice (tables sampleLess c11Input).sessions c12SiteA.mark.ReferenceCode,
        x = metsensorRecord ms ∧
        overlaps ms.Start ms.End s.Start s.End = true)) :=
  ⟨by decide,
    c12_every_record_has_overlapping_session sampleEnv sampleLess t2026 c11Input c12SiteA
      (by decide)⟩

/-- C13: for a mark `m`, two inputs that have the same firmware list, the same
monuments, antenna installs, receiver deployments and radome installs of the
code of `m`, the same met-sensor installs of the reference code of `m` and the
same sessions of both codes give, with the same environment and current time,
the same result for `m`: both skip it or both produce the same station value.
The records of every other code have no effect. -/
theorem c13_station_independence (env : Env) (L : MetaLess) (now : Time)
    (inp1 inp2 : Input) (m : Mark)
    (hfw : inp1.firmwareHistoryList = inp2.firmwareHistoryList)
    (hmon : inp1.monumentList.filter (fun x => decide (x.MarkCode = m.Code)) =
      inp2.monumentList.filter (fun x => decide (x.MarkCode = m.Code)))
    (hses : inp1.sessionList.filter (fun x => decide (x.MarkCode = m.Code)) =
      inp2.sessionList.filter (fun x => decide (x.MarkCode = m.Code)))
    (href : inp1.sessionList.filter (fun x => decide (x.MarkCode = m.ReferenceCode)) =
      inp2.sessionList.filter (fun x => decide (x.MarkCode = m.ReferenceCode)))
    (hant : inp1.installedAntennaList.filter (fun x => decide (x.MarkCode = m.Code)) =
      inp2.installedAntennaList.filter (fun x => decide (x.MarkCode = m.Code)))
    (hrec : inp1.deployedReceiverList.filter (fun x => decide (x.Mark = m.Code)) =
      inp2.deployedReceiverList.filter (fun x => decide (x.Mark = m.Code)))
    (hrad : inp1.installedRadomeList.filter (fun x => decide (x.MarkCode = m.Code)) =
      inp2.installedRadomeList.filter (fun x => decide (x.MarkCode = m.Code)))
    (hmet : inp1.installedMetSensorList.filter
        (fun x => decide (x.MarkCode = m.ReferenceCode)) =
      inp2.installedMetSensorList.filter
        (fun x => decide (x.MarkCode = m.ReferenceCode))) :
    siteLog env now (tables L inp1) m = siteLog env now (tables L inp2) m := by
  apply siteLog_congr
  · show firmwareHistory L inp1.firmwareHistoryList = firmwareHistory L inp2.firmwareHistoryList
    rw [hfw]
  · show mapGet (monuments inp1.monumentList) m.Code = mapGet (monuments inp2.monumentList) m.Code
    rw [mapGet_monuments, mapGet_monuments, hmon]
  · exact mapGet_sessions_congr _ _ _ hses
  · exact mapGet_group_congr _ _ _ _ _ hant
  · exact mapGet_group_congr _ _ _ _ _ hrec
  · exact mapGet_group_congr _ _ _ _ _ hrad
  · exact mapGet_group_congr _ _ _ _ _ hmet
  · exact mapGet_sessions_congr _ _ _ href
  · intro ms hms
    exact mem_installedMetSensors_key L inp1.installedMetSensorList m.ReferenceCode ms hms

/-- C13, applied to mark `AAAA` and the inputs `c11Input` and `c13Input`,
which differ in the records of mark `BBBB` only. -/
theorem c13_station_independence_witness :
    (c11Input.sessionList ≠ c13Input.sessionList ∧
      c11Input.installedRadomeList ≠ c13Input.installedRadomeList) ∧
    siteLog sampleEnv t2026 (tables sampleLess c11Input) markA = some c12SiteA ∧
    siteLog sampleEnv t2026 (tables sampleLess c11Input) markA =
      siteLog sampleEnv t2026 (tables sampleLess c13Input) markA :=
  ⟨by decide, by decide,
    c13_station_independence sampleEnv sampleLess t2026 c11Input c13Input markA
      (by decide) (by decide) (by decide) (by decide) (by decide) (by decide) (by decide)
      (by decide)⟩

/-- C14: for a deployment `r` and a firmware entry `v`, the local `start` is
the later of `r.Start` and `v.Start` and the local `end` is the earlier of
`r.End` and `v.End`; the record built from them has the formatted later start
as installed date and takes its removed date from the earlier end. -/
theorem c14_clip_is_max_start_min_end (env : Env) (now : Time) (r : DeployedReceiver)
    (v : FirmwareHistory) (s : Session) :
    clipStart r v = max r.Start v.Start ∧
    clipEnd r v = min r.End v.End ∧
    (receiverRecord env now r v s).DateInstalled = env.Format (max r.Start v.Start) ∧
    (receiverRecord env now r v s).DateRemoved =
      (if After now (min r.End v.End) then env.Format (min r.End v.End) else "") := by
  refine ⟨clipStart_eq_max r v, clipEnd_eq_min r v, ?_, ?_⟩
  · rw [← clipStart_eq_max]; rfl
  · rw [← clipEnd_eq_min]; rfl

/-- C15: each of the five overlap tests of the loops is the one predicate
`overlaps`, which holds exactly when neither interval ends before the other
starts: the met-sensor and antenna session searches return the first session
that overlaps the install, the radome scan ends on the last radome that
overlaps the antenna, a firmware pass is skipped unless the entry overlaps the
deployment, and the receiver session search returns the first session that
overlaps both the deployment and the entry. The predicate is symmetric, and
two intervals with start not after end, the first ending where the second
starts, overlap. -/
theorem c15_one_overlap_predicate :
    (∀ aStart aEnd bStart bEnd : Time,
      overlaps aStart aEnd bStart bEnd = true ↔ ¬ (aEnd < bStart ∨ bEnd < aStart)) ∧
    (∀ (m : InstalledMetSensor) (ss : List Session),
      metsensorSession m ss =
        ss.find? (fun s => overlaps m.Start m.End s.Start s.End)) ∧
    (∀ (a : InstalledAntenna) (ss : List Session),
      antennaSession a ss = ss.find? (fun s => overlaps a.Start a.End s.Start s.End)) ∧
    (∀ (a : InstalledAntenna) (radomes : List InstalledRadome),
      radomeScan a radomes =
        match radomes.reverse.find? (fun v => overlaps v.Start v.End a.Start a.End) with
        | none => ("NONE", "")
        | some v => (v.Model, v.Serial)) ∧
    (∀ (env : Env) (now : Time) (ss : List Session) (r : DeployedReceiver)
        (v : FirmwareHistory),
      receiverPass env now ss r v =
        if overlaps v.Start v.End r.Start r.End then
          (receiverSession r v ss).map (receiverRecord env now r v)
        else none) ∧
    (∀ (r : DeployedReceiver) (v : FirmwareHistory) (ss : List Session),
      receiverSession r v ss =
        ss.find? (fun s => overlaps r.Start r.End s.Start s.End &&
          overlaps v.Start v.End s.Start s.End)) ∧
    (∀ aStart aEnd bStart bEnd : Time,
      overlaps aStart aEnd bStart bEnd = overlaps bStart bEnd aStart aEnd) ∧
    (∀ aStart mid bEnd : Time, aStart ≤ mid → mid ≤ bEnd →
      overlaps aStart mid mid bEnd = true ∧ overlaps mid bEnd aStart mid = true) := by
  refine ⟨?_, metsensorSession_eq_find, antennaSession_eq_find, radomeScan_eq,
    receiverPass_eq, receiverSession_eq_find, ?_, ?_⟩
  · intro aStart aEnd bStart bEnd
    simp [overlaps]
  · intro aStart aEnd bStart bEnd
    unfold overlaps
    rw [Bool.or_comm]
  · intro aStart mid bEnd h1 h2
    rw [overlaps_iff, overlaps_iff]
    exact ⟨⟨le_refl mid, le_trans h1 h2⟩, ⟨le_trans h1 h2, le_refl mid⟩⟩

/-- C16, as stated, fails: for `c16Input` the receiver loop produces thirteen
records, the twelve records of the firmware entries that start on 2012-06-01
first (from version 4.92 down to version 4.81) and the record that starts on
2010-01-01 last; in the emitted list the twelve records are no longer in that
order: the record of version 4.86 comes first of them and the record of
version 4.91 last. -/
theorem c16_final_sort_reorders_equal_dates :
    receivers sampleEnv t2026 (tables sampleLess c16Input) markA = c16Resolved ∧
    (main sampleEnv sampleLess t2026 c16Input).map (fun sl => sl.GnssReceivers) =
      [c16Emitted] ∧
    c16Resolved.map (fun x => (x.FirmwareVersion, x.DateInstalled)) =
      [("4.92", "2012-06-01T00:00Z"), ("4.91", "2012-06-01T00:00Z"),
        ("4.90", "2012-06-01T00:00Z"), ("4.89", "2012-06-01T00:00Z"),
        ("4.88", "2012-06-01T00:00Z"), ("4.87", "2012-06-01T00:00Z"),
        ("4.86", "2012-06-01T00:00Z"), ("4.85", "2012-06-01T00:00Z"),
        ("4.84", "2012-06-01T00:00Z"), ("4.83", "2012-06-01T00:00Z"),
        ("4.82", "2012-06-01T00:00Z"), ("4.81", "2012-06-01T00:00Z"),
        ("4.17", "2010-01-01T00:00Z")] ∧
    c16Emitted.map (fun x => (x.FirmwareVersion, x.DateInstalled)) =
      [("4.17", "2010-01-01T00:00Z"), ("4.86", "2012-06-01T00:00Z"),
        ("4.90", "2012-06-01T00:00Z"), ("4.89", "2012-06-01T00:00Z"),
        ("4.88", "2012-06-01T00:00Z"), ("4.87", "2012-06-01T00:00Z"),
        ("4.92", "2012-06-01T00:00Z"), ("4.85", "2012-06-01T00:00Z"),
        ("4.84", "2012-06-01T00:00Z"), ("4.83", "2012-06-01T00:00Z"),
        ("4.82", "2012-06-01T00:00Z"), ("4.81", "2012-06-01T00:00Z"),
        ("4.91", "2012-06-01T00:00Z")] ∧
    c16Emitted.filter (fun x => decide (x.DateInstalled = "2012-06-01T00:00Z")) ≠
      c16Resolved.filter (fun x => decide (x.DateInstalled = "2012-06-01T00:00Z")) := by
  decide

/-- C16 (amended): in every emitted station value the receiver list and the
antenna list are rearrangements of the slices the loops produced, the receiver
slice being the records of the stored deployments in order and, within a
deployment, of the firmware entries last-listed first; when a slice has at
most twelve records, the records of any one installed date are emitted in the
order in which the loop produced them. -/
theorem c16_final_sort_keeps_order_of_short_lists (env : Env) (now : Time) (T : Tables)
    (m : Mark) (sl : SiteLog) (hsl : siteLog env now T m = some sl) :
    (sl.GnssReceivers.Perm (receivers env now T m) ∧
      receivers env now T m =
        (mapSlice T.deployedReceivers m.Code).flatMap
          (fun r => (firmwareOf T r).reverse.filterMap
            (receiverPass env now (mapSlice T.sessions m.Code) r)) ∧
      ((receivers env now T m).length ≤ 12 → ∀ d,
        sl.GnssReceivers.filter (fun x => decide (x.DateInstalled = d)) =
          (receivers env now T m).filter (fun x => decide (x.DateInstalled = d)))) ∧
    (sl.GnssAntennas.Perm (antennas env now T m) ∧
      ((antennas env now T m).length ≤ 12 → ∀ d,
        sl.GnssAntennas.filter (fun x => decide (x.DateInstalled = d)) =
          (antennas env now T m).filter (fun x => decide (x.DateInstalled = d)))) := by
  obtain ⟨_, _, hrec, hant, _⟩ := siteLog_some env now T m sl hsl
  rw [hrec, hant]
  refine ⟨⟨sortSort_perm _ _, receivers_eq env now T m, ?_⟩, ⟨sortSort_perm _ _, ?_⟩⟩
  · intro hlen d
    exact filter_sortSort (fun x : GnssReceiver => x.DateInstalled) _
      (fun a b h => stringLess_ne _ _ h) d _ hlen
  · intro hlen d
    exact filter_sortSort (fun x : GnssAntenna => x.DateInstalled) _
      (fun a b h => stringLess_ne _ _ h) d _ hlen

/-- C16 (amended), applied to the station of `c2Input`, whose two receiver
records are produced latest first. -/
theorem c16_final_sort_keeps_order_of_short_lists_witness :
    siteLog sampleEnv t2026 (tables sampleLess c2Input) markA = some c2Site ∧
    ((c2Site.GnssReceivers.Perm (receivers sampleEnv t2026 (tables sampleLess c2Input) markA) ∧
      receivers sampleEnv t2026 (tables sampleLess c2Input) markA =
        (mapSlice (tables sampleLess c2Input).deployedReceivers markA.Code).flatMap
          (fun r => (firmwareOf (tables sampleLess c2Input) r).reverse.filterMap
            (receiverPass sampleEnv t2026
              (mapSlice (tables sampleLess c2Input).sessions markA.Code) r)) ∧
      ((receivers sampleEnv t2026 (tables sampleLess c2Input) markA).length ≤ 12 → ∀ d,
        c2Site.GnssReceivers.filter (fun x => decide (x.DateInstalled = d)) =
          (receivers sampleEnv t2026 (tables sampleLess c2Input) markA).filter
            (fun x => decide (x.DateInstalled = d)))) ∧
    (c2Site.GnssAntennas.Perm (antennas sampleEnv t2026 (tables sampleLess c2Input) markA) ∧
      ((antennas sampleEnv t2026 (tables sampleLess c2Input) markA).length ≤ 12 → ∀ d,
        c2Site.GnssAntennas.filter (fun x => decide (x.DateInstalled = d)) =
          (antennas sampleEnv t2026 (tables sampleLess c2Input) markA).filter
            (fun x => decide (x.DateInstalled = d))))) :=
  ⟨by decide,
    c16_final_sort_keeps_order_of_short_lists sampleEnv t2026 (tables sampleLess c2Input)
      markA c2Site (by decide)⟩

/-- C17: for every session list and every code, the slice stored in `sessions`
for the code is the list of the sessions of that code in their input order,
and the code is a key of the map exactly when that list is not empty. -/
theorem c17_session_index_preserves_input_order (sessionList : List Session) (c : String) :
    mapSlice (sessions sessionList) c =
      sessionList.filter (fun s => decide (s.MarkCode = c)) ∧
    (mapGet (sessions sessionList) c = none ↔
      sessionList.filter (fun s => decide (s.MarkCode = c)) = []) ∧
    (mapGet (sessions sessionList) c = none ↔ ∀ s ∈ sessionList, s.MarkCode ≠ c) ∧
    (∀ ss, mapGet (sessions sessionList) c = some ss →
      ss = sessionList.filter (fun s => decide (s.MarkCode = c))) := by
  have hget := mapGet_foldl_mapAppend (fun s : Session => s.MarkCode) sessionList [] c
  have hnone : mapGet (sessions sessionList) c = none ↔
      sessionList.filter (fun s => decide (s.MarkCode = c)) = [] := by
    unfold sessions
    rw [hget]
    cases h : sessionList.filter (fun s => decide (s.MarkCode = c)) <;> simp [mapGet]
  refine ⟨mapSlice_group _ _ _, hnone, ?_, ?_⟩
  · rw [hnone, List.filter_eq_nil_iff]
    simp
  · intro ss hss
    unfold sessions at hss
    rw [hget] at hss
    cases h : sessionList.filter (fun s => decide (s.MarkCode = c)) with
    | nil => rw [h] at hss; simp [mapGet] at hss
    | cons x xs => rw [h] at hss; simpa using hss.symm

/-- C18, as stated, fails: of the thirteen antenna installs `c18AntennaList`,
all of code `AAAA`, the twelve that start on 2012-06-01 are listed with serials
1 to 12 in that order; in the group stored for `AAAA` they come in the order 7,
3, 4, 5, 6, 1, 8, 9, 10, 11, 12, 2 of their serials. -/
theorem c18_group_reorders_equal_dates :
    mapSlice (installedAntenna specLess c18AntennaList) "AAAA" = c18Stored ∧
    c18AntennaList.map (fun a => (a.MarkCode, a.Serial, a.Start)) =
      [("AAAA", "1", t2012), ("AAAA", "2", t2012), ("AAAA", "3", t2012),
        ("AAAA", "4", t2012), ("AAAA", "5", t2012), ("AAAA", "6", t2012),
        ("AAAA", "7", t2012), ("AAAA", "8", t2012), ("AAAA", "9", t2012),
        ("AAAA", "10", t2012), ("AAAA", "11", t2012), ("AAAA", "12", t2012),
        ("AAAA", "13", t2010)] ∧
    c18Stored.map (fun a => (a.MarkCode, a.Serial, a.Start)) =
      [("AAAA", "13", t2010), ("AAAA", "7", t2012), ("AAAA", "3", t2012),
        ("AAAA", "4", t2012), ("AAAA", "5", t2012), ("AAAA", "6", t2012),
        ("AAAA", "1", t2012), ("AAAA", "8", t2012), ("AAAA", "9", t2012),
        ("AAAA", "10", t2012), ("AAAA", "11", t2012), ("AAAA", "12", t2012),
        ("AAAA", "2", t2012)] ∧
    (mapSlice (installedAntenna specLess c18AntennaList) "AAAA").filter
        (fun a => decide (a.Start = t2012)) ≠
      (c18AntennaList.filter (fun a => decide (a.MarkCode = "AAAA"))).filter
        (fun a => decide (a.Start = t2012)) := by
  decide

/-- C18 (amended): with the orderings of package `meta` taken from the spec,
the group stored for a code in each of the four install maps is a
rearrangement of the loaded records of that code, in ascending order of
`Start`, and when the code has at most twelve records the records of any one
start are stored in source order; the firmware group stored for a model and
serial is a rearrangement of the loaded entries of that model and serial, in
ascending order of `Start`. -/
theorem c18_groups_sorted_rearrangements (c model serial : String)
    (antennaList : List InstalledAntenna) (receiverList : List DeployedReceiver)
    (radomeList : List InstalledRadome) (metSensorList : List InstalledMetSensor)
    (firmwareList : List FirmwareHistory) :
    ((mapSlice (installedAntenna specLess antennaList) c).Perm
        (antennaList.filter (fun a => decide (a.MarkCode = c))) ∧
      (mapSlice (installedAntenna specLess antennaList) c).Pairwise
        (fun a b => a.Start ≤ b.Start) ∧
      ((antennaList.filter (fun a => decide (a.MarkCode = c))).length ≤ 12 → ∀ t,
        (mapSlice (installedAntenna specLess antennaList) c).filter
            (fun a => decide (a.Start = t)) =
          (antennaList.filter (fun a => decide (a.MarkCode = c))).filter
            (fun a => decide (a.Start = t)))) ∧
    ((mapSlice (deployedReceivers specLess receiverList) c).Perm
        (receiverList.filter (fun a => decide (a.Mark = c))) ∧
      (mapSlice (deployedReceivers specLess receiverList) c).Pairwise
        (fun a b => a.Start ≤ b.Start) ∧
      ((receiverList.filter (fun a => decide (a.Mark = c))).length ≤ 12 → ∀ t,
        (mapSlice (deployedReceivers specLess receiverList) c).filter
            (fun a => decide (a.Start = t)) =
          (receiverList.filter (fun a => decide (a.Mark = c))).filter
            (fun a => decide (a.Start = t)))) ∧
    ((mapSlice (installedRadomes specLess radomeList) c).Perm
        (radomeList.filter (fun a => decide (a.MarkCode = c))) ∧
      (mapSlice (installedRadomes specLess radomeList) c).Pairwise
        (fun a b => a.Start ≤ b.Start) ∧
      ((radomeList.filter (fun a => decide (a.MarkCode = c))).length ≤ 12 → ∀ t,
        (mapSlice (installedRadomes specLess radomeList) c).filter
            (fun a => decide (a.Start = t)) =
          (radomeList.filter (fun a => decide (a.MarkCode = c))).filter
            (fun a => decide (a.Start = t)))) ∧
    ((mapSlice (installedMetSensors specLess metSensorList) c).Perm
        (metSensorList.filter (fun a => decide (a.MarkCode = c))) ∧
      (mapSlice (installedMetSensors specLess metSensorList) c).Pairwise
        (fun a b => a.Start ≤ b.Start) ∧
      ((metSensorList.filter (fun a => decide (a.MarkCode = c))).length ≤ 12 → ∀ t,
        (mapSlice (installedMetSensors specLess metSensorList) c).filter
            (fun a => decide (a.Start = t)) =
          (metSensorList.filter (fun a => decide (a.MarkCode = c))).filter
            (fun a => decide (a.Start = t)))) ∧
    ((firmwareGroup (firmwareHistory specLess firmwareList) model serial).Perm
        (firmwareList.filter (fun i => decide (i.Model = model ∧ i.Serial = serial))) ∧
      (firmwareGroup (firmwareHistory specLess firmwareList) model serial).Pairwise
        (fun a b => a.Start ≤ b.Start)) := by
  refine ⟨?_, ?_, ?_, ?_, ?_⟩
  · exact (mapSlice_sorted_group specLess.InstalledAntennaList
      (fun a : InstalledAntenna => a.Start) (fun a b => by simp [specLess])
      (fun a => a.MarkCode) antennaList c).2
  · exact (mapSlice_sorted_group specLess.DeployedReceiverList
      (fun a : DeployedReceiver => a.Start) (fun a b => by simp [specLess])
      (fun a => a.Mark) receiverList c).2
  · exact (mapSlice_sorted_group specLess.InstalledRadomeList
      (fun a : InstalledRadome => a.Start) (fun a b => by simp [specLess])
      (fun a => a.MarkCode) radomeList c).2
  · exact (mapSlice_sorted_group specLess.InstalledMetSensorList
      (fun a : InstalledMetSensor => a.Start) (fun a b => by simp [specLess])
      (fun a => a.MarkCode) metSensorList c).2
  · rw [firmwareGroup_firmwareHistory]
    exact ⟨sortSort_perm _ _,
      sortSort_ascending (fun a : FirmwareHistory => a.Start) _
        (fun a b => by simp [specLess]) _⟩

/-- C19: when the deployment `r` and the firmware entry `v` each start no
later than they end and the pass for them emits a record, the clipped interval
of the record is not empty: `clipStart r v` is not after `clipEnd r v`. -/
theorem c19_clipped_interval_non_empty (env : Env) (now : Time) (ss : List Session)
    (r : DeployedReceiver) (v : FirmwareHistory) (x : GnssReceiver)
    (hr : r.Start ≤ r.End) (hv : v.Start ≤ v.End)
    (hx : receiverPass env now ss r v = some x) :
    clipStart r v ≤ clipEnd r v ∧
    x.DateInstalled = env.Format (clipStart r v) ∧
    x.DateRemoved = (if After now (clipEnd r v) then env.Format (clipEnd r v) else "") := by
  obtain ⟨hov, s, _, hxs⟩ := (receiverPass_some env now ss r v x).mp hx
  rw [overlaps_iff] at hov
  refine ⟨?_, by rw [hxs]; rfl, by rw [hxs]; rfl⟩
  rw [clipStart_eq_max, clipEnd_eq_min]
  exact max_le (le_min hr hov.1) (le_min hov.2 hv)

/-- C19, applied to the deployment `c1Receiver` and the firmware entry
`c2Firmware1`, which clip to 2010-01-01 and 2012-06-01. -/
theorem c19_clipped_interval_non_empty_witness :
    (c1Receiver.Start ≤ c1Receiver.End ∧ c2Firmware1.Start ≤ c2Firmware1.End ∧
      receiverPass sampleEnv t2026 [c2Session] c1Receiver c2Firmware1 =
        some (receiverRecord sampleEnv t2026 c1Receiver c2Firmware1 c2Session)) ∧
    (clipStart c1Receiver c2Firmware1 ≤ clipEnd c1Receiver c2Firmware1 ∧
      (receiverRecord sampleEnv t2026 c1Receiver c2Firmware1 c2Session).DateInstalled =
        sampleEnv.Format (clipStart c1Receiver c2Firmware1) ∧
      (receiverRecord sampleEnv t2026 c1Receiver c2Firmware1 c2Session).DateRemoved =
        (if After t2026 (clipEnd c1Receiver c2Firmware1)
          then sampleEnv.Format (clipEnd c1Receiver c2Firmware1) else "")) :=
  ⟨by decide,
    c19_clipped_interval_non_empty sampleEnv t2026 [c2Session] c1Receiver c2Firmware1
      (receiverRecord sampleEnv t2026 c1Receiver c2Firmware1 c2Session)
      (by decide) (by decide) (by decide)⟩

/-- C20: for every position and whatever the transform and the arithmetic
return, provided only that the comparison `-1.0 < 0.0` is true, `country`
returns one of the four names of the table and never `Unknown`; and when the
four distances are numbers not below zero that `<` compares by their values,
the name returned is that of the first entry of the table whose distance is
the least: every entry before it is strictly farther and no entry after it is
nearer. -/
theorem c20_country_is_first_nearest {F : Type} (ops : FloatOps F)
    (WGS842ITRF : F → F → F → F × F × F) (lat lon : F)
    (hneg : ops.lt (ops.lit (-10) 1) (ops.lit 0 1) = true) :
    (country ops WGS842ITRF lat lon ∈ ["New Zealand", "Tonga", "Samoa", "Niue"] ∧
      country ops WGS842ITRF lat lon ≠ "Unknown") ∧
    ∀ (val : F → ℚ) (dist : Country F → F),
      dist = distance ops WGS842ITRF (WGS842ITRF lat lon (ops.lit 0 1)).1
        (WGS842ITRF lat lon (ops.lit 0 1)).2.1 →
      (∀ v ∈ countries ops, ops.lt (dist v) (ops.lit 0 1) = false) →
      (∀ v ∈ countries ops, ∀ w ∈ countries ops,
        ops.lt (dist v) (dist w) = decide (val (dist v) < val (dist w))) →
      ∃ pre v post, countries ops = pre ++ v :: post ∧
        country ops WGS842ITRF lat lon = v.name ∧
        (∀ p ∈ pre, val (dist v) < val (dist p)) ∧
        (∀ p ∈ post, val (dist v) ≤ val (dist p)) := by
  have hnames : (countries ops).map (fun v => v.name) =
      ["New Zealand", "Tonga", "Samoa", "Niue"] := rfl
  obtain ⟨v0, t, hc⟩ : ∃ v0 t, countries ops = v0 :: t := ⟨_, _, rfl⟩
  have hfold : ∀ X Y : F,
      (countries ops).foldl (countryPass ops WGS842ITRF X Y) (ops.lit (-10) 1, "Unknown") =
        t.foldl (countryPass ops WGS842ITRF X Y) (distance ops WGS842ITRF X Y v0, v0.name) := by
    intro X Y
    rw [hc, List.foldl_cons]
    congr 1
    unfold countryPass
    simp [hneg]
  constructor
  · have hmem : country ops WGS842ITRF lat lon ∈
        ["New Zealand", "Tonga", "Samoa", "Niue"] := by
      unfold country
      simp only [hfold]
      rw [← hnames, hc, List.map_cons, List.mem_cons]
      exact countryPass_foldl_name ops WGS842ITRF _ _ t _
    refine ⟨hmem, ?_⟩
    intro hu
    rw [hu] at hmem
    revert hmem
    decide
  · intro val dist hdist hz hcmp
    subst hdist
    unfold country
    simp only [hfold]
    rw [hc] at hz hcmp ⊢
    rcases countryPass_foldl_first_min ops WGS842ITRF _ _ val t _ v0.name
        (hz v0 (List.mem_cons_self v0 t))
        (fun v hv => hz v (List.mem_cons_of_mem v0 hv))
        (fun v hv => hcmp v (List.mem_cons_of_mem v0 hv) v0 (List.mem_cons_self v0 t))
        (fun v hv w hw => hcmp v (List.mem_cons_of_mem v0 hv) w
          (List.mem_cons_of_mem v0 hw)) with
      ⟨hres, hall⟩ | ⟨pre, w, post, hsplit, hres, hw, hpre, hpost⟩
    · refine ⟨[], v0, t, rfl, ?_, fun p hp => absurd hp (List.not_mem_nil p), hall⟩
      rw [hres]
    · refine ⟨v0 :: pre, w, post, by rw [hsplit]; rfl, ?_, ?_, hpost⟩
      · rw [hres]
      · intro p hp
        rcases List.mem_cons.mp hp with hp1 | hp1
        · rw [hp1]; exact hw
        · exact hpre p hp1

/-- C20, applied to the sample arithmetic and transform at latitude -19.1 and
longitude -170.0, next to the last entry of the table: the name returned is
`Niue`, whose distance is strictly less than the three before it. -/
theorem c20_country_is_first_nearest_witness :
    (sampleOps.lt (sampleOps.lit (-10) 1) (sampleOps.lit 0 1) = true ∧
      country sampleOps sampleTransform (-191) (-1700) = "Niue") ∧
    (country sampleOps sampleTransform (-191) (-1700) ∈
        ["New Zealand", "Tonga", "Samoa", "Niue"] ∧
      country sampleOps sampleTransform (-191) (-1700) ≠ "Unknown") ∧
    ∃ pre v post, countries sampleOps = pre ++ v :: post ∧
      country sampleOps sampleTransform (-191) (-1700) = v.name ∧
      (∀ p ∈ pre,
        ((distance sampleOps sampleTransform (-191) (-1700) v : Int) : ℚ) <
          ((distance sampleOps sampleTransform (-191) (-1700) p : Int) : ℚ)) ∧
      (∀ p ∈ post,
        ((distance sampleOps sampleTransform (-191) (-1700) v : Int) : ℚ) ≤
          ((distance sampleOps sampleTransform (-191) (-1700) p : Int) : ℚ)) :=
  ⟨by decide,
    (c20_country_is_first_nearest sampleOps sampleTransform (-191) (-1700) (by decide)).1,
    (c20_country_is_first_nearest sampleOps sampleTransform (-191) (-1700) (by decide)).2
      (fun x => (x : ℚ)) (distance sampleOps sampleTransform (-191) (-1700)) rfl
      (by decide)
      (fun v _ w _ => by simp [sampleOps])⟩

end Sitelogs
